import Mathlib

/-! muviz: validation of the shader configuration document.

A shallow embedding of `src/ShaderConfig.cpp`.  The constructor
`ShaderConfig::ShaderConfig(std::string, bool&)` parses its text with rapidjson and
then walks the resulting tree.  The parser is a library; the walk is what is embedded
here, as the function `validate` on the document tree (source lines 33-311).

The constructor reports through an out-parameter `is_ok`, prints one message to
`cout` on failure, and fills the members `mAudio_ops`, `mBuffers`, `mRender_order`
and `mUniforms` of the object under construction as it goes.  The embedding keeps all
three: the outcome of `validate` holds the failure (if any) and the members as they
stand when the constructor returns.  The two constructors themselves are `fromString`
and `fromPath`, with the parser and the file reader as parameters.
-/

namespace Muviz

/-! ## The document tree (rapidjson `Value`) -/

/-- A JSON number as rapidjson holds it: an integer literal that fits in 64 bits is kept
as an integer, every other number is kept as a `double`, here by its exact value. -/
inductive JNumber where
  | int (i : Int)
  | real (d : ℚ)

/-- A rapidjson `Value`.  An object is the sequence of its members in document order;
nothing prevents two members from carrying the same name. -/
inductive JValue where
  | null
  | bool (b : Bool)
  | number (n : JNumber)
  | string (s : String)
  | array (elems : List JValue)
  | object (members : List (String × JValue))

/-- The mathematical value of a number of the document. -/
def JNumber.value : JNumber → ℚ
  | .int i => (i : ℚ)
  | .real d => d

/-- `Value::IsInt()`: the number is held as an integer and fits in 32 signed bits. -/
def JNumber.IsInt : JNumber → Bool
  | .int i => decide (-(2 : Int) ^ 31 ≤ i) && decide (i < (2 : Int) ^ 31)
  | .real _ => false

/-- `Value::GetInt()`, meaningful when `IsInt` holds. -/
def JNumber.GetInt : JNumber → Int
  | .int i => i
  | .real _ => 0

/-- `Value::FindMember(name)`: a linear scan that stops at the first member whose name
has the same length and bytes as `name`.  `HasMember(name)` is `(FindMember ..).isSome`
and `value[name]` is the value found. -/
def FindMember : List (String × JValue) → String → Option JValue
  | [], _ => none
  | (k, v) :: rest, name => if k = name then some v else FindMember rest name

/-- What `std::string s = value.GetString()` stores.  `GetString()` returns a
`const char*`, so the copy stops at the first NUL character of the JSON string (which
a document can contain, written `\u0000`). -/
def cstr (s : String) : String :=
  String.mk (s.data.takeWhile (fun c => c != Char.ofNat 0))

/-! ## Conversion to `float` (`Value::GetFloat`) -/

/-- Nearest integer, ties to the even one. -/
def roundTiesEven (q : ℚ) : Int :=
  let f := ⌊q⌋
  if q - f < 1 / 2 then f
  else if 1 / 2 < q - f then f + 1
  else if f % 2 = 0 then f else f + 1

/-- The integer `e` with `2 ^ e ≤ |q| < 2 ^ (e + 1)`, for `q ≠ 0`. -/
def ilog2 (q : ℚ) : Int :=
  let k : Int := (Nat.log2 q.num.natAbs : Int) - (Nat.log2 q.den : Int)
  if (2 : ℚ) ^ k ≤ |q| then k else k - 1

/-- Rounding to the nearest binary floating-point number with `prec` significant bits and
least normal exponent `emin` (ties to even, gradual underflow).  The exponent is not
bounded above: a result of magnitude `2 ^ 128` or more for `float` stands for an
infinity, and compares with `0` and `1` as the infinity does.  The sign of a zero is
not kept. -/
def roundBinary (prec : Nat) (emin : Int) (q : ℚ) : ℚ :=
  if q = 0 then 0
  else
    let e := max (ilog2 q) emin
    let ulp : ℚ := (2 : ℚ) ^ (e - prec + 1)
    roundTiesEven (q / ulp) * ulp

/-- Conversion to `double` (IEEE binary64). -/
def toDouble (q : ℚ) : ℚ := roundBinary 53 (-1022) q

/-- Conversion to `float` (IEEE binary32). -/
def toFloat (q : ℚ) : ℚ := roundBinary 24 (-126) q

/-- `Value::GetDouble()`: the stored `double`, or the stored integer converted. -/
def JNumber.GetDouble : JNumber → ℚ
  | .int i => toDouble (i : ℚ)
  | .real d => d

/-- `Value::GetFloat()` is `static_cast<float>(GetDouble())`. -/
def JNumber.GetFloat (n : JNumber) : ℚ := toFloat n.GetDouble

/-! ## The configuration object -/

/-- Modelled from the spec: `ShaderConfig.h` is not among the sources.  The fields are
the four the constructor assigns (lines 95-108), typed as section 3 of the spec says. -/
structure AudioOptions where
  fft_smooth : ℚ
  wave_smooth : ℚ
  fft_sync : Bool
  diff_sync : Bool
  deriving DecidableEq

/-- Modelled from the spec: `ShaderConfig.h` is not among the sources.  The fields are
those the buffer loop assigns (lines 132-217). -/
structure Buffer where
  name : String
  width : Int
  height : Int
  is_window_size : Bool
  geom_iters : Int
  clear_color : ℚ × ℚ × ℚ
  deriving DecidableEq

/-- Modelled from the spec: `ShaderConfig.h` is not among the sources.  The fields are
those the uniform loop assigns (lines 281-299). -/
structure Uniform where
  name : String
  values : List ℚ
  deriving DecidableEq

/-- The members of `ShaderConfig` that the constructor fills.  `mAudio_ops` is `none`
until line 110 assigns it. -/
structure ShaderConfig where
  mAudio_ops : Option AudioOptions
  mBuffers : List Buffer
  mRender_order : List Nat
  mUniforms : List Uniform
  deriving DecidableEq

/-- The object before the constructor body runs. -/
def ShaderConfig.empty : ShaderConfig :=
  { mAudio_ops := none, mBuffers := [], mRender_order := [], mUniforms := [] }

/-! ## Failures -/

/-- One constructor per place where the source prints a message, sets `is_ok = false`
and returns. -/
inductive Failure where
  | invalidJson
  | audioNotObject
  | audioMissingFftSmooth
  | audioMissingWaveSmooth
  | audioMissingFftSync
  | audioMissingDiffSync
  | fftSmoothNotNumber
  | waveSmoothNotNumber
  | fftSyncNotBool
  | diffSyncNotBool
  | fftSmoothRange
  | waveSmoothRange
  | needsAudioOptions
  | buffersNotObject
  | bufferNoName
  | bufferBadName (name : String)
  | bufferNamedImage
  | bufferDuplicate
  | bufferNotObject (name : String)
  | bufferMissingSize (name : String)
  | bufferMissingGeomIters (name : String)
  | bufferMissingClearColor (name : String)
  | bufferBadSize (name : String)
  | bufferBadGeomIters (name : String)
  | bufferBadClearColor (name : String)
  | needsRenderOrder
  | renderOrderNotArray
  | renderOrderNotString
  | renderOrderUnknown (b_name : String)
  | uniformsNotObject
  | uniformTooLong (name : String)
  | uniformNonNumeric (name : String)
  | uniformBadShape (name : String)
  deriving DecidableEq

/-- The text the source writes to `cout` at each failure. -/
def Failure.message : Failure → String
  | .invalidJson => "Invalid json file"
  | .audioNotObject => "Audio options must be a json object"
  | .audioMissingFftSmooth => "Audio options must contain the FFT_smooth option"
  | .audioMissingWaveSmooth => "Audio options must contain the WAVE_smooth option"
  | .audioMissingFftSync => "Audio options must contain the FFT_smooth option"
  | .audioMissingDiffSync => "Audio options must contain the DIFF_sync option"
  | .fftSmoothNotNumber => "FFT_SMOOTH must be a number between in the interval [0, 1]"
  | .waveSmoothNotNumber => "WAVE_SMOOTH must be a number between in the interval [0, 1]"
  | .fftSyncNotBool => "FFT_SYNC must be a bool"
  | .diffSyncNotBool => "DIFF_SYNC must be a bool"
  | .fftSmoothRange => "FFT_SMOOTH must be in the interval [0, 1]"
  | .waveSmoothRange => "WAVE_SMOOTH must be in the interval [0, 1]"
  | .needsAudioOptions => "shader.json needs audio_options setting"
  | .buffersNotObject => "buffers is not a json object"
  | .bufferNoName => "Buffer must have a name"
  | .bufferBadName name =>
      "Invalid buffer name: " ++ name ++
        " buffer names must start with either a letter or an underscore"
  | .bufferNamedImage => "Cannot name buffer image"
  | .bufferDuplicate => "Buffers must have unique names"
  | .bufferNotObject name => "Buffer " ++ name ++ " is not a json object"
  | .bufferMissingSize name => name ++ " does not contain the size option"
  | .bufferMissingGeomIters name => name ++ " does not contain the geom_iters option"
  | .bufferMissingClearColor name => name ++ " does not contain the clear_color option"
  | .bufferBadSize name => name ++ " has incorrect value for size option"
  | .bufferBadGeomIters name => name ++ " has incorrect value for geom_iters option"
  | .bufferBadClearColor name => name ++ " has incorrect value for clear_color option"
  | .needsRenderOrder =>
      "shader.json needs render_order setting if there are buffers declared"
  | .renderOrderNotArray => "render_order must be an array with length > 0"
  | .renderOrderNotString => "render_order can only contain buffer name strings"
  | .renderOrderUnknown b_name =>
      "render_order member \"" ++ b_name ++ "\" must be the name of a buffer in \"buffers\""
  | .uniformsNotObject => "Uniforms must be a json object."
  | .uniformTooLong name =>
      "Uniform " ++ name ++ " must have dimension less than or equal to 4"
  | .uniformNonNumeric name => "Uniform " ++ name ++ " contains a non-numeric value."
  | .uniformBadShape name =>
      "Uniform " ++ name ++ " must be either a number or an array of numbers."

/-- The error kinds of section 7 of the spec. -/
inductive ErrorKind where
  | MalformedDocument
  | MissingField
  | TypeMismatch
  | RangeViolation
  | InvalidIdentifier
  | DuplicateName
  | UnknownReference
  | ArityViolation
  deriving DecidableEq

/-- Modelled from the spec: the source has no error kinds, only messages.  Each failure
is given the kind of section 7 whose description it falls under.  The one message for
`geom_iters` covers both a wrong type and a value that is not positive; it is filed
under `TypeMismatch`. -/
def Failure.kind : Failure → ErrorKind
  | .invalidJson => .MalformedDocument
  | .audioNotObject => .MalformedDocument
  | .audioMissingFftSmooth => .MissingField
  | .audioMissingWaveSmooth => .MissingField
  | .audioMissingFftSync => .MissingField
  | .audioMissingDiffSync => .MissingField
  | .fftSmoothNotNumber => .TypeMismatch
  | .waveSmoothNotNumber => .TypeMismatch
  | .fftSyncNotBool => .TypeMismatch
  | .diffSyncNotBool => .TypeMismatch
  | .fftSmoothRange => .RangeViolation
  | .waveSmoothRange => .RangeViolation
  | .needsAudioOptions => .MissingField
  | .buffersNotObject => .MalformedDocument
  | .bufferNoName => .InvalidIdentifier
  | .bufferBadName _ => .InvalidIdentifier
  | .bufferNamedImage => .InvalidIdentifier
  | .bufferDuplicate => .DuplicateName
  | .bufferNotObject _ => .TypeMismatch
  | .bufferMissingSize _ => .MissingField
  | .bufferMissingGeomIters _ => .MissingField
  | .bufferMissingClearColor _ => .MissingField
  | .bufferBadSize _ => .TypeMismatch
  | .bufferBadGeomIters _ => .TypeMismatch
  | .bufferBadClearColor _ => .TypeMismatch
  | .needsRenderOrder => .MissingField
  | .renderOrderNotArray => .MalformedDocument
  | .renderOrderNotString => .TypeMismatch
  | .renderOrderUnknown _ => .UnknownReference
  | .uniformsNotObject => .MalformedDocument
  | .uniformTooLong _ => .ArityViolation
  | .uniformNonNumeric _ => .TypeMismatch
  | .uniformBadShape _ => .TypeMismatch

/-- What the constructor leaves behind: the failure it printed (none when `is_ok` stays
`true`) and the members of the object. -/
structure Outcome where
  failure : Option Failure
  conf : ShaderConfig
  deriving DecidableEq

/-- The out-parameter `is_ok`: set to `true` on line 23 and to `false` at every
failure. -/
def Outcome.is_ok (o : Outcome) : Bool := o.failure.isNone

/-! ## The validator -/

/-- Lines 42-110: the `audio_options` section.  All four presence checks come first,
then the four type checks, then the two range checks on the converted values. -/
def audioOptions : JValue → Except Failure AudioOptions
  | .object audio_options =>
    match FindMember audio_options "FFT_SMOOTH", FindMember audio_options "WAVE_SMOOTH",
        FindMember audio_options "FFT_SYNC", FindMember audio_options "DIFF_SYNC" with
    | none, _, _, _ => .error .audioMissingFftSmooth
    | some _, none, _, _ => .error .audioMissingWaveSmooth
    | some _, some _, none, _ => .error .audioMissingFftSync
    | some _, some _, some _, none => .error .audioMissingDiffSync
    | some fft_smooth, some wave_smooth, some fft_sync, some diff_sync =>
      match fft_smooth, wave_smooth, fft_sync, diff_sync with
      | .number fs, .number ws, .bool fy, .bool dy =>
        if fs.GetFloat < 0 ∨ fs.GetFloat > 1 then .error .fftSmoothRange
        else if ws.GetFloat < 0 ∨ ws.GetFloat > 1 then .error .waveSmoothRange
        else .ok { fft_smooth := fs.GetFloat, wave_smooth := ws.GetFloat,
                   fft_sync := fy, diff_sync := dy }
      | .number _, .number _, .bool _, _ => .error .diffSyncNotBool
      | .number _, .number _, _, _ => .error .fftSyncNotBool
      | .number _, _, _, _ => .error .waveSmoothNotNumber
      | _, _, _, _ => .error .fftSmoothNotNumber
  | _ => .error .audioNotObject

/-- Lines 182-201: the `size` option. -/
def bufferSize (name : String) : JValue → Except Failure (Int × Int × Bool)
  | .array [.number w, .number h] =>
    if w.IsInt && h.IsInt then .ok (w.GetInt, h.GetInt, false)
    else .error (.bufferBadSize name)
  | .array [_, _] => .error (.bufferBadSize name)
  | .string s => if cstr s = "window_size" then .ok (0, 0, true)
                 else .error (.bufferBadSize name)
  | _ => .error (.bufferBadSize name)

/-- Lines 203-208: the `geom_iters` option. -/
def bufferGeomIters (name : String) : JValue → Except Failure Int
  | .number n => if n.IsInt && decide (n.GetInt > 0) then .ok n.GetInt
                 else .error (.bufferBadGeomIters name)
  | _ => .error (.bufferBadGeomIters name)

/-- Lines 210-225: the `clear_color` option. -/
def bufferClearColor (name : String) : JValue → Except Failure (ℚ × ℚ × ℚ)
  | .array [.number r, .number g, .number b] => .ok (r.GetFloat, g.GetFloat, b.GetFloat)
  | _ => .error (.bufferBadClearColor name)

/-- Lines 156-225: the body of one buffer, once its name has been accepted. -/
def bufferBody (name : String) : JValue → Except Failure Buffer
  | .object buffer =>
    match FindMember buffer "size", FindMember buffer "geom_iters",
        FindMember buffer "clear_color" with
    | none, _, _ => .error (.bufferMissingSize name)
    | some _, none, _ => .error (.bufferMissingGeomIters name)
    | some _, some _, none => .error (.bufferMissingClearColor name)
    | some b_size, some b_geom_iters, some b_clear_color =>
      match bufferSize name b_size with
      | .error f => .error f
      | .ok (width, height, is_window_size) =>
        match bufferGeomIters name b_geom_iters with
        | .error f => .error f
        | .ok geom_iters =>
          match bufferClearColor name b_clear_color with
          | .error f => .error f
          | .ok clear_color =>
            .ok { name := name, width := width, height := height,
                  is_window_size := is_window_size, geom_iters := geom_iters,
                  clear_color := clear_color }
  | _ => .error (.bufferNotObject name)

/-- Lines 132-153: the checks on a buffer's name, against the names seen so far.
`std::isalpha` is taken in the "C" locale, where it holds of the ASCII letters only. -/
def bufferName (buffer_names : List String) (name : String) : Option Failure :=
  match name.data with
  | [] => some .bufferNoName
  | c :: _ =>
    if !(c.isAlpha || c == '_') then some (.bufferBadName name)
    else if name = "image" then some .bufferNamedImage
    else if name ∈ buffer_names then some .bufferDuplicate
    else none

/-- Lines 128-228: the loop over the members of `buffers`.  It carries the local
`buffer_names` and the member `mBuffers`; on a failure it returns `mBuffers` as it
stands. -/
def bufferLoop : List (String × JValue) → List String → List Buffer →
    Option Failure × List Buffer
  | [], _, mBuffers => (none, mBuffers)
  | (key, buffer) :: rest, buffer_names, mBuffers =>
    match bufferName buffer_names (cstr key) with
    | some f => (some f, mBuffers)
    | none =>
      match bufferBody (cstr key) buffer with
      | .error f => (some f, mBuffers)
      | .ok b => bufferLoop rest (buffer_names ++ [cstr key]) (mBuffers ++ [b])

/-- Lines 249-255: the first index `j` with `mBuffers[j].name == b_name`, counted from
`start`; `none` stands for `index == -1`. -/
def findBuffer (b_name : String) : List Buffer → Nat → Option Nat
  | [], _ => none
  | b :: rest, start => if b.name = b_name then some start else findBuffer b_name rest (start + 1)

/-- Lines 241-264: the loop over the elements of `render_order`, carrying the member
`mRender_order`. -/
def renderLoop (mBuffers : List Buffer) : List JValue → List Nat → Option Failure × List Nat
  | [], mRender_order => (none, mRender_order)
  | .string s :: rest, mRender_order =>
    match findBuffer (cstr s) mBuffers 0 with
    | none => (some (.renderOrderUnknown (cstr s)), mRender_order)
    | some index => renderLoop mBuffers rest (mRender_order ++ [index])
  | _ :: _, mRender_order => (some .renderOrderNotString, mRender_order)

/-- Lines 289-296: the elements of an array uniform. -/
def uniformValues (name : String) : List JValue → List ℚ → Except Failure (List ℚ)
  | [], values => .ok values
  | .number n :: rest, values => uniformValues name rest (values ++ [n.GetFloat])
  | _ :: _, _ => .error (.uniformNonNumeric name)

/-- Lines 278-305: one uniform. -/
def uniformOf (name : String) : JValue → Except Failure Uniform
  | .array elems =>
    if elems.length > 4 then .error (.uniformTooLong name)
    else
      match uniformValues name elems [] with
      | .error f => .error f
      | .ok values => .ok { name := name, values := values }
  | .number n => .ok { name := name, values := [n.GetFloat] }
  | _ => .error (.uniformBadShape name)

/-- Lines 277-308: the loop over the members of `uniforms`, carrying `mUniforms`. -/
def uniformLoop : List (String × JValue) → List Uniform → Option Failure × List Uniform
  | [], mUniforms => (none, mUniforms)
  | (key, uniform) :: rest, mUniforms =>
    match uniformOf (cstr key) uniform with
    | .error f => (some f, mUniforms)
    | .ok u => uniformLoop rest (mUniforms ++ [u])

/-- Lines 230-264: the `render_order` section, entered once the buffer loop is done. -/
def renderOrder (user_conf : List (String × JValue)) (mBuffers : List Buffer) :
    Option Failure × List Nat :=
  match FindMember user_conf "render_order" with
  | none => (some .needsRenderOrder, [])
  | some (.array (x :: rest)) => renderLoop mBuffers (x :: rest) []
  | some _ => (some .renderOrderNotArray, [])

/-- Lines 118-266: the `buffers` section with its `render_order`.  Returns the failure
and the members `mBuffers` and `mRender_order`. -/
def buffersPhase (user_conf : List (String × JValue)) :
    Option Failure × List Buffer × List Nat :=
  match FindMember user_conf "buffers" with
  | none => (none, [], [])
  | some (.object []) => (none, [], [])
  | some (.object (m :: ms)) =>
    match bufferLoop (m :: ms) [] [] with
    | (some f, mBuffers) => (some f, mBuffers, [])
    | (none, mBuffers) =>
      match renderOrder user_conf mBuffers with
      | (failure, mRender_order) => (failure, mBuffers, mRender_order)
  | some _ => (some .buffersNotObject, [], [])

/-- Lines 268-310: the `uniforms` section. -/
def uniformsPhase (user_conf : List (String × JValue)) : Option Failure × List Uniform :=
  match FindMember user_conf "uniforms" with
  | none => (none, [])
  | some (.object uniforms) => uniformLoop uniforms []
  | some _ => (some .uniformsNotObject, [])

/-- Lines 33-311: the constructor body after parsing.  The sections run in the order
audio options, buffers with render order, uniforms; the first failure ends the run and
the members keep what was stored up to then. -/
def validate : JValue → Outcome
  | .object user_conf =>
    match FindMember user_conf "audio_options" with
    | none => { failure := some .needsAudioOptions, conf := ShaderConfig.empty }
    | some audio_options =>
      match audioOptions audio_options with
      | .error f => { failure := some f, conf := ShaderConfig.empty }
      | .ok ao =>
        match buffersPhase user_conf with
        | (some f, mBuffers, mRender_order) =>
          { failure := some f,
            conf := { mAudio_ops := some ao, mBuffers := mBuffers,
                      mRender_order := mRender_order, mUniforms := [] } }
        | (none, mBuffers, mRender_order) =>
          match uniformsPhase user_conf with
          | (failure, mUniforms) =>
            { failure := failure,
              conf := { mAudio_ops := some ao, mBuffers := mBuffers,
                        mRender_order := mRender_order, mUniforms := mUniforms } }
  | _ => { failure := some .invalidJson, conf := ShaderConfig.empty }

/-! ## The two constructors -/

/-- What the caller of a constructor gets: the out-parameter `is_ok` and the object that
was constructed. -/
structure Constructed where
  is_ok : Bool
  object : ShaderConfig
  deriving DecidableEq

/-- Lines 22-311: `ShaderConfig::ShaderConfig(std::string json_str, bool& is_ok)`.
`Parse` stands for rapidjson's parser (comments and trailing commas allowed), which is run
on `json_str.c_str()` and yields no tree on a parse error; the constructor then returns
with `is_ok = false` (lines 27-31).  Otherwise the body is `validate`. -/
def ShaderConfig.fromString (Parse : String → Option JValue) (json_str : String) :
    Constructed :=
  match Parse (cstr json_str) with
  | none => { is_ok := false, object := ShaderConfig.empty }
  | some user_conf =>
    { is_ok := (validate user_conf).is_ok, object := (validate user_conf).conf }

/-- Lines 18-21: `ShaderConfig::ShaderConfig(filesys::path conf_file_path, bool& is_ok)`.
`read` stands for `JsonReader::read`, which is not among the sources.  The statement
`ShaderConfig(json_str, is_ok);` constructs a temporary from the text and destroys it at
once: the caller's `is_ok` is the one the temporary's constructor sets, and no member of
the object under construction is assigned. -/
def ShaderConfig.fromPath {Path : Type} (Parse : String → Option JValue)
    (read : Path → String) (conf_file_path : Path) : Constructed :=
  let json_str := read conf_file_path
  let temporary := ShaderConfig.fromString Parse json_str
  { is_ok := temporary.is_ok, object := ShaderConfig.empty }

/-! ## The schema, in the words of the specification -/

/-- The string starts with an ASCII letter or an underscore. -/
def StartsLetterOrUnderscore (s : String) : Bool :=
  match s.data with
  | [] => false
  | c :: _ => c.isAlpha || c == '_'

/-- Buffer names are non-empty, start with a letter or an underscore, differ from
`"image"` and are pairwise distinct. -/
def ValidBufferNames (names : List String) : Prop :=
  (∀ n ∈ names, n ≠ "" ∧ StartsLetterOrUnderscore n = true ∧ n ≠ "image") ∧ names.Nodup

/-- `size` is an array of exactly two ints or the string `"window_size"`. -/
def ValidSize (v : JValue) : Prop :=
  (∃ w h, v = .array [.number w, .number h] ∧ w.IsInt = true ∧ h.IsInt = true) ∨
    v = .string "window_size"

/-- `geom_iters` is an int greater than zero. -/
def ValidGeomIters (v : JValue) : Prop :=
  ∃ n, v = .number n ∧ n.IsInt = true ∧ 0 < n.GetInt

/-- `clear_color` is an array of exactly three numbers. -/
def ValidClearColor (v : JValue) : Prop :=
  ∃ r g b, v = .array [.number r, .number g, .number b]

/-- A buffer value is an object with a valid `size`, `geom_iters` and `clear_color`. -/
def ValidBufferBody (v : JValue) : Prop :=
  ∃ ms s g c, v = .object ms ∧
    FindMember ms "size" = some s ∧ ValidSize s ∧
    FindMember ms "geom_iters" = some g ∧ ValidGeomIters g ∧
    FindMember ms "clear_color" = some c ∧ ValidClearColor c

/-- The members `bs` of a `buffers` object are fully valid buffers, their names being
read through `view`. -/
def ValidBuffers (view : String → String) (bs : List (String × JValue)) : Prop :=
  ValidBufferNames (bs.map (fun m => view m.1)) ∧ ∀ m ∈ bs, ValidBufferBody m.2

/-- A uniform value is a number or an array of at most four numbers. -/
def ValidUniform (v : JValue) : Prop :=
  (∃ n, v = .number n) ∨
    (∃ elems, v = .array elems ∧ elems.length ≤ 4 ∧ ∀ e ∈ elems, ∃ n, e = .number n)

/-- `audio_options` is an object with numbers `FFT_SMOOTH` and `WAVE_SMOOTH` in `[0, 1]`
and booleans `FFT_SYNC` and `DIFF_SYNC`. -/
def ValidAudio (v : JValue) : Prop :=
  ∃ ms fs ws fy dy, v = .object ms ∧
    FindMember ms "FFT_SMOOTH" = some (.number fs) ∧ 0 ≤ fs.value ∧ fs.value ≤ 1 ∧
    FindMember ms "WAVE_SMOOTH" = some (.number ws) ∧ 0 ≤ ws.value ∧ ws.value ≤ 1 ∧
    FindMember ms "FFT_SYNC" = some (.bool fy) ∧
    FindMember ms "DIFF_SYNC" = some (.bool dy)

/-- The root object has a valid `audio_options` member. -/
def HasValidAudio (root : List (String × JValue)) : Prop :=
  ∃ a, FindMember root "audio_options" = some a ∧ ValidAudio a

/-- The document meets the schema of section 6 of the spec: the root is an object,
`audio_options` is valid, `buffers` is absent or an object of fully valid buffers,
`render_order` is a non-empty array of strings each equal to a declared buffer key
whenever `buffers` has a member, and `uniforms` is absent or an object of valid uniform
values.  Members beyond these are unconstrained.  With `view = id` the conditions on
buffer names are about the keys as the document has them; with `view = cstr` they are
about the keys as the constructor reads them. -/
def MeetsSchema (view : String → String) (doc : JValue) : Prop :=
  ∃ root, doc = .object root ∧ HasValidAudio root ∧
    (FindMember root "buffers" = none ∨
      ∃ bs, FindMember root "buffers" = some (.object bs) ∧ ValidBuffers view bs ∧
        (bs ≠ [] → ∃ ro, FindMember root "render_order" = some (.array ro) ∧ ro ≠ [] ∧
          ∀ x ∈ ro, ∃ s, x = .string s ∧ s ∈ bs.map (fun m => m.1))) ∧
    (FindMember root "uniforms" = none ∨
      ∃ us, FindMember root "uniforms" = some (.object us) ∧ ∀ m ∈ us, ValidUniform m.2)

/-- Index `j` is within bounds of `bs` and buffer `j` is the first one named `nm`. -/
def IsFirstIndex (bs : List Buffer) (nm : String) (j : Nat) : Prop :=
  j < bs.length ∧ (∃ b, bs[j]? = some b ∧ b.name = nm) ∧
    ∀ i b, i < j → bs[i]? = some b → b.name ≠ nm

/-- The elements of the document's `render_order` array (none when the member is absent
or is not an array). -/
def renderOrderArray : JValue → List JValue
  | .object root =>
    match FindMember root "render_order" with
    | some (.array ro) => ro
    | _ => []
  | _ => []

/-- The document's `buffers` member is an object with at least one member. -/
def DeclaresBuffers (doc : JValue) : Prop :=
  ∃ root m ms, doc = .object root ∧ FindMember root "buffers" = some (.object (m :: ms))

/-- The render order of `conf` has one entry per element of `ro`, in the same order, and
each entry is the first index of the buffer named by that element, a string whose name is
read through `view`. -/
def RenderOrderResolves (view : String → String) (ro : List JValue) (conf : ShaderConfig) :
    Prop :=
  List.Forall₂ (fun x j => ∃ s, x = JValue.string s ∧ IsFirstIndex conf.mBuffers (view s) j)
    ro conf.mRender_order

/-! ## Examples of documents -/

/-- The `audio_options` of the first example of the spec (with `WAVE_SMOOTH` a quarter,
so that every number is held exactly). -/
def exAudio : JValue :=
  .object [("FFT_SMOOTH", .number (.real (1 / 2))), ("WAVE_SMOOTH", .number (.real (1 / 4))),
    ("FFT_SYNC", .bool true), ("DIFF_SYNC", .bool false)]

/-- The audio options stored for `exAudio`. -/
def exAudioOptions : AudioOptions :=
  { fft_smooth := 1 / 2, wave_smooth := 1 / 4, fft_sync := true, diff_sync := false }

/-- The buffer body of the third example of the spec:
`{"size":[64,64],"geom_iters":1,"clear_color":[0,0,0]}`. -/
def exBody : JValue :=
  .object [("size", .array [.number (.int 64), .number (.int 64)]),
    ("geom_iters", .number (.int 1)),
    ("clear_color", .array [.number (.int 0), .number (.int 0), .number (.int 0)])]

/-- The buffer stored for `exBody` under the name `name`. -/
def exBuffer (name : String) : Buffer :=
  { name := name, width := 64, height := 64, is_window_size := false, geom_iters := 1,
    clear_color := (0, 0, 0) }

/-- The key `a\u0000b`: the letter `a`, a NUL character, the letter `b`. -/
def keyANulB : String := String.mk ['a', Char.ofNat 0, 'b']

/-- The key `a\u0000c`: the letter `a`, a NUL character, the letter `c`. -/
def keyANulC : String := String.mk ['a', Char.ofNat 0, 'c']

/-- Two buffers whose keys differ only after a NUL character; the render order names the
first. -/
def docNulKeys : JValue :=
  .object [("audio_options", exAudio),
    ("buffers", .object [(keyANulB, exBody), (keyANulC, exBody)]),
    ("render_order", .array [.string keyANulB])]


/-- A document with every section: two buffers, a render order that lists one of them
twice, and two uniforms (the `tint` of the fourth example of the spec and a scalar). -/
def docFull : JValue :=
  .object [("audio_options", exAudio),
    ("buffers", .object [("a", exBody), ("b", exBody)]),
    ("render_order", .array [.string "b", .string "a", .string "b"]),
    ("uniforms", .object
      [("tint", .array [.number (.int 1), .number (.int 0), .number (.int 0), .number (.int 1)]),
       ("gain", .number (.real (1 / 2)))])]

/-- The object the constructor builds from `docFull`. -/
def confFull : ShaderConfig :=
  { mAudio_ops := some exAudioOptions,
    mBuffers := [exBuffer "a", exBuffer "b"],
    mRender_order := [1, 0, 1],
    mUniforms := [{ name := "tint", values := [1, 0, 0, 1] }, { name := "gain", values := [1 / 2] }] }

/-- A render order without any buffers. -/
def docRenderOnly : JValue :=
  .object [("audio_options", exAudio), ("render_order", .array [.string "a"])]

/-- One buffer `a`, and a render order whose only entry is the string `a\u0000b`. -/
def docNulRender : JValue :=
  .object [("audio_options", exAudio), ("buffers", .object [("a", exBody)]),
    ("render_order", .array [.string keyANulB])]

/-- A uniform given as the empty array. -/
def docEmptyUniform : JValue :=
  .object [("audio_options", exAudio), ("uniforms", .object [("u", .array [])])]

/-- The same key twice, each time with a valid body. -/
def docDuplicate : JValue :=
  .object [("audio_options", exAudio), ("buffers", .object [("a", exBody), ("a", exBody)]),
    ("render_order", .array [.string "a"])]

/-- The same key twice, each time with a number in place of the body. -/
def docDuplicateBadBody : JValue :=
  .object [("audio_options", exAudio),
    ("buffers", .object [("a", .number (.int 5)), ("a", .number (.int 5))]),
    ("render_order", .array [.string "a"])]

/-- `FFT_SMOOTH` is 2 and `WAVE_SMOOTH` is absent. -/
def docFftTwoNoWave : JValue :=
  .object [("audio_options", .object [("FFT_SMOOTH", .number (.int 2)),
    ("FFT_SYNC", .bool true), ("DIFF_SYNC", .bool false)])]

/-- `FFT_SMOOTH` is 2 and `WAVE_SMOOTH` is a string. -/
def docFftTwoWaveString : JValue :=
  .object [("audio_options", .object [("FFT_SMOOTH", .number (.int 2)),
    ("WAVE_SMOOTH", .string "high"), ("FFT_SYNC", .bool true), ("DIFF_SYNC", .bool false)])]

/-- `FFT_SMOOTH` is the `double` `1 + 2 ^ (-30)`, just above 1; all else is valid. -/
def audioJustAboveOne : JValue :=
  .object [("FFT_SMOOTH", .number (.real (1 + 1 / 2 ^ 30))),
    ("WAVE_SMOOTH", .number (.real (1 / 4))), ("FFT_SYNC", .bool true),
    ("DIFF_SYNC", .bool false)]

/-- The audio options stored for `audioJustAboveOne`. -/
def audioOptionsJustAboveOne : AudioOptions :=
  { fft_smooth := 1, wave_smooth := 1 / 4, fft_sync := true, diff_sync := false }

/-- A document with `audioJustAboveOne` and nothing else. -/
def docFftJustAboveOne : JValue := .object [("audio_options", audioJustAboveOne)]

/-- All audio options but `FFT_SYNC`:
`{"audio_options":{"FFT_SMOOTH":0.5,"WAVE_SMOOTH":0.25,"DIFF_SYNC":false}}`. -/
def docNoFftSync : JValue :=
  .object [("audio_options", .object [("FFT_SMOOTH", .number (.real (1 / 2))),
    ("WAVE_SMOOTH", .number (.real (1 / 4))), ("DIFF_SYNC", .bool false)])]

/-- No `audio_options`; the other sections are those of `docFull`. -/
def rootNoAudio : List (String × JValue) :=
  [("buffers", .object [("a", exBody), ("b", exBody)]),
    ("render_order", .array [.string "b", .string "a", .string "b"]),
    ("uniforms", .object [("gain", .number (.real (1 / 2)))])]

/-- A valid buffer `a` followed by a buffer named `image` whose value is not an object. -/
def rootImageAfterValid : List (String × JValue) :=
  [("audio_options", exAudio),
    ("buffers", .object [("a", exBody), ("image", .number (.int 5)), ("b", exBody)])]

/-- `p` occurs in `l` as a run of consecutive characters. -/
def isInfixOf (p l : List Char) : Bool :=
  l.tails.any (fun t => p.isPrefixOf t)

/-- The message names the key, letter case aside. -/
def mentions (message key : String) : Bool :=
  isInfixOf (key.data.map Char.toLower) (message.data.map Char.toLower)

/-- The members of an `audio_options` with `FFT_SMOOTH = 2` and the rest valid. -/
def audioFftTwo : List (String × JValue) :=
  [("FFT_SMOOTH", .number (.int 2)), ("WAVE_SMOOTH", .number (.real (1 / 4))),
    ("FFT_SYNC", .bool true), ("DIFF_SYNC", .bool false)]

/-- The root of a document with `audioFftTwo` and nothing else. -/
def rootFftTwo : List (String × JValue) := [("audio_options", .object audioFftTwo)]

/-- A valid buffer `a` and a render order `["a", "zz", "a"]`, whose second entry names no
buffer. -/
def rootUnknownRender : List (String × JValue) :=
  [("audio_options", exAudio), ("buffers", .object [("a", exBody)]),
    ("render_order", .array [.string "a", .string "zz", .string "a"])]

/-- The third example of the spec: one valid buffer `a` and no `render_order`. -/
def rootNoRenderOrder : List (String × JValue) :=
  [("audio_options", exAudio), ("buffers", .object [("a", exBody)])]

/-- An empty `buffers` object next to a `render_order` that is not even an array, and a
uniform that is rejected. -/
def rootEmptyBuffers : List (String × JValue) :=
  [("audio_options", exAudio), ("buffers", .object []), ("render_order", .number (.int 7)),
    ("uniforms", .object [("u", .bool true)])]

/-- The `buffers` and `render_order` members are valid: `buffers` is absent, or is an
object of fully valid buffers (names as the constructor reads them) and, when it has a
member, `render_order` is a non-empty array of strings each equal to a declared key. -/
def ValidBuffersSection (root : List (String × JValue)) : Prop :=
  FindMember root "buffers" = none ∨
    ∃ bs, FindMember root "buffers" = some (.object bs) ∧ ValidBuffers cstr bs ∧
      (bs ≠ [] → ∃ ro, FindMember root "render_order" = some (.array ro) ∧ ro ≠ [] ∧
        ∀ x ∈ ro, ∃ s, x = .string s ∧ s ∈ bs.map (fun m => m.1))

/-- Five entries, the second of which is not a number. -/
def fiveEntries : List JValue :=
  [.number (.int 1), .string "x", .number (.int 3), .number (.int 4), .number (.int 5)]

/-- A valid uniform `gain` followed by `bad`, an array of five entries one of which is a
string. -/
def rootLongUniform : List (String × JValue) :=
  [("audio_options", exAudio),
    ("uniforms", .object [("gain", .number (.real (1 / 2))), ("bad", .array fiveEntries),
      ("late", .bool true)])]

/-- The uniform `u` mirrors the member `m` of the `uniforms` object: it is named by the
key (read through `view`), a number gives the one-element sequence of its value, and an
array gives the sequence of the values of its elements, in order.  `conv` says which value
of a number is meant: `JNumber.value` for the value as the document has it,
`JNumber.GetFloat` for the value converted to `float`. -/
def UniformMirrors (view : String → String) (conv : JNumber → ℚ) (m : String × JValue)
    (u : Uniform) : Prop :=
  u.name = view m.1 ∧
    ((∃ n, m.2 = .number n ∧ u.values = [conv n]) ∨
      ∃ elems, m.2 = .array elems ∧
        List.Forall₂ (fun e x => ∃ n, e = JValue.number n ∧ x = conv n) elems u.values)

/-- The members of the document's `uniforms` object (none when the member is absent or is
not an object). -/
def uniformsMembers : JValue → List (String × JValue)
  | .object root =>
    match FindMember root "uniforms" with
    | some (.object us) => us
    | _ => []
  | _ => []

/-- The size of `b` mirrors the `size` option `s`: the two integers of a size array with
`is_window_size = false`, or `(0, 0)` with `is_window_size = true` when `s` is the string
`"window_size"` (read through `view`). -/
def SizeMirrors (view : String → String) (s : JValue) (b : Buffer) : Prop :=
  (∃ w h, s = .array [.number w, .number h] ∧ w.IsInt = true ∧ h.IsInt = true ∧
      w.value = (b.width : ℚ) ∧ h.value = (b.height : ℚ) ∧ b.is_window_size = false) ∨
    (∃ t, s = .string t ∧ view t = "window_size" ∧ b.width = 0 ∧ b.height = 0 ∧
      b.is_window_size = true)

/-- The buffer `b` mirrors the member `m` of the `buffers` object: its name is the key
(read through `view`), its `geom_iters` is the document's and is positive, its
`clear_color` holds the three components in order (their values taken by `conv`), and its
size mirrors the `size` option. -/
def BufferMirrors (view : String → String) (conv : JNumber → ℚ) (m : String × JValue)
    (b : Buffer) : Prop :=
  b.name = view m.1 ∧
    ∃ body s g c, m.2 = .object body ∧ FindMember body "size" = some s ∧
      FindMember body "geom_iters" = some g ∧ FindMember body "clear_color" = some c ∧
      SizeMirrors view s b ∧
      (∃ n, g = .number n ∧ n.IsInt = true ∧ n.value = (b.geom_iters : ℚ) ∧
        0 < b.geom_iters) ∧
      (∃ r gr bl, c = .array [.number r, .number gr, .number bl] ∧
        b.clear_color = (conv r, conv gr, conv bl))

/-- The members of the document's `buffers` object (none when the member is absent or is
not an object). -/
def buffersMembers : JValue → List (String × JValue)
  | .object root =>
    match FindMember root "buffers" with
    | some (.object bs) => bs
    | _ => []
  | _ => []

/-- The `double` `1 + 2 ^ (-30)`, which is not a `float`. -/
def justAboveOne : JNumber := .real (1 + 1 / 2 ^ 30)

/-- Two uniforms: one whose key is `a\u0000b`, one whose value is `justAboveOne`. -/
def uniformsOdd : List (String × JValue) :=
  [(keyANulB, .array [.number (.int 1), .number (.int 0)]), ("g", .number justAboveOne)]

/-- A document with the uniforms `uniformsOdd`. -/
def rootOddUniforms : List (String × JValue) :=
  [("audio_options", exAudio), ("uniforms", .object uniformsOdd)]

/-- The uniforms stored for `uniformsOdd`. -/
def storedOddUniforms : List Uniform :=
  [{ name := "a", values := [1, 0] }, { name := "g", values := [1] }]

/-- The string `window_size\u0000x`. -/
def sizeNul : String := String.mk ("window_size".data ++ [Char.ofNat 0, 'x'])

/-- A buffer body whose size is the string `window_size\u0000x` and whose first clear
colour component is `justAboveOne`. -/
def bodyOdd : JValue :=
  .object [("size", .string sizeNul), ("geom_iters", .number (.int 1)),
    ("clear_color", .array [.number justAboveOne, .number (.int 0), .number (.int 0)])]

/-- A document whose one buffer has the key `a\u0000b` and the body `bodyOdd`. -/
def rootOddBuffer : List (String × JValue) :=
  [("audio_options", exAudio), ("buffers", .object [(keyANulB, bodyOdd)]),
    ("render_order", .array [.string "a"])]

/-- The buffer stored for `rootOddBuffer`. -/
def storedOddBuffer : Buffer :=
  { name := "a", width := 0, height := 0, is_window_size := true, geom_iters := 1,
    clear_color := (1, 0, 0) }

/-- The `double` `1/2 + 2 ^ (-30)`, which lies in `[0, 1]` and is not a `float`. -/
def halfPlus : JNumber := .real (1 / 2 + 1 / 2 ^ 30)

/-- The members of an `audio_options` whose `FFT_SMOOTH` is `halfPlus`. -/
def audioHalfPlus : List (String × JValue) :=
  [("FFT_SMOOTH", .number halfPlus), ("WAVE_SMOOTH", .number (.real (1 / 4))),
    ("FFT_SYNC", .bool true), ("DIFF_SYNC", .bool false)]

/-- A document with `audioHalfPlus` and nothing else. -/
def rootHalfPlus : List (String × JValue) := [("audio_options", .object audioHalfPlus)]

/-- The members of `exAudio`. -/
def exAudioMembers : List (String × JValue) :=
  [("FFT_SMOOTH", .number (.real (1 / 2))), ("WAVE_SMOOTH", .number (.real (1 / 4))),
    ("FFT_SYNC", .bool true), ("DIFF_SYNC", .bool false)]

/-- The first example of the spec: `audio_options` and nothing else. -/
def rootAudioOnly : List (String × JValue) := [("audio_options", .object exAudioMembers)]

/-- The sections of the constructor body. -/
inductive Phase where
  | root
  | audio
  | buffers
  | uniforms
  deriving DecidableEq

/-- The section of the source in which each failure is raised: the check of the root
(lines 33-37), the audio options (lines 39-116), the buffers with the render order
(lines 118-266), the uniforms (lines 268-310). -/
def Failure.phase : Failure → Phase
  | .invalidJson => .root
  | .audioNotObject => .audio
  | .audioMissingFftSmooth => .audio
  | .audioMissingWaveSmooth => .audio
  | .audioMissingFftSync => .audio
  | .audioMissingDiffSync => .audio
  | .fftSmoothNotNumber => .audio
  | .waveSmoothNotNumber => .audio
  | .fftSyncNotBool => .audio
  | .diffSyncNotBool => .audio
  | .fftSmoothRange => .audio
  | .waveSmoothRange => .audio
  | .needsAudioOptions => .audio
  | .buffersNotObject => .buffers
  | .bufferNoName => .buffers
  | .bufferBadName _ => .buffers
  | .bufferNamedImage => .buffers
  | .bufferDuplicate => .buffers
  | .bufferNotObject _ => .buffers
  | .bufferMissingSize _ => .buffers
  | .bufferMissingGeomIters _ => .buffers
  | .bufferMissingClearColor _ => .buffers
  | .bufferBadSize _ => .buffers
  | .bufferBadGeomIters _ => .buffers
  | .bufferBadClearColor _ => .buffers
  | .needsRenderOrder => .buffers
  | .renderOrderNotArray => .buffers
  | .renderOrderNotString => .buffers
  | .renderOrderUnknown _ => .buffers
  | .uniformsNotObject => .uniforms
  | .uniformTooLong _ => .uniforms
  | .uniformNonNumeric _ => .uniforms
  | .uniformBadShape _ => .uniforms

/-- `rootNoFftSync` with valid buffers, render order and uniforms added. -/
def rootNoFftSyncFull : List (String × JValue) :=
  [("audio_options", .object [("FFT_SMOOTH", .number (.real (1 / 2))),
      ("WAVE_SMOOTH", .number (.real (1 / 4))), ("DIFF_SYNC", .bool false)]),
    ("buffers", .object [("a", exBody)]), ("render_order", .array [.string "a"]),
    ("uniforms", .object [("gain", .number (.int 1))])]

/-- The root of `docNoFftSync`. -/
def rootNoFftSync : List (String × JValue) :=
  [("audio_options", .object [("FFT_SMOOTH", .number (.real (1 / 2))),
      ("WAVE_SMOOTH", .number (.real (1 / 4))), ("DIFF_SYNC", .bool false)])]

/-- The root of `docDuplicate`. -/
def rootDuplicate : List (String × JValue) :=
  [("audio_options", exAudio), ("buffers", .object [("a", exBody), ("a", exBody)]),
    ("render_order", .array [.string "a"])]

/-- `rootDuplicate` with an invalid uniform added. -/
def rootDuplicateUniforms : List (String × JValue) :=
  [("uniforms", .object [("u", .bool true)]), ("audio_options", exAudio),
    ("buffers", .object [("a", exBody), ("a", exBody)]),
    ("render_order", .array [.string "a"])]

/-- `Value::IsNumber()`. -/
def JValue.IsNumber : JValue → Bool
  | .number _ => true
  | _ => false

/-- `Value::IsBool()`. -/
def JValue.IsBool : JValue → Bool
  | .bool _ => true
  | _ => false

/-- `DIFF_SYNC` is absent, `FFT_SMOOTH` is a string and `WAVE_SMOOTH` is 2. -/
def audioAbsentAfterBad : List (String × JValue) :=
  [("FFT_SMOOTH", .string "x"), ("WAVE_SMOOTH", .number (.int 2)), ("FFT_SYNC", .bool true)]

/-- A document with `audioAbsentAfterBad`. -/
def rootAbsentAfterBad : List (String × JValue) :=
  [("audio_options", .object audioAbsentAfterBad)]

/-- The number of components of the uniform `u` stored for the member `m`: between one
and four, except that the empty array gives none. -/
def UniformComponents (m : String × JValue) (u : Uniform) : Prop :=
  u.values.length ≤ 4 ∧ (m.2 = .array [] → u.values.length = 0) ∧
    (m.2 ≠ .array [] → 1 ≤ u.values.length)

/-- Two buffer members whose keys, `a\u0000b` and `a\u0000c`, differ only after a NUL
character; both bodies are valid. -/
def nulKeyBuffers : List (String × JValue) := [(keyANulB, exBody), (keyANulC, exBody)]

/-- `nulKeyBuffers` followed by a member that repeats the key `a\u0000b`. -/
def rootNulTriple : List (String × JValue) :=
  [("audio_options", exAudio),
    ("buffers", .object [(keyANulB, exBody), (keyANulC, exBody), (keyANulB, exBody)]),
    ("render_order", .array [.string keyANulB])]

/-- `nulKeyBuffers` followed by a member named `image` whose value is a number. -/
def rootNulThenImage : List (String × JValue) :=
  [("audio_options", exAudio),
    ("buffers", .object [(keyANulB, exBody), (keyANulC, exBody), ("image", .number (.int 5))])]

/-- `nulKeyBuffers` with a render order whose only entry, `zz`, names no buffer. -/
def rootNulKeysUnknown : List (String × JValue) :=
  [("audio_options", exAudio),
    ("buffers", .object [(keyANulB, exBody), (keyANulC, exBody)]),
    ("render_order", .array [.string "zz"])]

/-- `nulKeyBuffers` without a render order. -/
def rootNulKeysNoRender : List (String × JValue) :=
  [("audio_options", exAudio),
    ("buffers", .object [(keyANulB, exBody), (keyANulC, exBody)])]

/-- `nulKeyBuffers`, a render order that names the first of them, and a uniform with five
entries. -/
def rootNulKeysLongUniform : List (String × JValue) :=
  [("audio_options", exAudio),
    ("buffers", .object [(keyANulB, exBody), (keyANulC, exBody)]),
    ("render_order", .array [.string keyANulB]),
    ("uniforms", .object [("bad", .array fiveEntries)])]

/-- A uniform of key `a\u0000b` with five entries. -/
def rootNulUniformLong : List (String × JValue) :=
  [("audio_options", exAudio), ("uniforms", .object [(keyANulB, .array fiveEntries)])]

/-- The string `zz\u0000q`. -/
def keyZzNul : String := String.mk ['z', 'z', Char.ofNat 0, 'q']

/-- One buffer `a` and a render order whose only entry is the string `zz\u0000q`. -/
def rootNulUnknownEntry : List (String × JValue) :=
  [("audio_options", exAudio), ("buffers", .object [("a", exBody)]),
    ("render_order", .array [.string keyZzNul])]

/-! # Theorems -/

/-! ## Conversion to `float`: the interval `[0, 1]` is preserved -/

theorem roundTiesEven_cases (q : ℚ) :
    roundTiesEven q = ⌊q⌋ ∨ (roundTiesEven q = ⌊q⌋ + 1 ∧ (⌊q⌋ : ℚ) < q) := by
  unfold roundTiesEven
  simp only
  by_cases h1 : q - (⌊q⌋ : ℚ) < 1 / 2
  · left; rw [if_pos h1]
  · rw [if_neg h1]
    have hlt : (⌊q⌋ : ℚ) < q := by
      have : (1 : ℚ) / 2 ≤ q - (⌊q⌋ : ℚ) := not_lt.mp h1
      linarith
    by_cases h2 : 1 / 2 < q - (⌊q⌋ : ℚ)
    · right; rw [if_pos h2]; exact ⟨rfl, hlt⟩
    · rw [if_neg h2]
      by_cases h3 : ⌊q⌋ % 2 = 0
      · left; rw [if_pos h3]
      · right; rw [if_neg h3]; exact ⟨rfl, hlt⟩

theorem roundTiesEven_nonneg {q : ℚ} (h : 0 ≤ q) : 0 ≤ roundTiesEven q := by
  have hf : 0 ≤ ⌊q⌋ := Int.floor_nonneg.mpr h
  rcases roundTiesEven_cases q with h1 | ⟨h1, _⟩ <;> omega

theorem roundTiesEven_le {q : ℚ} {n : Int} (h : q ≤ (n : ℚ)) : roundTiesEven q ≤ n := by
  rcases roundTiesEven_cases q with h1 | ⟨h1, hlt⟩
  · rw [h1]
    exact Int.cast_le.mp (le_trans (Int.floor_le q) h)
  · rw [h1]
    have : (⌊q⌋ : ℚ) < (n : ℚ) := lt_of_lt_of_le hlt h
    have : ⌊q⌋ < n := Int.cast_lt.mp this
    omega

theorem log2_mono {a b : Nat} (ha : a ≠ 0) (hab : a ≤ b) : Nat.log2 a ≤ Nat.log2 b := by
  have h1 : a < 2 ^ (Nat.log2 b + 1) := lt_of_le_of_lt hab Nat.lt_log2_self
  have h2 : Nat.log2 a < Nat.log2 b + 1 := (Nat.log2_lt ha).mpr h1
  omega

theorem ilog2_nonpos {q : ℚ} (h0 : 0 < q) (h1 : q ≤ 1) : ilog2 q ≤ 0 := by
  have hnum : 0 < q.num := Rat.num_pos.mpr h0
  have hle : q.num ≤ (q.den : Int) := by
    have := (@Rat.le_def q 1).mp h1
    simpa using this
  have hna : q.num.natAbs ≠ 0 := by omega
  have hab : q.num.natAbs ≤ q.den := by omega
  have hk := log2_mono hna hab
  unfold ilog2
  simp only
  split <;> omega

theorem roundBinary_nonneg (prec : Nat) (emin : Int) {q : ℚ} (h : 0 ≤ q) :
    0 ≤ roundBinary prec emin q := by
  unfold roundBinary
  split
  · exact le_refl 0
  · simp only
    have hu : (0 : ℚ) < 2 ^ (max (ilog2 q) emin - (prec : Int) + 1) := by positivity
    have hq : 0 ≤ q / 2 ^ (max (ilog2 q) emin - (prec : Int) + 1) := div_nonneg h hu.le
    have := roundTiesEven_nonneg hq
    have hc : (0 : ℚ) ≤ (roundTiesEven (q / 2 ^ (max (ilog2 q) emin - (prec : Int) + 1)) : ℚ) :=
      Int.cast_nonneg.mpr this
    exact mul_nonneg hc hu.le

theorem roundBinary_le_one (prec : Nat) (emin : Int) (hp : 1 ≤ prec) (he : emin ≤ 0)
    {q : ℚ} (h0 : 0 ≤ q) (h1 : q ≤ 1) : roundBinary prec emin q ≤ 1 := by
  unfold roundBinary
  split
  · exact zero_le_one
  · rename_i hne
    simp only
    have hpos : 0 < q := lt_of_le_of_ne h0 (Ne.symm hne)
    have hlog := ilog2_nonpos hpos h1
    have hz : max (ilog2 q) emin - (prec : Int) + 1 ≤ 0 := by
      have : max (ilog2 q) emin ≤ 0 := max_le hlog he
      omega
    generalize max (ilog2 q) emin - (prec : Int) + 1 = z at hz
    obtain ⟨m, rfl⟩ : ∃ m : Nat, z = -(m : Int) := ⟨z.natAbs, by omega⟩
    have hu : (0 : ℚ) < 2 ^ (-(m : Int)) := by positivity
    have hinv : (2 : ℚ) ^ (-(m : Int)) * ((2 ^ m : Nat) : ℚ) = 1 := by
      rw [zpow_neg, zpow_natCast]
      push_cast
      exact inv_mul_cancel₀ (by positivity)
    have hdiv : q / 2 ^ (-(m : Int)) ≤ (((2 ^ m : Nat) : Int) : ℚ) := by
      rw [div_le_iff₀ hu]
      have h2 : (((2 ^ m : Nat) : Int) : ℚ) = ((2 ^ m : Nat) : ℚ) := by push_cast; rfl
      rw [h2, mul_comm, hinv]
      exact h1
    have hr := roundTiesEven_le hdiv
    have hc : (roundTiesEven (q / 2 ^ (-(m : Int))) : ℚ) ≤ ((2 ^ m : Nat) : ℚ) := by
      have := (Int.cast_le (R := ℚ)).mpr hr
      simpa using this
    calc (roundTiesEven (q / 2 ^ (-(m : Int))) : ℚ) * 2 ^ (-(m : Int))
        ≤ ((2 ^ m : Nat) : ℚ) * 2 ^ (-(m : Int)) := mul_le_mul_of_nonneg_right hc hu.le
      _ = 1 := by rw [mul_comm]; exact hinv

/-- A number of the document whose value lies in `[0, 1]` still does after `GetFloat`. -/
theorem GetFloat_unit (n : JNumber) (h0 : 0 ≤ n.value) (h1 : n.value ≤ 1) :
    0 ≤ n.GetFloat ∧ n.GetFloat ≤ 1 := by
  have hd : 0 ≤ n.GetDouble ∧ n.GetDouble ≤ 1 := by
    cases n with
    | int i =>
      exact ⟨roundBinary_nonneg 53 (-1022) h0,
        roundBinary_le_one 53 (-1022) (by norm_num) (by norm_num) h0 h1⟩
    | real d => exact ⟨h0, h1⟩
  exact ⟨roundBinary_nonneg 24 (-126) hd.1,
    roundBinary_le_one 24 (-126) (by norm_num) (by norm_num) hd.1 hd.2⟩

/-! ## The audio section -/

theorem audioOptions_of_valid {a : JValue} (h : ValidAudio a) :
    ∃ ao, audioOptions a = .ok ao := by
  obtain ⟨ms, fs, ws, fy, dy, rfl, h1, h1a, h1b, h2, h2a, h2b, h3, h4⟩ := h
  have hf := GetFloat_unit fs h1a h1b
  have hw := GetFloat_unit ws h2a h2b
  have hf' : ¬ (fs.GetFloat < 0 ∨ fs.GetFloat > 1) := by
    rintro (h | h) <;> linarith [hf.1, hf.2]
  have hw' : ¬ (ws.GetFloat < 0 ∨ ws.GetFloat > 1) := by
    rintro (h | h) <;> linarith [hw.1, hw.2]
  refine ⟨{ fft_smooth := fs.GetFloat, wave_smooth := ws.GetFloat,
            fft_sync := fy, diff_sync := dy }, ?_⟩
  simp only [audioOptions, h1, h2, h3, h4, if_neg hf', if_neg hw']

/-! ## The buffer loop -/

theorem bufferSize_of_valid (name : String) {v : JValue} (h : ValidSize v) :
    ∃ r, bufferSize name v = .ok r := by
  rcases h with ⟨w, h, rfl, hw, hh⟩ | rfl
  · exact ⟨(w.GetInt, h.GetInt, false), by simp [bufferSize, hw, hh]⟩
  · refine ⟨(0, 0, true), ?_⟩
    have : cstr "window_size" = "window_size" := by decide
    simp [bufferSize, this]

theorem bufferGeomIters_of_valid (name : String) {v : JValue} (h : ValidGeomIters v) :
    ∃ r, bufferGeomIters name v = .ok r := by
  obtain ⟨n, rfl, hn, hpos⟩ := h
  exact ⟨n.GetInt, by simp [bufferGeomIters, hn, hpos]⟩

theorem bufferClearColor_of_valid (name : String) {v : JValue} (h : ValidClearColor v) :
    ∃ r, bufferClearColor name v = .ok r := by
  obtain ⟨r, g, b, rfl⟩ := h
  exact ⟨_, rfl⟩

/-- A buffer accepted by `bufferBody` carries the name it was read under. -/
theorem bufferBody_name {name : String} {v : JValue} {b : Buffer}
    (h : bufferBody name v = .ok b) : b.name = name := by
  unfold bufferBody at h
  split at h
  · split at h
    · exact absurd h (by simp)
    · exact absurd h (by simp)
    · exact absurd h (by simp)
    · split at h
      · exact absurd h (by simp)
      · split at h
        · exact absurd h (by simp)
        · split at h
          · exact absurd h (by simp)
          · simp only [Except.ok.injEq] at h
            rw [← h]
  · exact absurd h (by simp)

theorem bufferBody_of_valid (name : String) {v : JValue} (h : ValidBufferBody v) :
    ∃ b, bufferBody name v = .ok b := by
  obtain ⟨ms, s, g, c, rfl, hs, hvs, hg, hvg, hc, hvc⟩ := h
  obtain ⟨⟨w, ht, iw⟩, hs'⟩ := bufferSize_of_valid name hvs
  obtain ⟨gi, hg'⟩ := bufferGeomIters_of_valid name hvg
  obtain ⟨cc, hc'⟩ := bufferClearColor_of_valid name hvc
  exact ⟨{ name := name, width := w, height := ht, is_window_size := iw, geom_iters := gi,
           clear_color := cc }, by simp only [bufferBody, hs, hg, hc, hs', hg', hc']⟩

theorem string_data_eq_nil {s : String} : s.data = [] ↔ s = "" := by
  constructor
  · intro h
    exact String.ext h
  · rintro rfl
    rfl

/-- The name checks pass exactly when the name is non-empty, starts with a letter or an
underscore, is not `"image"` and has not been seen. -/
theorem bufferName_eq_none {names : List String} {name : String} :
    bufferName names name = none ↔
      (name ≠ "" ∧ StartsLetterOrUnderscore name = true ∧ name ≠ "image") ∧ name ∉ names := by
  unfold bufferName StartsLetterOrUnderscore
  cases hd : name.data with
  | nil =>
    have := string_data_eq_nil.mp hd
    simp [this]
  | cons c rest =>
    have hne : name ≠ "" := fun h => by rw [h] at hd; exact absurd hd (by simp)
    by_cases h1 : (c.isAlpha || c == '_') = true
    · by_cases h2 : name = "image"
      · simp [h1, h2]
      · by_cases h3 : name ∈ names
        · simp [h1, h2, h3]
        · simp [h1, h2, h3, hne]
    · simp only [Bool.not_eq_true] at h1
      simp [h1]

/-- Over a prefix of fully valid buffers whose names are new, the loop stores one buffer
per member, named as the member, and goes on with the rest. -/
theorem bufferLoop_valid_prefix (pre rest : List (String × JValue)) :
    ∀ (names : List String) (acc : List Buffer),
      (∀ m ∈ pre, ValidBufferBody m.2) →
      (∀ n ∈ pre.map (fun m => cstr m.1),
        n ≠ "" ∧ StartsLetterOrUnderscore n = true ∧ n ≠ "image") →
      (names ++ pre.map (fun m => cstr m.1)).Nodup →
      ∃ bs, bs.map Buffer.name = pre.map (fun m => cstr m.1) ∧
        bufferLoop (pre ++ rest) names acc =
          bufferLoop rest (names ++ pre.map (fun m => cstr m.1)) (acc ++ bs) := by
  induction pre with
  | nil => intro names acc _ _ _; exact ⟨[], by simp⟩
  | cons m pre ih =>
    intro names acc hbody hname hnodup
    obtain ⟨key, v⟩ := m
    have hk := hname (cstr key) (by simp)
    have hnew : cstr key ∉ names := by
      intro hmem
      have := List.nodup_append.mp hnodup
      exact this.2.2 hmem (by simp)
    have hn : bufferName names (cstr key) = none := bufferName_eq_none.mpr ⟨hk, hnew⟩
    obtain ⟨b, hb⟩ := bufferBody_of_valid (cstr key) (hbody (key, v) (by simp))
    have hnodup' : ((names ++ [cstr key]) ++ pre.map (fun m => cstr m.1)).Nodup := by
      simpa using hnodup
    obtain ⟨bs, hbs, hloop⟩ := ih (names ++ [cstr key]) (acc ++ [b])
      (fun m hm => hbody m (by simp [hm]))
      (fun n hn' => hname n (by simp at hn' ⊢; exact Or.inr hn'))
      hnodup'
    refine ⟨b :: bs, ?_, ?_⟩
    · simp [hbs, bufferBody_name hb]
    · have hb' : bufferBody (cstr key) v = .ok b := hb
      have step : bufferLoop ((key, v) :: (pre ++ rest)) names acc =
          bufferLoop (pre ++ rest) (names ++ [cstr key]) (acc ++ [b]) := by
        simp only [bufferLoop, hn, hb']
      rw [List.cons_append, step, hloop]
      simp

/-! ## The render order loop -/

theorem findBuffer_spec (nm : String) (bs : List Buffer) :
    ∀ (start j : Nat), findBuffer nm bs start = some j →
      start ≤ j ∧ IsFirstIndex bs nm (j - start) := by
  induction bs with
  | nil => intro start j h; simp [findBuffer] at h
  | cons b bs ih =>
    intro start j h
    unfold findBuffer at h
    by_cases hb : b.name = nm
    · rw [if_pos hb] at h
      obtain rfl : start = j := by simpa using h
      refine ⟨le_refl _, ?_⟩
      simp only [Nat.sub_self]
      exact ⟨by simp, ⟨b, by simp, hb⟩, fun i _ hi => absurd hi (by omega)⟩
    · rw [if_neg hb] at h
      obtain ⟨hle, hlt, ⟨b', hb', hn'⟩, hfirst⟩ := ih (start + 1) j h
      have hj : j - start = (j - (start + 1)) + 1 := by omega
      refine ⟨by omega, ?_⟩
      rw [hj]
      refine ⟨by simpa using hlt, ⟨b', by simpa using hb', hn'⟩, ?_⟩
      intro i c hi hc
      cases i with
      | zero =>
        have : c = b := by simpa using hc.symm
        rw [this]; exact hb
      | succ i => exact hfirst i c (by omega) (by simpa using hc)

theorem findBuffer_of_mem (nm : String) (bs : List Buffer) :
    ∀ start, nm ∈ bs.map Buffer.name → ∃ j, findBuffer nm bs start = some j := by
  induction bs with
  | nil => intro start h; simp at h
  | cons b bs ih =>
    intro start h
    unfold findBuffer
    by_cases hb : b.name = nm
    · exact ⟨start, by rw [if_pos hb]⟩
    · rw [if_neg hb]
      have : nm ∈ bs.map Buffer.name := by
        simp only [List.map_cons, List.mem_cons] at h
        rcases h with h | h
        · exact absurd h.symm hb
        · exact h
      exact ih (start + 1) this

theorem isFirstIndex_unique {bs : List Buffer} {nm : String} {i j : Nat}
    (hi : IsFirstIndex bs nm i) (hj : IsFirstIndex bs nm j) : i = j := by
  obtain ⟨_, ⟨bi, hbi, hni⟩, hfi⟩ := hi
  obtain ⟨_, ⟨bj, hbj, hnj⟩, hfj⟩ := hj
  rcases Nat.lt_trichotomy i j with h | h | h
  · exact absurd hni (hfj i bi h hbi)
  · exact h
  · exact absurd hnj (hfi j bj h hbj)

/-- A successful render order loop appends one index per element, each the first index
of the buffer the element names. -/
theorem renderLoop_ok (bs : List Buffer) (ro : List JValue) :
    ∀ (acc out : List Nat), renderLoop bs ro acc = (none, out) →
      ∃ idx, out = acc ++ idx ∧
        List.Forall₂ (fun x j => ∃ s, x = JValue.string s ∧ IsFirstIndex bs (cstr s) j)
          ro idx := by
  induction ro with
  | nil =>
    intro acc out h
    simp only [renderLoop, Prod.mk.injEq, true_and] at h
    exact ⟨[], by simp [h], List.Forall₂.nil⟩
  | cons x ro ih =>
    intro acc out h
    cases x with
    | string s =>
      simp only [renderLoop] at h
      split at h
      · simp at h
      · rename_i index hfind
        obtain ⟨idx, hout, hall⟩ := ih _ _ h
        refine ⟨index :: idx, by simp [hout], List.Forall₂.cons ⟨s, rfl, ?_⟩ hall⟩
        have := (findBuffer_spec (cstr s) bs 0 index hfind).2
        simpa using this
    | null => simp [renderLoop] at h
    | bool _ => simp [renderLoop] at h
    | number _ => simp [renderLoop] at h
    | array _ => simp [renderLoop] at h
    | object _ => simp [renderLoop] at h

/-- The render order loop succeeds when every element is a string naming a buffer. -/
theorem renderLoop_of_valid (bs : List Buffer) (ro : List JValue) :
    ∀ (acc : List Nat),
      (∀ x ∈ ro, ∃ s, x = JValue.string s ∧ cstr s ∈ bs.map Buffer.name) →
      ∃ out, renderLoop bs ro acc = (none, out) := by
  induction ro with
  | nil => intro acc _; exact ⟨acc, rfl⟩
  | cons x ro ih =>
    intro acc h
    obtain ⟨s, rfl, hs⟩ := h x (by simp)
    obtain ⟨j, hj⟩ := findBuffer_of_mem (cstr s) bs 0 hs
    obtain ⟨out, hout⟩ := ih (acc ++ [j]) (fun y hy => h y (by simp [hy]))
    exact ⟨out, by simp only [renderLoop, hj, hout]⟩

/-! ## The uniform loop -/

theorem uniformValues_of_valid (name : String) (elems : List JValue) :
    ∀ (acc : List ℚ), (∀ e ∈ elems, ∃ n, e = JValue.number n) →
      ∃ vs, uniformValues name elems acc = .ok vs := by
  induction elems with
  | nil => intro acc _; exact ⟨acc, rfl⟩
  | cons e elems ih =>
    intro acc h
    obtain ⟨n, rfl⟩ := h e (by simp)
    obtain ⟨vs, hvs⟩ := ih (acc ++ [n.GetFloat]) (fun y hy => h y (by simp [hy]))
    exact ⟨vs, by simp only [uniformValues, hvs]⟩

theorem uniformOf_of_valid (name : String) {v : JValue} (h : ValidUniform v) :
    ∃ u, uniformOf name v = .ok u := by
  rcases h with ⟨n, rfl⟩ | ⟨elems, rfl, hlen, hall⟩
  · exact ⟨_, rfl⟩
  · obtain ⟨vs, hvs⟩ := uniformValues_of_valid name elems [] hall
    have : ¬ elems.length > 4 := by omega
    exact ⟨{ name := name, values := vs }, by simp only [uniformOf, if_neg this, hvs]⟩

theorem uniformLoop_of_valid (us : List (String × JValue)) :
    ∀ (acc : List Uniform), (∀ m ∈ us, ValidUniform m.2) →
      ∃ out, uniformLoop us acc = (none, out) := by
  induction us with
  | nil => intro acc _; exact ⟨acc, rfl⟩
  | cons m us ih =>
    intro acc h
    obtain ⟨key, v⟩ := m
    obtain ⟨u, hu⟩ := uniformOf_of_valid (cstr key) (h (key, v) (by simp))
    have hu' : uniformOf (cstr key) v = .ok u := hu
    obtain ⟨out, hout⟩ := ih (acc ++ [u]) (fun y hy => h y (by simp [hy]))
    exact ⟨out, by simp only [uniformLoop, hu', hout]⟩

/-! ## Evaluation of the examples -/

theorem roundTiesEven_intCast (n : Int) : roundTiesEven (n : ℚ) = n := by
  simp [roundTiesEven]

/-- A value that is a whole number of units in the last place is kept by the rounding. -/
theorem roundBinary_of_scaled (prec : Nat) (emin : Int) (q : ℚ) (n : Int) (hq : q ≠ 0)
    (hn : q = (n : ℚ) * (2 : ℚ) ^ (max (ilog2 q) emin - prec + 1)) :
    roundBinary prec emin q = q := by
  unfold roundBinary
  rw [if_neg hq]
  simp only
  have hu : (2 : ℚ) ^ (max (ilog2 q) emin - prec + 1) ≠ 0 := by positivity
  have hd : q / (2 : ℚ) ^ (max (ilog2 q) emin - prec + 1) = (n : ℚ) := by
    rw [div_eq_iff hu]; exact hn
  rw [hd, roundTiesEven_intCast]
  exact hn.symm

theorem roundTiesEven_of_lt (q : ℚ) (n : Int) (h1 : (n : ℚ) ≤ q) (h2 : q < n + 1 / 2) :
    roundTiesEven q = n := by
  have hf : ⌊q⌋ = n := by
    rw [Int.floor_eq_iff]
    constructor
    · exact h1
    · linarith
  unfold roundTiesEven
  simp only [hf]
  rw [if_pos (by linarith)]

theorem ilog2_half : ilog2 (1 / 2) = -1 := by
  simp [ilog2, Nat.log2]
  norm_num [abs_of_pos]

theorem ilog2_quarter : ilog2 (1 / 4) = -2 := by
  have h1 : ((1 : ℚ) / 4).num = 1 := by norm_num
  have h2 : ((1 : ℚ) / 4).den = 4 := by norm_num
  have h3 : Nat.log2 4 = 2 := by simp [Nat.log2]
  have h4 : Nat.log2 1 = 0 := by simp [Nat.log2]
  unfold ilog2
  simp only [h1, h2]
  have h5 : (1 : Int).natAbs = 1 := rfl
  rw [h5, h3, h4]
  norm_num [abs_of_pos]

theorem toFloat_half : toFloat (1 / 2) = 1 / 2 := by
  apply roundBinary_of_scaled 24 (-126) (1 / 2) (2 ^ 23) (by norm_num)
  rw [ilog2_half]
  norm_num

theorem toFloat_quarter : toFloat (1 / 4) = 1 / 4 := by
  apply roundBinary_of_scaled 24 (-126) (1 / 4) (2 ^ 23) (by norm_num)
  rw [ilog2_quarter]
  norm_num

theorem log2_two_pow_thirty : Nat.log2 (2 ^ 30) = 30 := by
  apply Nat.le_antisymm
  · have := (Nat.log2_lt (n := 2 ^ 30) (k := 31) (by norm_num)).mpr (by norm_num)
    omega
  · exact (Nat.le_log2 (by norm_num)).mpr (by norm_num)

theorem log2_two_pow_thirty_succ : Nat.log2 (2 ^ 30 + 1) = 30 := by
  apply Nat.le_antisymm
  · have := (Nat.log2_lt (n := 2 ^ 30 + 1) (k := 31) (by norm_num)).mpr (by norm_num)
    omega
  · exact (Nat.le_log2 (by norm_num)).mpr (by norm_num)

theorem ilog2_above_one : ilog2 (1 + 1 / 2 ^ 30) = 0 := by
  have h1 : ((1 : ℚ) + 1 / 2 ^ 30).num = 2 ^ 30 + 1 := by norm_num
  have h2 : ((1 : ℚ) + 1 / 2 ^ 30).den = 2 ^ 30 := by norm_num
  unfold ilog2
  simp only [h1, h2]
  have h5 : ((2 : Int) ^ 30 + 1).natAbs = 2 ^ 30 + 1 := by norm_num
  rw [h5, log2_two_pow_thirty, log2_two_pow_thirty_succ]
  norm_num [abs_of_pos]

/-- The `double` `1 + 2 ^ (-30)` becomes the `float` `1`. -/
theorem toFloat_above_one : toFloat (1 + 1 / 2 ^ 30) = 1 := by
  unfold toFloat roundBinary
  rw [if_neg (by norm_num), ilog2_above_one]
  simp only
  rw [roundTiesEven_of_lt _ (2 ^ 23) (by norm_num) (by norm_num)]
  norm_num

theorem GetFloat_int_zero : (JNumber.int 0).GetFloat = 0 := by
  simp [JNumber.GetFloat, JNumber.GetDouble, toFloat, toDouble, roundBinary]

theorem audioOptions_exAudio : audioOptions exAudio = .ok exAudioOptions := by
  simp only [audioOptions, exAudio, FindMember, JNumber.GetFloat, JNumber.GetDouble,
    String.reduceEq, if_false, if_true, toFloat_half, toFloat_quarter, exAudioOptions]
  norm_num

theorem bufferBody_exBody (name : String) : bufferBody name exBody = .ok (exBuffer name) := by
  simp [bufferBody, exBody, FindMember, bufferSize, bufferGeomIters, bufferClearColor,
    JNumber.IsInt, JNumber.GetInt, GetFloat_int_zero, exBuffer]

theorem cstr_keyANulB : cstr keyANulB = "a" := by decide

theorem cstr_keyANulC : cstr keyANulC = "a" := by decide

theorem validBody_exBody : ValidBufferBody exBody :=
  ⟨_, _, _, _, rfl, rfl, Or.inl ⟨_, _, rfl, by decide, by decide⟩,
    rfl, ⟨_, rfl, by decide, by decide⟩, rfl, ⟨_, _, _, rfl⟩⟩

theorem validAudio_exAudio : ValidAudio exAudio :=
  ⟨_, _, _, _, _, rfl, rfl, by norm_num [JNumber.value], by norm_num [JNumber.value],
    rfl, by norm_num [JNumber.value], by norm_num [JNumber.value], rfl, rfl⟩

/-! ## C1: completeness -/

/-- The buffers section raises no failure on fully valid buffers (names read as the
constructor reads them) followed by a render order that names declared keys. -/
theorem buffersPhase_of_valid (root : List (String × JValue))
    (h : FindMember root "buffers" = none ∨
      ∃ bs, FindMember root "buffers" = some (.object bs) ∧ ValidBuffers cstr bs ∧
        (bs ≠ [] → ∃ ro, FindMember root "render_order" = some (.array ro) ∧ ro ≠ [] ∧
          ∀ x ∈ ro, ∃ s, x = .string s ∧ s ∈ bs.map (fun m => m.1))) :
    ∃ mBuffers mRender_order, buffersPhase root = (none, mBuffers, mRender_order) := by
  rcases h with h | ⟨bs, hb, ⟨⟨hnames, hnodup⟩, hbody⟩, hro⟩
  · exact ⟨[], [], by simp only [buffersPhase, h]⟩
  · cases bs with
    | nil => exact ⟨[], [], by simp only [buffersPhase, hb]⟩
    | cons m ms =>
      obtain ⟨out, hmap, hloop⟩ := bufferLoop_valid_prefix (m :: ms) [] [] [] hbody hnames
        (by simpa using hnodup)
      obtain ⟨ro, hfind, hne, hall⟩ := hro (by simp)
      have hloop' : bufferLoop (m :: ms) [] [] = (none, out) := by
        rw [List.append_nil] at hloop
        rw [hloop]
        simp only [bufferLoop, List.nil_append]
      have hres : ∀ x ∈ ro, ∃ s, x = JValue.string s ∧ cstr s ∈ out.map Buffer.name := by
        intro x hx
        obtain ⟨s, rfl, hs⟩ := hall x hx
        refine ⟨s, rfl, ?_⟩
        rw [hmap]
        obtain ⟨m', hm', rfl⟩ := List.mem_map.mp hs
        exact List.mem_map.mpr ⟨m', hm', rfl⟩
      obtain ⟨idx, hidx⟩ := renderLoop_of_valid out ro [] hres
      cases ro with
      | nil => exact absurd rfl hne
      | cons x rest =>
        exact ⟨out, idx, by simp only [buffersPhase, hb, hloop', renderOrder, hfind, hidx]⟩

theorem uniformsPhase_of_valid (root : List (String × JValue))
    (h : FindMember root "uniforms" = none ∨
      ∃ us, FindMember root "uniforms" = some (.object us) ∧ ∀ m ∈ us, ValidUniform m.2) :
    ∃ mUniforms, uniformsPhase root = (none, mUniforms) := by
  rcases h with h | ⟨us, hu, hall⟩
  · exact ⟨[], by simp only [uniformsPhase, h]⟩
  · obtain ⟨out, hout⟩ := uniformLoop_of_valid us [] hall
    exact ⟨out, by simp only [uniformsPhase, hu, hout]⟩

/-- C1 (as amended): every document that meets the schema, with the conditions on buffer
names (non-empty, first character a letter or an underscore, not `"image"`, pairwise
distinct) holding of the keys as read up to their first NUL character, is accepted:
`is_ok` is `true`, whatever other members the document carries. -/
theorem C1_validate_complete (doc : JValue) (h : MeetsSchema cstr doc) :
    (validate doc).is_ok = true := by
  obtain ⟨root, rfl, ⟨a, ha, hva⟩, hb, hu⟩ := h
  obtain ⟨ao, hao⟩ := audioOptions_of_valid hva
  obtain ⟨mB, mR, hbp⟩ := buffersPhase_of_valid root hb
  obtain ⟨mU, hup⟩ := uniformsPhase_of_valid root hu
  simp only [validate, ha, hao, hbp, hup, Outcome.is_ok, Option.isNone_none]

theorem ilog2_one : ilog2 1 = 0 := by
  simp [ilog2, Nat.log2]

theorem toDouble_one : toDouble 1 = 1 := by
  apply roundBinary_of_scaled 53 (-1022) 1 (2 ^ 52) (by norm_num)
  rw [ilog2_one]
  norm_num

theorem toFloat_one : toFloat 1 = 1 := by
  apply roundBinary_of_scaled 24 (-126) 1 (2 ^ 23) (by norm_num)
  rw [ilog2_one]
  norm_num

theorem GetFloat_int_one : (JNumber.int 1).GetFloat = 1 := by
  simp only [JNumber.GetFloat, JNumber.GetDouble, Int.cast_one, toDouble_one, toFloat_one]

theorem GetFloat_real_half : (JNumber.real (1 / 2)).GetFloat = 1 / 2 := by
  simp only [JNumber.GetFloat, JNumber.GetDouble, toFloat_half]

theorem validate_docNulKeys :
    validate docNulKeys =
      { failure := some .bufferDuplicate,
        conf := { mAudio_ops := some exAudioOptions, mBuffers := [exBuffer "a"],
                  mRender_order := [], mUniforms := [] } } := by
  have h1 : bufferName [] "a" = none := by decide
  have h2 : bufferName ["a"] "a" = some .bufferDuplicate := by decide
  simp only [validate, docNulKeys, FindMember, String.reduceEq, if_true, if_false,
    audioOptions_exAudio, buffersPhase, bufferLoop, cstr_keyANulB, cstr_keyANulC, h1, h2,
    bufferBody_exBody, List.nil_append]

theorem validate_docFull : validate docFull = { failure := none, conf := confFull } := by
  have h1 : bufferName [] "a" = none := by decide
  have h2 : bufferName ["a"] "b" = none := by decide
  have h3 : cstr "a" = "a" := by decide
  have h4 : cstr "b" = "b" := by decide
  have h5 : cstr "tint" = "tint" := by decide
  have h6 : cstr "gain" = "gain" := by decide
  simp only [validate, docFull, FindMember, String.reduceEq, if_true, if_false,
    audioOptions_exAudio, buffersPhase, bufferLoop, h1, h2, h3, h4, h5, h6,
    bufferBody_exBody, List.nil_append, List.cons_append, renderOrder, renderLoop, findBuffer,
    exBuffer, uniformsPhase, uniformLoop, uniformOf, uniformValues, GetFloat_int_one,
    GetFloat_int_zero, GetFloat_real_half, confFull, List.length_cons, List.length_nil]
  simp

/-- C1 (as stated) fails: the keys `a\u0000b` and `a\u0000c` are non-empty, start with a
letter, differ from `"image"` and from each other, and the rest of the document meets the
schema, yet the constructor reads both names as `a` and reports a duplicate. -/
theorem C1_counterexample :
    MeetsSchema id docNulKeys ∧ (validate docNulKeys).is_ok = false ∧
      (validate docNulKeys).failure = some .bufferDuplicate := by
  refine ⟨⟨_, rfl, ⟨exAudio, by simp [FindMember], validAudio_exAudio⟩,
    Or.inr ⟨[(keyANulB, exBody), (keyANulC, exBody)], ?_, ?_, ?_⟩,
    Or.inl (by simp [FindMember])⟩, ?_, ?_⟩
  · simp [FindMember]
  · refine ⟨⟨?_, ?_⟩, ?_⟩
    · decide
    · decide
    · intro m hm
      simp only [List.mem_cons, List.mem_singleton, List.not_mem_nil, or_false] at hm
      rcases hm with rfl | rfl <;> exact validBody_exBody
  · intro _
    exact ⟨[.string keyANulB], by simp [FindMember], by simp, by simp⟩
  · rw [validate_docNulKeys]; rfl
  · rw [validate_docNulKeys]

/-- C1 at `docFull`: the schema is met and the document is accepted. -/
theorem C1_witness : MeetsSchema cstr docFull ∧ (validate docFull).is_ok = true := by
  have h : MeetsSchema cstr docFull := by
    refine ⟨_, rfl, ⟨exAudio, by simp [FindMember], validAudio_exAudio⟩,
      Or.inr ⟨[("a", exBody), ("b", exBody)], ?_, ?_, ?_⟩,
      Or.inr ⟨[("tint", .array [.number (.int 1), .number (.int 0), .number (.int 0),
          .number (.int 1)]), ("gain", .number (.real (1 / 2)))], ?_, ?_⟩⟩
    · simp [FindMember]
    · refine ⟨⟨?_, ?_⟩, ?_⟩
      · decide
      · decide
      · intro m hm
        simp only [List.mem_cons, List.mem_singleton, List.not_mem_nil, or_false] at hm
        rcases hm with rfl | rfl <;> exact validBody_exBody
    · intro _
      exact ⟨[.string "b", .string "a", .string "b"], by simp [FindMember], by simp, by simp⟩
    · simp [FindMember]
    · intro m hm
      simp only [List.mem_cons, List.mem_singleton, List.not_mem_nil, or_false] at hm
      rcases hm with rfl | rfl
      · exact Or.inr ⟨_, rfl, by simp, by simp⟩
      · exact Or.inl ⟨_, rfl⟩
  exact ⟨h, C1_validate_complete docFull h⟩

/-! ## What a successful run leaves behind -/

/-- A run with `is_ok = true` went through the three sections without a failure, and the
members are what the sections stored. -/
theorem validate_ok_inv (doc : JValue) (h : (validate doc).is_ok = true) :
    ∃ root ao, doc = .object root ∧
      (validate doc).conf.mAudio_ops = some ao ∧
      buffersPhase root =
        (none, (validate doc).conf.mBuffers, (validate doc).conf.mRender_order) ∧
      uniformsPhase root = (none, (validate doc).conf.mUniforms) := by
  cases doc with
  | object root =>
    cases ha : FindMember root "audio_options" with
    | none => simp [validate, ha, Outcome.is_ok] at h
    | some a =>
      cases hao : audioOptions a with
      | error f => simp [validate, ha, hao, Outcome.is_ok] at h
      | ok ao =>
        rcases hbp : buffersPhase root with ⟨f, mB, mR⟩
        cases f with
        | some f => simp [validate, ha, hao, hbp, Outcome.is_ok] at h
        | none =>
          rcases hup : uniformsPhase root with ⟨g, mU⟩
          cases g with
          | some g => simp [validate, ha, hao, hbp, hup, Outcome.is_ok] at h
          | none => exact ⟨root, ao, rfl, by simp [validate, ha, hao, hbp, hup]⟩
  | null => simp [validate, Outcome.is_ok] at h
  | bool _ => simp [validate, Outcome.is_ok] at h
  | number _ => simp [validate, Outcome.is_ok] at h
  | string _ => simp [validate, Outcome.is_ok] at h
  | array _ => simp [validate, Outcome.is_ok] at h

/-- A buffers section without a failure either had nothing to do, or ran the buffer loop
over at least one member and then the render order loop over at least one element. -/
theorem buffersPhase_ok_inv (root : List (String × JValue)) (mB : List Buffer) (mR : List Nat)
    (h : buffersPhase root = (none, mB, mR)) :
    ((FindMember root "buffers" = none ∨ FindMember root "buffers" = some (.object [])) ∧
        mB = [] ∧ mR = []) ∨
      ∃ m ms x rest, FindMember root "buffers" = some (.object (m :: ms)) ∧
        bufferLoop (m :: ms) [] [] = (none, mB) ∧
        FindMember root "render_order" = some (.array (x :: rest)) ∧
        renderLoop mB (x :: rest) [] = (none, mR) := by
  unfold buffersPhase at h
  split at h
  · rename_i hb
    simp only [Prod.mk.injEq, true_and] at h
    exact Or.inl ⟨Or.inl hb, h.1.symm, h.2.symm⟩
  · rename_i hb
    simp only [Prod.mk.injEq, true_and] at h
    exact Or.inl ⟨Or.inr hb, h.1.symm, h.2.symm⟩
  · rename_i m ms hb
    split at h
    · simp at h
    · rename_i out hloop
      split at h
      rename_i f idx hro
      simp only [Prod.mk.injEq] at h
      obtain ⟨rfl, rfl, rfl⟩ := h
      unfold renderOrder at hro
      split at hro
      · simp at hro
      · rename_i x rest hfind
        exact Or.inr ⟨m, ms, x, rest, hb, hloop, hfind, hro⟩
      · simp at hro
  · simp at h

/-- The buffer loop never shortens `mBuffers`, and on success it has added one buffer per
member. -/
theorem bufferLoop_length (ms : List (String × JValue)) :
    ∀ (names : List String) (acc out : List Buffer),
      bufferLoop ms names acc = (none, out) → out.length = acc.length + ms.length := by
  induction ms with
  | nil =>
    intro names acc out h
    simp only [bufferLoop, Prod.mk.injEq, true_and] at h
    simp [h]
  | cons m ms ih =>
    intro names acc out h
    obtain ⟨key, v⟩ := m
    simp only [bufferLoop] at h
    split at h
    · simp at h
    · split at h
      · simp at h
      · have := ih _ _ _ h
        simp only [List.length_append, List.length_cons, List.length_nil] at this ⊢
        omega

/-- Whatever the outcome of the buffer loop, the names in `mBuffers` stay valid and
pairwise distinct, provided `buffer_names` lists the names of `mBuffers`. -/
theorem bufferLoop_names (ms : List (String × JValue)) :
    ∀ (names : List String) (acc : List Buffer),
      names = acc.map Buffer.name → ValidBufferNames (acc.map Buffer.name) →
      ValidBufferNames ((bufferLoop ms names acc).2.map Buffer.name) := by
  induction ms with
  | nil => intro names acc _ hv; exact hv
  | cons m ms ih =>
    intro names acc hnames hv
    obtain ⟨key, v⟩ := m
    simp only [bufferLoop]
    split
    · exact hv
    · rename_i hn
      split
      · exact hv
      · rename_i b hb
        have hbn := bufferBody_name hb
        obtain ⟨hok, hnew⟩ := bufferName_eq_none.mp hn
        apply ih
        · simp [hnames, hbn]
        · refine ⟨?_, ?_⟩
          · intro n hn'
            simp only [List.map_append, List.map_cons, List.map_nil, List.mem_append,
              List.mem_singleton] at hn'
            rcases hn' with hn' | rfl
            · exact hv.1 n hn'
            · rw [hbn]; exact hok
          · simp only [List.map_append, List.map_cons, List.map_nil]
            rw [List.nodup_append]
            refine ⟨hv.2, by simp, ?_⟩
            intro a ha1 ha2
            simp only [List.mem_singleton] at ha2
            rw [ha2, hbn, ← hnames] at ha1
            exact hnew ha1

theorem uniformValues_length (name : String) (elems : List JValue) :
    ∀ (acc vs : List ℚ), uniformValues name elems acc = .ok vs →
      vs.length = acc.length + elems.length := by
  induction elems with
  | nil =>
    intro acc vs h
    simp only [uniformValues, Except.ok.injEq] at h
    simp [h]
  | cons e elems ih =>
    intro acc vs h
    cases e with
    | number n =>
      simp only [uniformValues] at h
      have := ih _ _ h
      simp only [List.length_append, List.length_cons, List.length_nil] at this ⊢
      omega
    | null => simp [uniformValues] at h
    | bool _ => simp [uniformValues] at h
    | string _ => simp [uniformValues] at h
    | array _ => simp [uniformValues] at h
    | object _ => simp [uniformValues] at h

/-- An accepted uniform has at most four components. -/
theorem uniformOf_length {name : String} {v : JValue} {u : Uniform}
    (h : uniformOf name v = .ok u) : u.values.length ≤ 4 := by
  cases v with
  | array elems =>
    simp only [uniformOf] at h
    split at h
    · simp at h
    · rename_i hlen
      split at h
      · simp at h
      · rename_i vs hvs
        have := uniformValues_length name elems [] vs hvs
        simp only [Except.ok.injEq] at h
        rw [← h]
        simp only [List.length_nil, Nat.zero_add] at this
        simp only [this]
        omega
  | number n =>
    simp only [uniformOf, Except.ok.injEq] at h
    rw [← h]
    simp
  | null => simp [uniformOf] at h
  | bool _ => simp [uniformOf] at h
  | string _ => simp [uniformOf] at h
  | object _ => simp [uniformOf] at h

theorem uniformLoop_length_le (us : List (String × JValue)) :
    ∀ (acc : List Uniform), (∀ u ∈ acc, u.values.length ≤ 4) →
      ∀ u ∈ (uniformLoop us acc).2, u.values.length ≤ 4 := by
  induction us with
  | nil => intro acc h; exact h
  | cons m us ih =>
    intro acc h
    obtain ⟨key, v⟩ := m
    simp only [uniformLoop]
    split
    · exact h
    · rename_i u hu
      apply ih
      intro u' hu'
      simp only [List.mem_append, List.mem_singleton] at hu'
      rcases hu' with hu' | rfl
      · exact h u' hu'
      · exact uniformOf_length hu

theorem forall₂_getElem? {α β : Type} {R : α → β → Prop} {l₁ : List α} {l₂ : List β}
    (h : List.Forall₂ R l₁ l₂) :
    ∀ (i : Nat) (a : α), l₁[i]? = some a → ∃ b, l₂[i]? = some b ∧ R a b := by
  induction h with
  | nil => intro i a ha; simp at ha
  | cons hab _ ih =>
    intro i a ha
    cases i with
    | zero =>
      simp only [List.getElem?_cons_zero, Option.some.injEq] at ha
      subst ha
      exact ⟨_, by simp, hab⟩
    | succ i =>
      simp only [List.getElem?_cons_succ] at ha
      obtain ⟨b, hb, hr⟩ := ih i a ha
      exact ⟨b, by simpa using hb, hr⟩

theorem validate_docRenderOnly :
    validate docRenderOnly =
      { failure := none,
        conf := { mAudio_ops := some exAudioOptions, mBuffers := [], mRender_order := [],
                  mUniforms := [] } } := by
  simp only [validate, docRenderOnly, FindMember, String.reduceEq, if_true, if_false,
    audioOptions_exAudio, buffersPhase, uniformsPhase]

theorem validate_docNulRender :
    validate docNulRender =
      { failure := none,
        conf := { mAudio_ops := some exAudioOptions, mBuffers := [exBuffer "a"],
                  mRender_order := [0], mUniforms := [] } } := by
  have h1 : bufferName [] "a" = none := by decide
  have h3 : cstr "a" = "a" := by decide
  simp only [validate, docNulRender, FindMember, String.reduceEq, if_true, if_false,
    audioOptions_exAudio, buffersPhase, bufferLoop, h1, h3, cstr_keyANulB,
    bufferBody_exBody, List.nil_append, renderOrder, renderLoop, findBuffer,
    exBuffer, uniformsPhase]

theorem validate_docEmptyUniform :
    validate docEmptyUniform =
      { failure := none,
        conf := { mAudio_ops := some exAudioOptions, mBuffers := [], mRender_order := [],
                  mUniforms := [{ name := "u", values := [] }] } } := by
  have h1 : cstr "u" = "u" := by decide
  simp only [validate, docEmptyUniform, FindMember, String.reduceEq, if_true, if_false,
    audioOptions_exAudio, buffersPhase, uniformsPhase, uniformLoop, uniformOf, uniformValues,
    h1, List.length_nil, List.nil_append]
  simp

/-! ## C2: the render order -/

/-- C2 (as amended): for every document on which validation succeeds and whose `buffers`
object has at least one member, the render order has exactly one entry per element of the
document's `render_order` array, in the same order; entry `i` is an index within bounds of
the buffer list, and the buffer at that index is the first one whose name equals the `i`-th
string as read up to its first NUL character.  Equal elements of the array yield equal
indices. -/
theorem C2_render_order_resolves (doc : JValue) (h : (validate doc).is_ok = true)
    (hb : DeclaresBuffers doc) :
    RenderOrderResolves cstr (renderOrderArray doc) (validate doc).conf ∧
      ∀ (i j : Nat) (x : JValue), (renderOrderArray doc)[i]? = some x → (renderOrderArray doc)[j]? = some x →
        (validate doc).conf.mRender_order[i]? = (validate doc).conf.mRender_order[j]? := by
  obtain ⟨root, ao, hdoc, _, hbp, _⟩ := validate_ok_inv doc h
  obtain ⟨root', m, ms, hdoc', hbuf⟩ := hb
  have hroot : root' = root := by
    rw [hdoc] at hdoc'
    simpa using hdoc'.symm
  subst hroot
  have key : RenderOrderResolves cstr (renderOrderArray doc) (validate doc).conf := by
    rcases buffersPhase_ok_inv root' _ _ hbp with ⟨hnone | hempty, _, _⟩ |
        ⟨m', ms', x, rest, _, _, hfind, hloop⟩
    · rw [hnone] at hbuf; simp at hbuf
    · rw [hempty] at hbuf; simp at hbuf
    · obtain ⟨idx, hidx, hall⟩ := renderLoop_ok _ _ _ _ hloop
      unfold RenderOrderResolves
      rw [hidx, hdoc]
      simp only [renderOrderArray, hfind, List.nil_append]
      rw [hdoc] at hall
      exact hall
  refine ⟨key, ?_⟩
  intro i j x hi hj
  obtain ⟨a, ha, s, hs, hfa⟩ := forall₂_getElem? key i x hi
  obtain ⟨b, hb', s', hs', hfb⟩ := forall₂_getElem? key j x hj
  have : s' = s := by
    rw [hs] at hs'
    simpa using hs'.symm
  subst this
  rw [ha, hb', isFirstIndex_unique hfa hfb]

/-- C2 (as stated) fails in two ways.  Without buffers the `render_order` array is not
read: `docRenderOnly` is accepted with an empty render order although its array has one
element.  And a name is compared as read up to its first NUL character: `docNulRender`
is accepted with render order `[0]`, although buffer `0` is named `a` and the array holds
the string `a\u0000b`. -/
theorem C2_counterexample :
    ((validate docRenderOnly).is_ok = true ∧
        ¬ RenderOrderResolves id (renderOrderArray docRenderOnly) (validate docRenderOnly).conf) ∧
      ((validate docNulRender).is_ok = true ∧
        ¬ RenderOrderResolves id (renderOrderArray docNulRender) (validate docNulRender).conf) := by
  refine ⟨⟨by rw [validate_docRenderOnly]; rfl, ?_⟩, ⟨by rw [validate_docNulRender]; rfl, ?_⟩⟩
  · rw [validate_docRenderOnly]
    intro hres
    have hlen := hres.length_eq
    simp [renderOrderArray, docRenderOnly, FindMember] at hlen
  · rw [validate_docNulRender]
    intro hres
    have hro : renderOrderArray docNulRender = [.string keyANulB] := by
      simp [renderOrderArray, docNulRender, FindMember]
    rw [hro] at hres
    obtain ⟨b, hb, s, hs, _, ⟨b', hb', hname⟩, _⟩ :=
      forall₂_getElem? hres 0 (.string keyANulB) rfl
    injection hs with hs
    subst hs
    simp only [List.getElem?_cons_zero, Option.some.injEq] at hb
    subst hb
    simp only [List.getElem?_cons_zero, Option.some.injEq] at hb'
    subst hb'
    exact absurd hname (by decide)

/-- C2 at `docFull`: the render order `[1, 0, 1]` resolves `["b", "a", "b"]`. -/
theorem C2_witness :
    ((validate docFull).is_ok = true ∧ DeclaresBuffers docFull) ∧
      RenderOrderResolves cstr (renderOrderArray docFull) (validate docFull).conf ∧
      ∀ (i j : Nat) (x : JValue), (renderOrderArray docFull)[i]? = some x → (renderOrderArray docFull)[j]? = some x →
        (validate docFull).conf.mRender_order[i]? = (validate docFull).conf.mRender_order[j]? := by
  have h : (validate docFull).is_ok = true := by rw [validate_docFull]; rfl
  have hb : DeclaresBuffers docFull := ⟨_, ("a", exBody), [("b", exBody)], rfl, by simp [FindMember]⟩
  exact ⟨⟨h, hb⟩, C2_render_order_resolves docFull h hb⟩

/-! ## C3: buffer names -/

/-- C3: for every document on which validation succeeds, the names of the buffers in the
buffer list are pairwise distinct, each is non-empty and starts with a letter or an
underscore, and none equals `"image"`; repeated keys in the document do not change
this. -/
theorem C3_buffer_names_valid (doc : JValue) (h : (validate doc).is_ok = true) :
    ValidBufferNames ((validate doc).conf.mBuffers.map Buffer.name) := by
  obtain ⟨root, ao, _, _, hbp, _⟩ := validate_ok_inv doc h
  rcases buffersPhase_ok_inv root _ _ hbp with ⟨_, hB, _⟩ | ⟨m, ms, x, rest, _, hloop, _, _⟩
  · rw [hB]
    exact ⟨by simp, by simp⟩
  · have := bufferLoop_names (m :: ms) [] [] rfl ⟨by simp, by simp⟩
    rw [hloop] at this
    exact this

/-- C3 at `docFull`: the names `a` and `b`. -/
theorem C3_witness :
    (validate docFull).is_ok = true ∧
      ValidBufferNames ((validate docFull).conf.mBuffers.map Buffer.name) := by
  have h : (validate docFull).is_ok = true := by rw [validate_docFull]; rfl
  exact ⟨h, C3_buffer_names_valid docFull h⟩

/-! ## C4: render order and buffer list are empty together -/

/-- C4: for every document on which validation succeeds, the render order is non-empty if
and only if the buffer list is non-empty. -/
theorem C4_render_order_nonempty_iff (doc : JValue) (h : (validate doc).is_ok = true) :
    (validate doc).conf.mRender_order ≠ [] ↔ (validate doc).conf.mBuffers ≠ [] := by
  obtain ⟨root, ao, _, _, hbp, _⟩ := validate_ok_inv doc h
  rcases buffersPhase_ok_inv root _ _ hbp with ⟨_, hB, hR⟩ | ⟨m, ms, x, rest, _, hloop, _, hrl⟩
  · rw [hB, hR]
    simp
  · have hlen := bufferLoop_length _ _ _ _ hloop
    obtain ⟨idx, hidx, hall⟩ := renderLoop_ok _ _ _ _ hrl
    have hl := hall.length_eq
    constructor
    · intro _ hnil
      rw [hnil] at hlen
      simp at hlen
    · intro _ hnil
      rw [hnil] at hidx
      have : idx = [] := by simpa using hidx.symm
      rw [this] at hl
      simp at hl

/-- C4 at `docFull`, where both lists are non-empty. -/
theorem C4_witness :
    (validate docFull).is_ok = true ∧
      ((validate docFull).conf.mRender_order ≠ [] ↔ (validate docFull).conf.mBuffers ≠ []) := by
  have h : (validate docFull).is_ok = true := by rw [validate_docFull]; rfl
  exact ⟨h, C4_render_order_nonempty_iff docFull h⟩

/-! ## C5: the size of a uniform -/

/-- An accepted uniform has between one and four components, or none when it was written
as the empty array. -/
theorem uniformOf_components {name key : String} {v : JValue} {u : Uniform}
    (h : uniformOf name v = .ok u) : UniformComponents (key, v) u := by
  refine ⟨uniformOf_length h, ?_, ?_⟩
  · intro hv
    simp only at hv
    subst hv
    simp only [uniformOf, List.length_nil, gt_iff_lt, Nat.not_lt_zero, if_false,
      uniformValues, Except.ok.injEq] at h
    rw [← h]
    rfl
  · intro hv
    simp only at hv
    cases v with
    | array elems =>
      simp only [uniformOf] at h
      split at h
      · simp at h
      · split at h
        · simp at h
        · rename_i vs hvs
          have hlen := uniformValues_length name elems [] vs hvs
          simp only [Except.ok.injEq] at h
          rw [← h]
          simp only [List.length_nil, Nat.zero_add] at hlen
          simp only [hlen]
          cases elems with
          | nil => exact absurd rfl hv
          | cons e es => simp
    | number n =>
      simp only [uniformOf, Except.ok.injEq] at h
      rw [← h]
      simp
    | null => simp [uniformOf] at h
    | bool _ => simp [uniformOf] at h
    | string _ => simp [uniformOf] at h
    | object _ => simp [uniformOf] at h

theorem uniformLoop_components (us : List (String × JValue)) :
    ∀ (acc out : List Uniform), uniformLoop us acc = (none, out) →
      ∃ new, out = acc ++ new ∧ List.Forall₂ UniformComponents us new := by
  induction us with
  | nil =>
    intro acc out h
    simp only [uniformLoop, Prod.mk.injEq, true_and] at h
    exact ⟨[], by simp [h], List.Forall₂.nil⟩
  | cons m us ih =>
    intro acc out h
    obtain ⟨key, v⟩ := m
    simp only [uniformLoop] at h
    split at h
    · simp at h
    · rename_i u hu
      obtain ⟨new, hout, hall⟩ := ih _ _ h
      exact ⟨u :: new, by simp [hout], List.Forall₂.cons (uniformOf_components hu) hall⟩

/-- C5 (as amended): for every document on which validation succeeds, every uniform in the
uniform list has between one and four numeric components, except a uniform whose value in
the document is the empty array, which has none.  The uniforms stand in the order of the
members of the `uniforms` object, one per member; in every case the value sequence has
length at most four. -/
theorem C5_uniform_components (doc : JValue) (h : (validate doc).is_ok = true) :
    (∀ u ∈ (validate doc).conf.mUniforms, u.values.length ≤ 4) ∧
      List.Forall₂ UniformComponents (uniformsMembers doc) (validate doc).conf.mUniforms := by
  obtain ⟨root, ao, hdoc, _, _, hup⟩ := validate_ok_inv doc h
  rw [hdoc] at hup ⊢
  unfold uniformsPhase at hup
  split at hup
  · rename_i hnone
    simp only [Prod.mk.injEq, true_and] at hup
    rw [← hup]
    simp only [uniformsMembers, hnone]
    exact ⟨by simp, List.Forall₂.nil⟩
  · rename_i us hus
    have hle := uniformLoop_length_le us [] (by simp)
    rw [hup] at hle
    obtain ⟨new, hout, hall⟩ := uniformLoop_components us [] _ hup
    refine ⟨hle, ?_⟩
    rw [hout]
    simp only [uniformsMembers, hus, List.nil_append]
    exact hall
  · simp at hup

/-- C5 (as stated) fails: `docEmptyUniform`, whose one uniform `u` is written as the empty
array, is accepted and its uniform `u` has no component. -/
theorem C5_counterexample :
    uniformsMembers docEmptyUniform = [("u", .array [])] ∧
      (validate docEmptyUniform).is_ok = true ∧
      ¬ ∀ u ∈ (validate docEmptyUniform).conf.mUniforms,
        1 ≤ u.values.length ∧ u.values.length ≤ 4 := by
  rw [validate_docEmptyUniform]
  refine ⟨?_, rfl, ?_⟩
  · simp only [uniformsMembers, docEmptyUniform, FindMember, String.reduceEq, if_true,
      if_false]
  · intro hall
    have := (hall { name := "u", values := [] } (by simp)).1
    simp at this

/-- C5 at `docFull`, whose uniforms have four components and one. -/
theorem C5_witness :
    (validate docFull).is_ok = true ∧
      (∀ u ∈ (validate docFull).conf.mUniforms, u.values.length ≤ 4) ∧
      List.Forall₂ UniformComponents (uniformsMembers docFull)
        (validate docFull).conf.mUniforms := by
  have h : (validate docFull).is_ok = true := by rw [validate_docFull]; rfl
  exact ⟨h, C5_uniform_components docFull h⟩

/-! ## A failure at a buffer's name -/

theorem buffersPhase_cons (root : List (String × JValue)) (m : String × JValue)
    (ms : List (String × JValue)) (h : FindMember root "buffers" = some (.object (m :: ms)))
    (f : Failure) (mB : List Buffer) (hloop : bufferLoop (m :: ms) [] [] = (some f, mB)) :
    buffersPhase root = (some f, mB, []) := by
  simp only [buffersPhase, h, hloop]

/-- When the members before `(k, v)` are fully valid buffers and the name checks reject
`k`, the constructor stops there: the failure is the one of the name check, whatever `v`
is, and `mBuffers` holds the buffers stored so far. -/
theorem validate_name_failure (root pre post : List (String × JValue)) (k : String) (v : JValue)
    (f : Failure) (ha : HasValidAudio root)
    (hb : FindMember root "buffers" = some (.object (pre ++ (k, v) :: post)))
    (hpre : ValidBuffers cstr pre)
    (hf : bufferName (pre.map (fun m => cstr m.1)) (cstr k) = some f) :
    (validate (.object root)).failure = some f ∧
      (validate (.object root)).conf.mBuffers.map Buffer.name = pre.map (fun m => cstr m.1) ∧
      (validate (.object root)).conf.mRender_order = [] ∧
      (validate (.object root)).conf.mUniforms = [] := by
  obtain ⟨a, hfa, hva⟩ := ha
  obtain ⟨ao, hao⟩ := audioOptions_of_valid hva
  obtain ⟨⟨hnames, hnodup⟩, hbody⟩ := hpre
  obtain ⟨bs, hmap, hloop⟩ := bufferLoop_valid_prefix pre ((k, v) :: post) [] [] hbody hnames
    (by simpa using hnodup)
  have hstep : bufferLoop (pre ++ (k, v) :: post) [] [] = (some f, bs) := by
    rw [hloop]
    simp only [List.nil_append, bufferLoop, hf]
  obtain ⟨m, ms, hcons⟩ : ∃ m ms, pre ++ (k, v) :: post = m :: ms := by
    cases pre with
    | nil => exact ⟨_, _, rfl⟩
    | cons m ms => exact ⟨_, _, rfl⟩
  rw [hcons] at hb hstep
  have hbp := buffersPhase_cons root m ms hb f bs hstep
  simp only [validate, hfa, hao, hbp]
  exact ⟨trivial, hmap, trivial, trivial⟩

/-- A key that repeats the key of an earlier, fully valid buffer passes the first three
name checks and fails the fourth. -/
theorem bufferName_of_repeat (pre : List (String × JValue)) (k : String)
    (hpre : ValidBuffers cstr pre) (hdup : k ∈ pre.map (fun m => m.1)) :
    bufferName (pre.map (fun m => cstr m.1)) (cstr k) = some .bufferDuplicate := by
  have hmem : cstr k ∈ pre.map (fun m => cstr m.1) := by
    obtain ⟨m, hm, rfl⟩ := List.mem_map.mp hdup
    exact List.mem_map.mpr ⟨m, hm, rfl⟩
  have hok := hpre.1.1 (cstr k) hmem
  unfold bufferName
  unfold StartsLetterOrUnderscore at hok
  cases hd : (cstr k).data with
  | nil => rw [hd] at hok; simp at hok
  | cons c rest =>
    rw [hd] at hok
    have h1 : (c.isAlpha || c == '_') = true := hok.2.1
    simp only [h1, Bool.not_true, Bool.false_eq_true, if_false, hok.2.2, hmem, if_true]

/-! ## Keys that differ only after a NUL character -/

/-- The keys `a\u0000b` and `a\u0000c` are fully valid buffers when the conditions on names
are read on the keys as the document has them. -/
theorem validBuffers_id_nulKeyBuffers : ValidBuffers id nulKeyBuffers := by
  refine ⟨⟨?_, ?_⟩, ?_⟩
  · decide
  · decide
  · intro m hm
    simp only [nulKeyBuffers, List.mem_cons, List.mem_singleton, List.not_mem_nil,
      or_false] at hm
    rcases hm with rfl | rfl <;> exact validBody_exBody

/-- A run over buffers that start with the keys `a\u0000b` and `a\u0000c`: both are read
as `a`, the second is reported as a duplicate, and the first is left in `mBuffers`. -/
theorem validate_nul_keys (root rest : List (String × JValue))
    (ha : FindMember root "audio_options" = some exAudio)
    (hb : FindMember root "buffers" =
      some (.object ((keyANulB, exBody) :: (keyANulC, exBody) :: rest))) :
    validate (.object root) =
      { failure := some .bufferDuplicate,
        conf := { mAudio_ops := some exAudioOptions, mBuffers := [exBuffer "a"],
                  mRender_order := [], mUniforms := [] } } := by
  have h1 : bufferName [] "a" = none := by decide
  have h2 : bufferName ["a"] "a" = some .bufferDuplicate := by decide
  have hloop : bufferLoop ((keyANulB, exBody) :: (keyANulC, exBody) :: rest) [] [] =
      (some .bufferDuplicate, [exBuffer "a"]) := by
    simp only [bufferLoop, cstr_keyANulB, cstr_keyANulC, h1, h2, bufferBody_exBody,
      List.nil_append]
  have hbp := buffersPhase_cons root _ _ hb _ _ hloop
  simp only [validate, ha, audioOptions_exAudio, hbp]

/-! ## C6: a repeated buffer name -/

/-- C6 (as amended): for every document with valid `audio_options` whose `buffers` object
has a member with the key of an earlier member, all members before it being fully valid
buffers whose names, each read up to its first NUL character, are non-empty, start with a
letter or an underscore, differ from `"image"` and are pairwise distinct, validation fails
with `DuplicateName` ("Buffers must have unique names"); the buffer list of the failed
object holds the buffers stored before the duplicate, one per preceding member and in
their order, so it is not empty; render order and uniform list are empty. -/
theorem C6_duplicate_name (root pre post : List (String × JValue)) (k : String) (v : JValue)
    (ha : HasValidAudio root)
    (hb : FindMember root "buffers" = some (.object (pre ++ (k, v) :: post)))
    (hpre : ValidBuffers cstr pre) (hdup : k ∈ pre.map (fun m => m.1)) :
    (validate (.object root)).failure = some .bufferDuplicate ∧
      Failure.bufferDuplicate.kind = .DuplicateName ∧
      Failure.bufferDuplicate.message = "Buffers must have unique names" ∧
      (validate (.object root)).conf.mBuffers.map Buffer.name = pre.map (fun m => cstr m.1) ∧
      (validate (.object root)).conf.mBuffers ≠ [] ∧
      (validate (.object root)).conf.mRender_order = [] ∧
      (validate (.object root)).conf.mUniforms = [] := by
  have hf := bufferName_of_repeat pre k hpre hdup
  obtain ⟨h1, h2, h3, h4⟩ := validate_name_failure root pre post k v _ ha hb hpre hf
  refine ⟨h1, rfl, rfl, h2, ?_, h3, h4⟩
  intro hnil
  rw [hnil] at h2
  have : pre = [] := by simpa using h2.symm
  rw [this] at hdup
  simp at hdup

theorem validate_docDuplicate :
    validate docDuplicate =
      { failure := some .bufferDuplicate,
        conf := { mAudio_ops := some exAudioOptions, mBuffers := [exBuffer "a"],
                  mRender_order := [], mUniforms := [] } } := by
  have h1 : bufferName [] "a" = none := by decide
  have h2 : bufferName ["a"] "a" = some .bufferDuplicate := by decide
  have h3 : cstr "a" = "a" := by decide
  simp only [validate, docDuplicate, FindMember, String.reduceEq, if_true, if_false,
    audioOptions_exAudio, buffersPhase, bufferLoop, h1, h2, h3, bufferBody_exBody,
    List.nil_append]

theorem validate_docDuplicateBadBody :
    validate docDuplicateBadBody =
      { failure := some (.bufferNotObject "a"),
        conf := { mAudio_ops := some exAudioOptions, mBuffers := [],
                  mRender_order := [], mUniforms := [] } } := by
  have h1 : bufferName [] "a" = none := by decide
  have h3 : cstr "a" = "a" := by decide
  simp only [validate, docDuplicateBadBody, FindMember, String.reduceEq, if_true, if_false,
    audioOptions_exAudio, buffersPhase, bufferLoop, h1, h3, bufferBody]

/-- C6 (as stated) fails in two ways.  `docDuplicateBadBody` repeats the key `a`, but the
first `a` is not an object and that is what is reported.  `docDuplicate` repeats the key
`a` with valid bodies: the failure is the duplicate, and the buffer list of the failed
object still holds the first `a`.  Moreover the members that precede the repeated key must
be valid with their names read up to the first NUL character: in `rootNulTriple` the two
members before the repeated key `a\u0000b` are valid on their keys, yet the failed object
holds one buffer, not two. -/
theorem C6_counterexample :
    ((validate docDuplicateBadBody).failure = some (.bufferNotObject "a") ∧
        (Failure.bufferNotObject "a").kind ≠ .DuplicateName) ∧
      ((validate docDuplicate).failure = some .bufferDuplicate ∧
        (validate docDuplicate).conf.mBuffers = [exBuffer "a"] ∧
        (validate docDuplicate).conf.mBuffers ≠ []) ∧
      (buffersMembers (.object rootNulTriple) = nulKeyBuffers ++ [(keyANulB, exBody)] ∧
        ValidBuffers id nulKeyBuffers ∧
        keyANulB ∈ nulKeyBuffers.map (fun m => m.1) ∧
        (validate (.object rootNulTriple)).failure = some .bufferDuplicate ∧
        (validate (.object rootNulTriple)).conf.mBuffers = [exBuffer "a"] ∧
        (validate (.object rootNulTriple)).conf.mBuffers.length ≠ nulKeyBuffers.length) := by
  have ht := validate_nul_keys rootNulTriple [(keyANulB, exBody)]
    (by simp only [rootNulTriple, FindMember, if_true])
    (by simp only [rootNulTriple, FindMember, String.reduceEq, if_true, if_false])
  rw [validate_docDuplicate, validate_docDuplicateBadBody, ht]
  refine ⟨⟨rfl, by decide⟩, ⟨rfl, rfl, by simp⟩, ?_, validBuffers_id_nulKeyBuffers,
    by decide, rfl, rfl, by decide⟩
  simp only [buffersMembers, rootNulTriple, FindMember, String.reduceEq, if_true, if_false,
    nulKeyBuffers, List.cons_append, List.nil_append]

/-- C6 at `docDuplicate`: the second `a` is reported, the first is in the buffer list. -/
theorem C6_witness :
    (validate docDuplicate).failure = some .bufferDuplicate ∧
      Failure.bufferDuplicate.kind = .DuplicateName ∧
      Failure.bufferDuplicate.message = "Buffers must have unique names" ∧
      (validate docDuplicate).conf.mBuffers.map Buffer.name = ["a"].map cstr ∧
      (validate docDuplicate).conf.mBuffers ≠ [] ∧
      (validate docDuplicate).conf.mRender_order = [] ∧
      (validate docDuplicate).conf.mUniforms = [] :=
  C6_duplicate_name
    [("audio_options", exAudio), ("buffers", .object [("a", exBody), ("a", exBody)]),
      ("render_order", .array [.string "a"])]
    [("a", exBody)] [] "a" exBody
    ⟨exAudio, by simp [FindMember], validAudio_exAudio⟩
    (by simp [FindMember])
    ⟨⟨by decide, by decide⟩, by
      intro m hm
      simp only [List.mem_singleton] at hm
      rw [hm]; exact validBody_exBody⟩
    (by simp)

/-! ## C7: `FFT_SMOOTH` out of range -/

/-- C7 (as amended): for every document whose `audio_options` is an object that holds all
four keys, with numbers for `FFT_SMOOTH` and `WAVE_SMOOTH` and booleans for `FFT_SYNC` and
`DIFF_SYNC`, and whose `FFT_SMOOTH`, converted to `float`, is below 0 or above 1,
validation fails with the `RangeViolation` for `FFT_SMOOTH` ("FFT_SMOOTH must be in the
interval [0, 1]"), whatever the value of `WAVE_SMOOTH` and the other sections. -/
theorem C7_fft_smooth_range (root ao : List (String × JValue)) (fs ws : JNumber) (fy dy : Bool)
    (ha : FindMember root "audio_options" = some (.object ao))
    (h1 : FindMember ao "FFT_SMOOTH" = some (.number fs))
    (h2 : FindMember ao "WAVE_SMOOTH" = some (.number ws))
    (h3 : FindMember ao "FFT_SYNC" = some (.bool fy))
    (h4 : FindMember ao "DIFF_SYNC" = some (.bool dy))
    (hr : fs.GetFloat < 0 ∨ 1 < fs.GetFloat) :
    (validate (.object root)).is_ok = false ∧
      (validate (.object root)).failure = some .fftSmoothRange ∧
      Failure.fftSmoothRange.kind = .RangeViolation ∧
      Failure.fftSmoothRange.message = "FFT_SMOOTH must be in the interval [0, 1]" := by
  have hr' : fs.GetFloat < 0 ∨ fs.GetFloat > 1 := hr
  have hao : audioOptions (.object ao) = .error .fftSmoothRange := by
    simp only [audioOptions, h1, h2, h3, h4, if_pos hr']
  simp only [validate, ha, hao, Outcome.is_ok]
  exact ⟨rfl, trivial, rfl, rfl⟩

theorem validate_docFftTwoNoWave :
    validate docFftTwoNoWave =
      { failure := some .audioMissingWaveSmooth, conf := ShaderConfig.empty } := by
  simp only [validate, docFftTwoNoWave, FindMember, String.reduceEq, if_true, if_false,
    audioOptions]

theorem validate_docFftTwoWaveString :
    validate docFftTwoWaveString =
      { failure := some .waveSmoothNotNumber, conf := ShaderConfig.empty } := by
  simp only [validate, docFftTwoWaveString, FindMember, String.reduceEq, if_true, if_false,
    audioOptions]

theorem audioOptions_audioJustAboveOne :
    audioOptions audioJustAboveOne = .ok audioOptionsJustAboveOne := by
  have hf : (JNumber.real (1 + 1 / 2 ^ 30)).GetFloat = 1 := toFloat_above_one
  have hw : (JNumber.real (1 / 4)).GetFloat = 1 / 4 := toFloat_quarter
  have h1 : ¬ ((1 : ℚ) < 0 ∨ (1 : ℚ) > 1) := by norm_num
  have h2 : ¬ ((1 / 4 : ℚ) < 0 ∨ (1 / 4 : ℚ) > 1) := by norm_num
  simp only [FindMember, String.reduceEq, if_true, if_false, audioJustAboveOne,
    audioOptionsJustAboveOne, audioOptions, hf, hw, if_neg h1, if_neg h2]

/-- The outcome of a run whose audio and buffers sections raise no failure. -/
theorem validate_of_phases (root : List (String × JValue)) (a : JValue) (ao : AudioOptions)
    (mB : List Buffer) (mR : List Nat) (f : Option Failure) (mU : List Uniform)
    (ha : FindMember root "audio_options" = some a) (hao : audioOptions a = .ok ao)
    (hbp : buffersPhase root = (none, mB, mR)) (hup : uniformsPhase root = (f, mU)) :
    validate (.object root) =
      { failure := f,
        conf := { mAudio_ops := some ao, mBuffers := mB, mRender_order := mR,
                  mUniforms := mU } } := by
  simp only [validate, ha, hao, hbp, hup]

theorem validate_docFftJustAboveOne :
    validate docFftJustAboveOne =
      { failure := none,
        conf := { mAudio_ops := some audioOptionsJustAboveOne,
                  mBuffers := [], mRender_order := [], mUniforms := [] } } :=
  validate_of_phases [("audio_options", audioJustAboveOne)] audioJustAboveOne
    audioOptionsJustAboveOne [] [] none []
    (by simp only [FindMember, if_true])
    audioOptions_audioJustAboveOne
    (by simp only [buffersPhase, FindMember, String.reduceEq, if_false])
    (by simp only [uniformsPhase, FindMember, String.reduceEq, if_false])

/-- C7 (as stated) fails in three ways, each with `FFT_SMOOTH` outside `[0, 1]`.  With
`FFT_SMOOTH = 2` and no `WAVE_SMOOTH` the missing key is reported; with `FFT_SMOOTH = 2`
and a string for `WAVE_SMOOTH` the wrong type is reported; and `FFT_SMOOTH = 1 + 2 ^ (-30)`
is accepted, because the comparison is made on the `float`, which is 1. -/
theorem C7_counterexample :
    ((JNumber.int 2).value > 1 ∧
        (validate docFftTwoNoWave).failure = some .audioMissingWaveSmooth ∧
        (validate docFftTwoWaveString).failure = some .waveSmoothNotNumber) ∧
      ((JNumber.real (1 + 1 / 2 ^ 30)).value > 1 ∧
        (validate docFftJustAboveOne).is_ok = true) := by
  rw [validate_docFftTwoNoWave, validate_docFftTwoWaveString, validate_docFftJustAboveOne]
  refine ⟨⟨?_, rfl, rfl⟩, ?_, rfl⟩
  · norm_num [JNumber.value]
  · norm_num [JNumber.value]

theorem ilog2_two : ilog2 2 = 1 := by
  have h3 : Nat.log2 2 = 1 := by simp [Nat.log2]
  have h4 : Nat.log2 1 = 0 := by simp [Nat.log2]
  unfold ilog2
  simp only [Rat.num_ofNat, Rat.den_ofNat]
  have h5 : (2 : Int).natAbs = 2 := rfl
  rw [h5, h3, h4]
  norm_num

theorem GetFloat_int_two : (JNumber.int 2).GetFloat = 2 := by
  have hd : toDouble 2 = 2 := by
    apply roundBinary_of_scaled 53 (-1022) 2 (2 ^ 52) (by norm_num)
    rw [ilog2_two]
    norm_num
  have hf : toFloat 2 = 2 := by
    apply roundBinary_of_scaled 24 (-126) 2 (2 ^ 23) (by norm_num)
    rw [ilog2_two]
    norm_num
  simp only [JNumber.GetFloat, JNumber.GetDouble, Int.cast_ofNat, hd, hf]

/-- C7 at `rootFftTwo`, where `FFT_SMOOTH = 2` and the other three options are valid. -/
theorem C7_witness :
    (validate (.object rootFftTwo)).is_ok = false ∧
      (validate (.object rootFftTwo)).failure = some .fftSmoothRange ∧
      Failure.fftSmoothRange.kind = .RangeViolation ∧
      Failure.fftSmoothRange.message = "FFT_SMOOTH must be in the interval [0, 1]" :=
  C7_fft_smooth_range rootFftTwo audioFftTwo (.int 2) (.real (1 / 4)) true false
    (by simp [FindMember, rootFftTwo]) (by simp [FindMember, audioFftTwo])
    (by simp [FindMember, audioFftTwo]) (by simp [FindMember, audioFftTwo])
    (by simp [FindMember, audioFftTwo])
    (Or.inr (by rw [GetFloat_int_two]; norm_num))

/-! ## C8: the message for a missing `FFT_SYNC` -/

theorem validate_docNoFftSync :
    validate docNoFftSync = { failure := some .audioMissingFftSync, conf := ShaderConfig.empty } := by
  simp only [validate, docNoFftSync, FindMember, String.reduceEq, if_true, if_false,
    audioOptions]

/-- C8 at the failing input `docNoFftSync`, where `FFT_SYNC` is the first (and only) absent
key: the failure is a `MissingField`, but the message printed is the one for `FFT_SMOOTH`;
it names `FFT_SMOOTH` and does not name `FFT_SYNC`. -/
theorem C8_missing_fft_sync_names_fft_smooth :
    (validate docNoFftSync).failure = some .audioMissingFftSync ∧
      Failure.audioMissingFftSync.kind = .MissingField ∧
      Failure.audioMissingFftSync.message = "Audio options must contain the FFT_smooth option" ∧
      Failure.audioMissingFftSync.message = Failure.audioMissingFftSmooth.message ∧
      mentions Failure.audioMissingFftSync.message "FFT_SMOOTH" = true ∧
      mentions Failure.audioMissingFftSync.message "FFT_SYNC" = false := by
  rw [validate_docNoFftSync]
  exact ⟨rfl, rfl, rfl, rfl, by decide, by decide⟩

/-! ## C9: no `audio_options` -/

/-- C9: for every document whose root is an object without an `audio_options` member,
validation fails with the `MissingField` that names `audio_options` ("shader.json needs
audio_options setting"), whatever `buffers`, `render_order` and `uniforms` contain; nothing
is stored in the object. -/
theorem C9_missing_audio_options (root : List (String × JValue))
    (h : FindMember root "audio_options" = none) :
    (validate (.object root)).is_ok = false ∧
      (validate (.object root)).failure = some .needsAudioOptions ∧
      Failure.needsAudioOptions.kind = .MissingField ∧
      mentions Failure.needsAudioOptions.message "audio_options" = true ∧
      (validate (.object root)).conf = ShaderConfig.empty := by
  simp only [validate, h, Outcome.is_ok]
  exact ⟨rfl, trivial, rfl, by decide, trivial⟩

/-- C9 at `rootNoAudio`, whose other sections are valid. -/
theorem C9_witness :
    (validate (.object rootNoAudio)).is_ok = false ∧
      (validate (.object rootNoAudio)).failure = some .needsAudioOptions ∧
      Failure.needsAudioOptions.kind = .MissingField ∧
      mentions Failure.needsAudioOptions.message "audio_options" = true ∧
      (validate (.object rootNoAudio)).conf = ShaderConfig.empty :=
  C9_missing_audio_options rootNoAudio (by simp [FindMember, rootNoAudio])

/-! ## C10: a buffer's name is checked before its body -/

/-- The first character of a key that does not start with a letter or an underscore is
still not one after the key is cut at its first NUL character. -/
theorem bufferName_of_bad_start (names : List String) (k : String)
    (h : StartsLetterOrUnderscore k = false) :
    bufferName names (cstr k) = some .bufferNoName ∨
      bufferName names (cstr k) = some (.bufferBadName (cstr k)) := by
  unfold StartsLetterOrUnderscore at h
  unfold bufferName
  cases hd : k.data with
  | nil =>
    left
    have : (cstr k).data = [] := by simp [cstr, hd]
    simp only [this]
  | cons c rest =>
    rw [hd] at h
    simp only at h
    by_cases hc : (c != Char.ofNat 0) = true
    · right
      have : (cstr k).data = c :: rest.takeWhile (fun c => c != Char.ofNat 0) := by
        simp [cstr, hd, List.takeWhile_cons, hc]
      simp only [this, h, Bool.not_false, if_true]
    · left
      have : (cstr k).data = [] := by
        simp [cstr, hd, List.takeWhile_cons, hc]
      simp only [this]

/-- C10 (as amended): for every document with valid `audio_options` in which all members
of `buffers` before `(k, v)` are fully valid buffers whose names, each read up to its first
NUL character, are non-empty, start with a letter or an underscore, differ from `"image"`
and are pairwise distinct, and in which the key `k` is empty, starts with a character that
is neither a letter nor an underscore, equals `"image"`, or repeats an earlier key,
validation fails with a name error, whatever the value `v` is: `DuplicateName` when `k`
repeats an earlier key, `InvalidIdentifier` otherwise.  The failure is one of the four
raised by the name checks, none of which looks at `v`. -/
theorem C10_name_before_body (root pre post : List (String × JValue)) (k : String) (v : JValue)
    (ha : HasValidAudio root)
    (hb : FindMember root "buffers" = some (.object (pre ++ (k, v) :: post)))
    (hpre : ValidBuffers cstr pre)
    (hk : k = "" ∨ StartsLetterOrUnderscore k = false ∨ k = "image" ∨
      k ∈ pre.map (fun m => m.1)) :
    ∃ f, (validate (.object root)).failure = some f ∧
      (f = .bufferNoName ∨ f = .bufferBadName (cstr k) ∨ f = .bufferNamedImage ∨
        f = .bufferDuplicate) ∧
      f.kind = if k ∈ pre.map (fun m => m.1) then .DuplicateName else .InvalidIdentifier := by
  by_cases hrep : k ∈ pre.map (fun m => m.1)
  · obtain ⟨h1, _⟩ := validate_name_failure root pre post k v _ ha hb hpre
      (bufferName_of_repeat pre k hpre hrep)
    exact ⟨.bufferDuplicate, h1, by simp, by simp [hrep, Failure.kind]⟩
  · have hbad : k = "" ∨ StartsLetterOrUnderscore k = false ∨ k = "image" := by
      rcases hk with h | h | h | h
      · exact Or.inl h
      · exact Or.inr (Or.inl h)
      · exact Or.inr (Or.inr h)
      · exact absurd h hrep
    have hf : ∃ f, bufferName (pre.map (fun m => cstr m.1)) (cstr k) = some f ∧
        (f = .bufferNoName ∨ f = .bufferBadName (cstr k) ∨ f = .bufferNamedImage) := by
      rcases hbad with h | h | h
      · subst h
        exact ⟨.bufferNoName, by
          have : (cstr "").data = [] := by decide
          simp only [bufferName, this], Or.inl rfl⟩
      · rcases bufferName_of_bad_start (pre.map (fun m => cstr m.1)) k h with h' | h'
        · exact ⟨_, h', Or.inl rfl⟩
        · exact ⟨_, h', Or.inr (Or.inl rfl)⟩
      · subst h
        exact ⟨.bufferNamedImage, by
          have h1 : cstr "image" = "image" := by decide
          have h2 : ("image" : String).data = ['i', 'm', 'a', 'g', 'e'] := rfl
          have h3 : ('i'.isAlpha || 'i' == '_') = true := by decide
          simp only [bufferName, h1, h2, h3, Bool.not_true, Bool.false_eq_true, if_false,
            if_true], Or.inr (Or.inr rfl)⟩
    obtain ⟨f, hf, hcase⟩ := hf
    obtain ⟨h1, _⟩ := validate_name_failure root pre post k v f ha hb hpre hf
    refine ⟨f, h1, ?_, ?_⟩
    · rcases hcase with h | h | h
      · exact Or.inl h
      · exact Or.inr (Or.inl h)
      · exact Or.inr (Or.inr (Or.inl h))
    · rw [if_neg hrep]
      rcases hcase with h | h | h <;> rw [h] <;> rfl

/-- C10 (as stated) fails: in `rootNulThenImage` the two buffers before the one named
`image` are valid on their keys, `a\u0000b` and `a\u0000c`, and `image` repeats no earlier
key, so the claim announces an `InvalidIdentifier`; but both keys are read as `a` and the
run ends at the second buffer with a `DuplicateName`. -/
theorem C10_counterexample :
    buffersMembers (.object rootNulThenImage) =
        nulKeyBuffers ++ [("image", .number (.int 5))] ∧
      ValidBuffers id nulKeyBuffers ∧
      "image" ∉ nulKeyBuffers.map (fun m => m.1) ∧
      (validate (.object rootNulThenImage)).failure = some .bufferDuplicate ∧
      Failure.bufferDuplicate.kind ≠ .InvalidIdentifier := by
  have ht := validate_nul_keys rootNulThenImage [("image", .number (.int 5))]
    (by simp only [rootNulThenImage, FindMember, if_true])
    (by simp only [rootNulThenImage, FindMember, String.reduceEq, if_true, if_false])
  rw [ht]
  refine ⟨?_, validBuffers_id_nulKeyBuffers, by decide, rfl, by decide⟩
  simp only [buffersMembers, rootNulThenImage, FindMember, String.reduceEq, if_true, if_false,
    nulKeyBuffers, List.cons_append, List.nil_append]

/-- C10 at `rootImageAfterValid`: after the valid buffer `a` comes a buffer named `image`
whose value is the number 5; the name is what is reported. -/
theorem C10_witness :
    ∃ f, (validate (.object rootImageAfterValid)).failure = some f ∧
      (f = .bufferNoName ∨ f = .bufferBadName (cstr "image") ∨ f = .bufferNamedImage ∨
        f = .bufferDuplicate) ∧
      f.kind = if "image" ∈ [("a", exBody)].map (fun m => m.1) then .DuplicateName
        else .InvalidIdentifier :=
  C10_name_before_body rootImageAfterValid [("a", exBody)] [("b", exBody)] "image"
    (.number (.int 5))
    ⟨exAudio, by simp [FindMember, rootImageAfterValid], validAudio_exAudio⟩
    (by simp [FindMember, rootImageAfterValid])
    ⟨⟨by decide, by decide⟩, by
      intro m hm
      simp only [List.mem_singleton] at hm
      rw [hm]; exact validBody_exBody⟩
    (Or.inr (Or.inr (Or.inl rfl)))

/-! ## The render order after valid buffers -/

/-- After a non-empty object of fully valid buffers, the buffers section stores one buffer
per member, named as the member is read, and its outcome is that of the render order. -/
theorem buffersPhase_valid_buffers (root bs : List (String × JValue))
    (hb : FindMember root "buffers" = some (.object bs)) (hne : bs ≠ [])
    (hv : ValidBuffers cstr bs) :
    ∃ mB, mB.map Buffer.name = bs.map (fun m => cstr m.1) ∧
      buffersPhase root = ((renderOrder root mB).1, mB, (renderOrder root mB).2) := by
  obtain ⟨⟨hnames, hnodup⟩, hbody⟩ := hv
  obtain ⟨out, hmap, hloop⟩ := bufferLoop_valid_prefix bs [] [] [] hbody hnames
    (by simpa using hnodup)
  rw [List.append_nil] at hloop
  have hloop' : bufferLoop bs [] [] = (none, out) := by
    rw [hloop]
    simp only [bufferLoop, List.nil_append]
  cases bs with
  | nil => exact absurd rfl hne
  | cons m ms => exact ⟨out, hmap, by simp only [buffersPhase, hb, hloop']⟩

theorem findBuffer_none (nm : String) (bs : List Buffer) :
    ∀ start, nm ∉ bs.map Buffer.name → findBuffer nm bs start = none := by
  induction bs with
  | nil => intro start _; rfl
  | cons b bs ih =>
    intro start h
    simp only [List.map_cons, List.mem_cons, not_or] at h
    unfold findBuffer
    rw [if_neg (fun hb => h.1 hb.symm)]
    exact ih (start + 1) h.2

/-- Over a prefix of strings that name buffers, the render order loop appends one index
per string and goes on with the rest. -/
theorem renderLoop_valid_prefix (mB : List Buffer) (pre rest : List JValue) :
    ∀ (acc : List Nat),
      (∀ x ∈ pre, ∃ t, x = JValue.string t ∧ cstr t ∈ mB.map Buffer.name) →
      ∃ idx, idx.length = pre.length ∧
        renderLoop mB (pre ++ rest) acc = renderLoop mB rest (acc ++ idx) := by
  induction pre with
  | nil => intro acc _; exact ⟨[], rfl, by simp⟩
  | cons x pre ih =>
    intro acc h
    obtain ⟨t, rfl, ht⟩ := h x (by simp)
    obtain ⟨j, hj⟩ := findBuffer_of_mem (cstr t) mB 0 ht
    obtain ⟨idx, hlen, hloop⟩ := ih (acc ++ [j]) (fun y hy => h y (by simp [hy]))
    refine ⟨j :: idx, by simp [hlen], ?_⟩
    have step : renderLoop mB (JValue.string t :: (pre ++ rest)) acc =
        renderLoop mB (pre ++ rest) (acc ++ [j]) := by
      simp only [renderLoop, hj]
    rw [List.cons_append, step, hloop]
    simp

/-! ## C11: a render order entry that names no buffer -/

/-- C11 (as amended): for every document whose `audio_options` is valid, whose `buffers`
object has at least one member and only fully valid members, their names (each key read up
to its first NUL character) being non-empty, starting with a letter or an underscore,
different from `"image"` and pairwise distinct, and whose `render_order` is an array of
strings in which `s` is the first that, read up to its first NUL character, equals no
buffer name, validation fails with `UnknownReference`, and the message names `s` as read
up to its first NUL character.  What follows `s` in the array does not matter. -/
theorem C11_unknown_reference (root bs : List (String × JValue)) (pre post : List JValue)
    (s : String) (ha : HasValidAudio root)
    (hb : FindMember root "buffers" = some (.object bs)) (hne : bs ≠ [])
    (hv : ValidBuffers cstr bs)
    (hro : FindMember root "render_order" = some (.array (pre ++ .string s :: post)))
    (hpre : ∀ x ∈ pre, ∃ t, x = JValue.string t ∧ cstr t ∈ bs.map (fun m => cstr m.1))
    (hs : cstr s ∉ bs.map (fun m => cstr m.1)) :
    (validate (.object root)).failure = some (.renderOrderUnknown (cstr s)) ∧
      (Failure.renderOrderUnknown (cstr s)).kind = .UnknownReference ∧
      (Failure.renderOrderUnknown (cstr s)).message =
        "render_order member \"" ++ cstr s ++ "\" must be the name of a buffer in \"buffers\"" := by
  obtain ⟨a, hfa, hva⟩ := ha
  obtain ⟨ao, hao⟩ := audioOptions_of_valid hva
  obtain ⟨mB, hmap, hbp⟩ := buffersPhase_valid_buffers root bs hb hne hv
  rw [← hmap] at hpre hs
  obtain ⟨idx, _, hloop⟩ := renderLoop_valid_prefix mB pre (.string s :: post) [] hpre
  have hfind := findBuffer_none (cstr s) mB 0 hs
  have hrl : renderLoop mB (pre ++ .string s :: post) [] =
      (some (.renderOrderUnknown (cstr s)), idx) := by
    rw [hloop]
    simp only [renderLoop, hfind, List.nil_append]
  obtain ⟨x, rest, hcons⟩ : ∃ x rest, pre ++ JValue.string s :: post = x :: rest := by
    cases pre with
    | nil => exact ⟨_, _, rfl⟩
    | cons x rest => exact ⟨_, _, rfl⟩
  rw [hcons] at hro hrl
  have hr : renderOrder root mB = (some (.renderOrderUnknown (cstr s)), idx) := by
    simp only [renderOrder, hro, hrl]
  rw [hr] at hbp
  simp only [validate, hfa, hao, hbp]
  exact ⟨trivial, rfl, rfl⟩

theorem cstr_keyZzNul : cstr keyZzNul = "zz" := by decide

theorem validate_rootNulUnknownEntry :
    validate (.object rootNulUnknownEntry) =
      { failure := some (.renderOrderUnknown "zz"),
        conf := { mAudio_ops := some exAudioOptions, mBuffers := [exBuffer "a"],
                  mRender_order := [], mUniforms := [] } } := by
  have h1 : bufferName [] "a" = none := by decide
  have h3 : cstr "a" = "a" := by decide
  have h4 : ¬ ("a" = "zz") := by decide
  simp only [validate, rootNulUnknownEntry, FindMember, String.reduceEq, if_true, if_false,
    audioOptions_exAudio, buffersPhase, bufferLoop, h1, h3, cstr_keyZzNul,
    bufferBody_exBody, List.nil_append, renderOrder, renderLoop, findBuffer,
    exBuffer, h4]

/-- C11 (as stated) fails in three ways.  In `docNulRender` the only entry of
`render_order` is the string `a\u0000b`, which equals no buffer name (the one buffer is
named `a`), yet the document is accepted, because the entry is read as `a`.  In
`rootNulUnknownEntry` the entry `zz\u0000q` is reported, but under the name `zz`.  And in
`rootNulKeysUnknown` the buffers are valid on their keys, `a\u0000b` and `a\u0000c`, and
the entry `zz` names none of them, but the run ends in the buffer loop with a
`DuplicateName`. -/
theorem C11_counterexample :
    (renderOrderArray docNulRender = [.string keyANulB] ∧
        buffersMembers docNulRender = [("a", exBody)] ∧
        keyANulB ∉ (validate docNulRender).conf.mBuffers.map Buffer.name ∧
        keyANulB ∉ ["a"] ∧
        (validate docNulRender).is_ok = true) ∧
      (renderOrderArray (.object rootNulUnknownEntry) = [.string keyZzNul] ∧
        (validate (.object rootNulUnknownEntry)).failure = some (.renderOrderUnknown "zz") ∧
        keyZzNul ≠ "zz") ∧
      (buffersMembers (.object rootNulKeysUnknown) = nulKeyBuffers ∧
        ValidBuffers id nulKeyBuffers ∧
        renderOrderArray (.object rootNulKeysUnknown) = [.string "zz"] ∧
        "zz" ∉ nulKeyBuffers.map (fun m => m.1) ∧
        (validate (.object rootNulKeysUnknown)).failure = some .bufferDuplicate ∧
        Failure.bufferDuplicate.kind ≠ .UnknownReference) := by
  have ht := validate_nul_keys rootNulKeysUnknown []
    (by simp only [rootNulKeysUnknown, FindMember, if_true])
    (by simp only [rootNulKeysUnknown, FindMember, String.reduceEq, if_true, if_false])
  rw [validate_docNulRender, validate_rootNulUnknownEntry, ht]
  refine ⟨⟨?_, ?_, by decide, by decide, rfl⟩, ⟨?_, rfl, by decide⟩,
    ⟨?_, validBuffers_id_nulKeyBuffers, ?_, by decide, rfl, by decide⟩⟩
  · simp only [renderOrderArray, docNulRender, FindMember, String.reduceEq, if_true, if_false]
  · simp only [buffersMembers, docNulRender, FindMember, String.reduceEq, if_true, if_false]
  · simp only [renderOrderArray, rootNulUnknownEntry, FindMember, String.reduceEq, if_true,
      if_false]
  · simp only [buffersMembers, rootNulKeysUnknown, FindMember, String.reduceEq, if_true,
      if_false, nulKeyBuffers]
  · simp only [renderOrderArray, rootNulKeysUnknown, FindMember, String.reduceEq, if_true,
      if_false]

/-- C11 at `rootUnknownRender`: the entry `zz` is reported. -/
theorem C11_witness :
    (validate (.object rootUnknownRender)).failure = some (.renderOrderUnknown (cstr "zz")) ∧
      (Failure.renderOrderUnknown (cstr "zz")).kind = .UnknownReference ∧
      (Failure.renderOrderUnknown (cstr "zz")).message =
        "render_order member \"" ++ cstr "zz" ++ "\" must be the name of a buffer in \"buffers\"" :=
  C11_unknown_reference rootUnknownRender [("a", exBody)] [.string "a"] [.string "a"] "zz"
    ⟨exAudio, by simp [FindMember, rootUnknownRender], validAudio_exAudio⟩
    (by simp [FindMember, rootUnknownRender]) (by simp)
    ⟨⟨by decide, by decide⟩, by
      intro m hm
      simp only [List.mem_singleton] at hm
      rw [hm]; exact validBody_exBody⟩
    (by simp [FindMember, rootUnknownRender])
    (by
      intro x hx
      simp only [List.mem_singleton] at hx
      exact ⟨"a", hx, by decide⟩)
    (by decide)

/-! ## C12: buffers without a render order -/

/-- C12 (as amended): for every document whose `audio_options` is valid, whose `buffers`
object has at least one member and only fully valid members, their names (each key read up
to its first NUL character) being non-empty, starting with a letter or an underscore,
different from `"image"` and pairwise distinct, and which has no `render_order` member,
validation fails with the `MissingField` that names `render_order`. -/
theorem C12_missing_render_order (root bs : List (String × JValue))
    (ha : HasValidAudio root)
    (hb : FindMember root "buffers" = some (.object bs)) (hne : bs ≠ [])
    (hv : ValidBuffers cstr bs)
    (hro : FindMember root "render_order" = none) :
    (validate (.object root)).failure = some .needsRenderOrder ∧
      Failure.needsRenderOrder.kind = .MissingField ∧
      mentions Failure.needsRenderOrder.message "render_order" = true := by
  obtain ⟨a, hfa, hva⟩ := ha
  obtain ⟨ao, hao⟩ := audioOptions_of_valid hva
  obtain ⟨mB, _, hbp⟩ := buffersPhase_valid_buffers root bs hb hne hv
  have hr : renderOrder root mB = (some .needsRenderOrder, []) := by
    simp only [renderOrder, hro]
  rw [hr] at hbp
  simp only [validate, hfa, hao, hbp]
  exact ⟨trivial, rfl, by decide⟩

/-- C12 (as stated) fails: in `rootNulKeysNoRender` the buffers are valid on their keys,
`a\u0000b` and `a\u0000c`, and there is no `render_order`, but both keys are read as `a`
and the failure is a `DuplicateName`, not the `MissingField` for `render_order`. -/
theorem C12_counterexample :
    buffersMembers (.object rootNulKeysNoRender) = nulKeyBuffers ∧
      ValidBuffers id nulKeyBuffers ∧
      FindMember rootNulKeysNoRender "render_order" = none ∧
      (validate (.object rootNulKeysNoRender)).failure = some .bufferDuplicate ∧
      Failure.bufferDuplicate.kind ≠ .MissingField := by
  have ht := validate_nul_keys rootNulKeysNoRender []
    (by simp only [rootNulKeysNoRender, FindMember, if_true])
    (by simp only [rootNulKeysNoRender, FindMember, String.reduceEq, if_true, if_false])
  rw [ht]
  refine ⟨?_, validBuffers_id_nulKeyBuffers, ?_, rfl, by decide⟩
  · simp only [buffersMembers, rootNulKeysNoRender, FindMember, String.reduceEq, if_true,
      if_false, nulKeyBuffers]
  · simp only [rootNulKeysNoRender, FindMember, String.reduceEq, if_false]

/-- C12 at `rootNoRenderOrder`, the third example of the spec. -/
theorem C12_witness :
    (validate (.object rootNoRenderOrder)).failure = some .needsRenderOrder ∧
      Failure.needsRenderOrder.kind = .MissingField ∧
      mentions Failure.needsRenderOrder.message "render_order" = true :=
  C12_missing_render_order rootNoRenderOrder [("a", exBody)]
    ⟨exAudio, by simp [FindMember, rootNoRenderOrder], validAudio_exAudio⟩
    (by simp [FindMember, rootNoRenderOrder]) (by simp)
    ⟨⟨by decide, by decide⟩, by
      intro m hm
      simp only [List.mem_singleton] at hm
      rw [hm]; exact validBody_exBody⟩
    (by simp [FindMember, rootNoRenderOrder])

/-! ## C13: an empty `buffers` object -/

/-- C13: for every document with valid `audio_options` whose `buffers` member is absent or
is an object with no members, the buffers section raises no failure and leaves the buffer
list and the render order empty, whatever `render_order` is (nothing is assumed of it): the
failure of the run, if there is one, is that of the uniforms section. -/
theorem C13_empty_buffers (root : List (String × JValue)) (ha : HasValidAudio root)
    (hb : FindMember root "buffers" = none ∨ FindMember root "buffers" = some (.object [])) :
    buffersPhase root = (none, [], []) ∧
      (validate (.object root)).conf.mBuffers = [] ∧
      (validate (.object root)).conf.mRender_order = [] ∧
      (validate (.object root)).failure = (uniformsPhase root).1 := by
  obtain ⟨a, hfa, hva⟩ := ha
  obtain ⟨ao, hao⟩ := audioOptions_of_valid hva
  have hbp : buffersPhase root = (none, [], []) := by
    rcases hb with hb | hb <;> simp only [buffersPhase, hb]
  refine ⟨hbp, ?_⟩
  simp only [validate, hfa, hao, hbp]
  exact ⟨trivial, trivial, trivial⟩

/-- C13 at `rootEmptyBuffers`, whose `render_order` is a number. -/
theorem C13_witness :
    buffersPhase rootEmptyBuffers = (none, [], []) ∧
      (validate (.object rootEmptyBuffers)).conf.mBuffers = [] ∧
      (validate (.object rootEmptyBuffers)).conf.mRender_order = [] ∧
      (validate (.object rootEmptyBuffers)).failure = (uniformsPhase rootEmptyBuffers).1 :=
  C13_empty_buffers rootEmptyBuffers
    ⟨exAudio, by simp [FindMember, rootEmptyBuffers], validAudio_exAudio⟩
    (Or.inr (by simp [FindMember, rootEmptyBuffers]))

/-! ## C14: a uniform with more than four entries -/

/-- Over a prefix of valid uniforms the uniform loop stores one uniform per member and goes
on with the rest. -/
theorem uniformLoop_valid_prefix (pre rest : List (String × JValue)) :
    ∀ (acc : List Uniform), (∀ m ∈ pre, ValidUniform m.2) →
      ∃ us, us.length = pre.length ∧
        uniformLoop (pre ++ rest) acc = uniformLoop rest (acc ++ us) := by
  induction pre with
  | nil => intro acc _; exact ⟨[], rfl, by simp⟩
  | cons m pre ih =>
    intro acc h
    obtain ⟨key, v⟩ := m
    obtain ⟨u, hu⟩ := uniformOf_of_valid (cstr key) (h (key, v) (by simp))
    have hu' : uniformOf (cstr key) v = .ok u := hu
    obtain ⟨us, hlen, hloop⟩ := ih (acc ++ [u]) (fun y hy => h y (by simp [hy]))
    refine ⟨u :: us, by simp [hlen], ?_⟩
    have step : uniformLoop ((key, v) :: (pre ++ rest)) acc =
        uniformLoop (pre ++ rest) (acc ++ [u]) := by
      simp only [uniformLoop, hu']
    rw [List.cons_append, step, hloop]
    simp

/-- C14 (as amended): for every document with valid `audio_options` and valid `buffers`
and `render_order` (`buffers` absent, or an object of fully valid buffers whose names, each
key read up to its first NUL character, are non-empty, start with a letter or an
underscore, differ from `"image"` and are pairwise distinct, with `render_order` a
non-empty array of strings each equal to a declared key when there is a buffer) in which
the first invalid uniform, in document order, is an array with more than four entries,
validation fails with the `ArityViolation` that names that uniform by its key as read up
to the first NUL character.  Nothing is assumed of the entries: the length is checked
before the elements. -/
theorem C14_arity_violation (root pre post : List (String × JValue)) (k : String)
    (elems : List JValue) (ha : HasValidAudio root) (hbs : ValidBuffersSection root)
    (hu : FindMember root "uniforms" = some (.object (pre ++ (k, .array elems) :: post)))
    (hpre : ∀ m ∈ pre, ValidUniform m.2) (hlen : 4 < elems.length) :
    (validate (.object root)).failure = some (.uniformTooLong (cstr k)) ∧
      (Failure.uniformTooLong (cstr k)).kind = .ArityViolation ∧
      (Failure.uniformTooLong (cstr k)).message =
        "Uniform " ++ cstr k ++ " must have dimension less than or equal to 4" := by
  obtain ⟨a, hfa, hva⟩ := ha
  obtain ⟨ao, hao⟩ := audioOptions_of_valid hva
  obtain ⟨mB, mR, hbp⟩ := buffersPhase_of_valid root hbs
  obtain ⟨us, _, hloop⟩ := uniformLoop_valid_prefix pre ((k, .array elems) :: post) [] hpre
  have hlen' : elems.length > 4 := hlen
  have hup : uniformsPhase root = (some (.uniformTooLong (cstr k)), us) := by
    simp only [uniformsPhase, hu, hloop, uniformLoop, uniformOf, if_pos hlen', List.nil_append]
  simp only [validate, hfa, hao, hbp, hup]
  exact ⟨trivial, rfl, rfl⟩

theorem validate_rootNulUniformLong :
    validate (.object rootNulUniformLong) =
      { failure := some (.uniformTooLong "a"),
        conf := { mAudio_ops := some exAudioOptions, mBuffers := [], mRender_order := [],
                  mUniforms := [] } } :=
  validate_of_phases rootNulUniformLong exAudio exAudioOptions [] [] _ []
    (by simp only [rootNulUniformLong, FindMember, if_true])
    audioOptions_exAudio
    (by simp only [buffersPhase, rootNulUniformLong, FindMember, String.reduceEq, if_false])
    (by
      have h : fiveEntries.length > 4 := by decide
      simp only [uniformsPhase, rootNulUniformLong, FindMember, String.reduceEq, if_true,
        if_false, uniformLoop, uniformOf, if_pos h, cstr_keyANulB])

/-- C14 (as stated) fails in two ways.  In `rootNulKeysLongUniform` the buffers are valid
on their keys, `a\u0000b` and `a\u0000c`, the render order names a declared key and the
only uniform has five entries, but the run ends in the buffer loop with a `DuplicateName`.
In `rootNulUniformLong` the uniform of key `a\u0000b` has five entries and the
`ArityViolation` names it `a`. -/
theorem C14_counterexample :
    (buffersMembers (.object rootNulKeysLongUniform) = nulKeyBuffers ∧
        ValidBuffers id nulKeyBuffers ∧
        renderOrderArray (.object rootNulKeysLongUniform) = [.string keyANulB] ∧
        keyANulB ∈ nulKeyBuffers.map (fun m => m.1) ∧
        uniformsMembers (.object rootNulKeysLongUniform) = [("bad", .array fiveEntries)] ∧
        4 < fiveEntries.length ∧
        (validate (.object rootNulKeysLongUniform)).failure = some .bufferDuplicate ∧
        Failure.bufferDuplicate.kind ≠ .ArityViolation) ∧
      (uniformsMembers (.object rootNulUniformLong) = [(keyANulB, .array fiveEntries)] ∧
        (validate (.object rootNulUniformLong)).failure = some (.uniformTooLong "a") ∧
        keyANulB ≠ "a") := by
  have ht := validate_nul_keys rootNulKeysLongUniform []
    (by simp only [rootNulKeysLongUniform, FindMember, if_true])
    (by simp only [rootNulKeysLongUniform, FindMember, String.reduceEq, if_true, if_false])
  rw [ht, validate_rootNulUniformLong]
  refine ⟨⟨?_, validBuffers_id_nulKeyBuffers, ?_, by decide, ?_, by decide, rfl, by decide⟩,
    ⟨?_, rfl, by decide⟩⟩
  · simp only [buffersMembers, rootNulKeysLongUniform, FindMember, String.reduceEq, if_true,
      if_false, nulKeyBuffers]
  · simp only [renderOrderArray, rootNulKeysLongUniform, FindMember, String.reduceEq, if_true,
      if_false]
  · simp only [uniformsMembers, rootNulKeysLongUniform, FindMember, String.reduceEq, if_true,
      if_false]
  · simp only [uniformsMembers, rootNulUniformLong, FindMember, String.reduceEq, if_true,
      if_false]

/-- C14 at `rootLongUniform`: `bad` has five entries, one of them a string, and it is the
length that is reported. -/
theorem C14_witness :
    (validate (.object rootLongUniform)).failure = some (.uniformTooLong (cstr "bad")) ∧
      (Failure.uniformTooLong (cstr "bad")).kind = .ArityViolation ∧
      (Failure.uniformTooLong (cstr "bad")).message =
        "Uniform " ++ cstr "bad" ++ " must have dimension less than or equal to 4" :=
  C14_arity_violation rootLongUniform [("gain", .number (.real (1 / 2)))]
    [("late", .bool true)] "bad" fiveEntries
    ⟨exAudio, by simp [FindMember, rootLongUniform], validAudio_exAudio⟩
    (Or.inl (by simp [FindMember, rootLongUniform]))
    (by simp [FindMember, rootLongUniform])
    (by
      intro m hm
      simp only [List.mem_singleton] at hm
      rw [hm]; exact Or.inl ⟨_, rfl⟩)
    (by decide)

/-! ## What the loops store on success -/

theorem uniformValues_ok (name : String) (elems : List JValue) :
    ∀ (acc vs : List ℚ), uniformValues name elems acc = .ok vs →
      ∃ new, vs = acc ++ new ∧
        List.Forall₂ (fun e x => ∃ n, e = JValue.number n ∧ x = n.GetFloat) elems new := by
  induction elems with
  | nil =>
    intro acc vs h
    simp only [uniformValues, Except.ok.injEq] at h
    exact ⟨[], by simp [h], List.Forall₂.nil⟩
  | cons e elems ih =>
    intro acc vs h
    cases e with
    | number n =>
      simp only [uniformValues] at h
      obtain ⟨new, hvs, hall⟩ := ih _ _ h
      exact ⟨n.GetFloat :: new, by simp [hvs], List.Forall₂.cons ⟨n, rfl, rfl⟩ hall⟩
    | null => simp [uniformValues] at h
    | bool _ => simp [uniformValues] at h
    | string _ => simp [uniformValues] at h
    | array _ => simp [uniformValues] at h
    | object _ => simp [uniformValues] at h

/-- An accepted uniform is named as it was read and holds the converted values. -/
theorem uniformOf_ok {key : String} {v : JValue} {u : Uniform}
    (h : uniformOf (cstr key) v = .ok u) :
    UniformMirrors cstr JNumber.GetFloat (key, v) u := by
  cases v with
  | array elems =>
    simp only [uniformOf] at h
    split at h
    · simp at h
    · split at h
      · simp at h
      · rename_i vs hvs
        obtain ⟨new, hnew, hall⟩ := uniformValues_ok _ elems [] vs hvs
        simp only [Except.ok.injEq] at h
        rw [← h]
        simp only [List.nil_append] at hnew
        rw [hnew]
        exact ⟨rfl, Or.inr ⟨elems, rfl, hall⟩⟩
  | number n =>
    simp only [uniformOf, Except.ok.injEq] at h
    rw [← h]
    exact ⟨rfl, Or.inl ⟨n, rfl, rfl⟩⟩
  | null => simp [uniformOf] at h
  | bool _ => simp [uniformOf] at h
  | string _ => simp [uniformOf] at h
  | object _ => simp [uniformOf] at h

theorem uniformLoop_ok (us : List (String × JValue)) :
    ∀ (acc out : List Uniform), uniformLoop us acc = (none, out) →
      ∃ new, out = acc ++ new ∧
        List.Forall₂ (UniformMirrors cstr JNumber.GetFloat) us new := by
  induction us with
  | nil =>
    intro acc out h
    simp only [uniformLoop, Prod.mk.injEq, true_and] at h
    exact ⟨[], by simp [h], List.Forall₂.nil⟩
  | cons m us ih =>
    intro acc out h
    obtain ⟨key, v⟩ := m
    simp only [uniformLoop] at h
    split at h
    · simp at h
    · rename_i u hu
      obtain ⟨new, hout, hall⟩ := ih _ _ h
      exact ⟨u :: new, by simp [hout], List.Forall₂.cons (uniformOf_ok hu) hall⟩

theorem isInt_value {n : JNumber} (h : n.IsInt = true) : n.value = (n.GetInt : ℚ) := by
  cases n with
  | int i => rfl
  | real d => simp [JNumber.IsInt] at h

theorem bufferSize_ok {name : String} {s : JValue} {w h : Int} {iw : Bool}
    (hs : bufferSize name s = .ok (w, h, iw)) :
    (∃ a b, s = .array [.number a, .number b] ∧ a.IsInt = true ∧ b.IsInt = true ∧
        a.value = (w : ℚ) ∧ b.value = (h : ℚ) ∧ iw = false) ∨
      (∃ t, s = .string t ∧ cstr t = "window_size" ∧ w = 0 ∧ h = 0 ∧ iw = true) := by
  unfold bufferSize at hs
  split at hs
  · rename_i a b
    split at hs
    · rename_i hint
      simp only [Bool.and_eq_true] at hint
      simp only [Except.ok.injEq, Prod.mk.injEq] at hs
      obtain ⟨rfl, rfl, rfl⟩ := hs
      exact Or.inl ⟨a, b, rfl, hint.1, hint.2, isInt_value hint.1, isInt_value hint.2, rfl⟩
    · simp at hs
  · simp at hs
  · rename_i t
    split at hs
    · rename_i ht
      simp only [Except.ok.injEq, Prod.mk.injEq] at hs
      obtain ⟨rfl, rfl, rfl⟩ := hs
      exact Or.inr ⟨t, rfl, ht, rfl, rfl, rfl⟩
    · simp at hs
  · simp at hs

theorem bufferGeomIters_ok {name : String} {g : JValue} {gi : Int}
    (hg : bufferGeomIters name g = .ok gi) :
    ∃ n, g = .number n ∧ n.IsInt = true ∧ n.value = (gi : ℚ) ∧ 0 < gi := by
  unfold bufferGeomIters at hg
  split at hg
  · rename_i n
    split at hg
    · rename_i hn
      simp only [Bool.and_eq_true, decide_eq_true_eq] at hn
      simp only [Except.ok.injEq] at hg
      subst hg
      exact ⟨n, rfl, hn.1, isInt_value hn.1, hn.2⟩
    · simp at hg
  · simp at hg

theorem bufferClearColor_ok {name : String} {c : JValue} {cc : ℚ × ℚ × ℚ}
    (hc : bufferClearColor name c = .ok cc) :
    ∃ r gr bl, c = .array [.number r, .number gr, .number bl] ∧
      cc = (r.GetFloat, gr.GetFloat, bl.GetFloat) := by
  unfold bufferClearColor at hc
  split at hc
  · rename_i r gr bl
    simp only [Except.ok.injEq] at hc
    exact ⟨r, gr, bl, rfl, hc.symm⟩
  · simp at hc

/-- An accepted buffer is named as it was read and holds what its body says. -/
theorem bufferBody_ok {key : String} {v : JValue} {b : Buffer}
    (h : bufferBody (cstr key) v = .ok b) :
    BufferMirrors cstr JNumber.GetFloat (key, v) b := by
  refine ⟨bufferBody_name h, ?_⟩
  unfold bufferBody at h
  split at h
  · rename_i body
    split at h
    · simp at h
    · simp at h
    · simp at h
    · rename_i s g c hs hg hc
      split at h
      · simp at h
      · rename_i w ht iw hsize
        split at h
        · simp at h
        · rename_i gi hgeom
          split at h
          · simp at h
          · rename_i cc hclear
            simp only [Except.ok.injEq] at h
            subst h
            refine ⟨body, s, g, c, rfl, hs, hg, hc, ?_, bufferGeomIters_ok hgeom,
              bufferClearColor_ok hclear⟩
            rcases bufferSize_ok hsize with ⟨a, b', rfl, ha, hb, hw, hh, rfl⟩ |
                ⟨t, rfl, ht', rfl, rfl, rfl⟩
            · exact Or.inl ⟨a, b', rfl, ha, hb, hw, hh, rfl⟩
            · exact Or.inr ⟨t, rfl, ht', rfl, rfl, rfl⟩
  · simp at h

theorem bufferLoop_ok (ms : List (String × JValue)) :
    ∀ (names : List String) (acc out : List Buffer),
      bufferLoop ms names acc = (none, out) →
      ∃ new, out = acc ++ new ∧
        List.Forall₂ (BufferMirrors cstr JNumber.GetFloat) ms new := by
  induction ms with
  | nil =>
    intro names acc out h
    simp only [bufferLoop, Prod.mk.injEq, true_and] at h
    exact ⟨[], by simp [h], List.Forall₂.nil⟩
  | cons m ms ih =>
    intro names acc out h
    obtain ⟨key, v⟩ := m
    simp only [bufferLoop] at h
    split at h
    · simp at h
    · split at h
      · simp at h
      · rename_i b hb
        obtain ⟨new, hout, hall⟩ := ih _ _ _ h
        exact ⟨b :: new, by simp [hout], List.Forall₂.cons (bufferBody_ok hb) hall⟩

theorem GetFloat_justAboveOne : justAboveOne.GetFloat = 1 := toFloat_above_one

theorem uniformsPhase_rootOddUniforms :
    uniformsPhase rootOddUniforms = (none, storedOddUniforms) := by
  have h1 : cstr "g" = "g" := by decide
  have h2 : ¬ ([JValue.number (.int 1), JValue.number (.int 0)].length > 4) := by decide
  simp only [uniformsPhase, rootOddUniforms, uniformsOdd, FindMember, String.reduceEq,
    if_true, if_false, uniformLoop, uniformOf, if_neg h2, uniformValues, cstr_keyANulB, h1,
    GetFloat_int_one, GetFloat_int_zero, GetFloat_justAboveOne, List.nil_append,
    List.cons_append, storedOddUniforms]

theorem validate_rootOddUniforms :
    validate (.object rootOddUniforms) =
      { failure := none,
        conf := { mAudio_ops := some exAudioOptions, mBuffers := [], mRender_order := [],
                  mUniforms := storedOddUniforms } } :=
  validate_of_phases rootOddUniforms exAudio exAudioOptions [] [] none storedOddUniforms
    (by simp only [rootOddUniforms, FindMember, if_true])
    audioOptions_exAudio
    (by simp only [buffersPhase, rootOddUniforms, FindMember, String.reduceEq, if_false])
    uniformsPhase_rootOddUniforms

/-! ## C15: the uniform list mirrors the `uniforms` object -/

/-- C15 (as amended): for every document on which validation succeeds, the uniform list
has exactly one uniform per member of the `uniforms` object, in document order, each named
by its key as read up to the first NUL character; a member whose value is a number has the
one-element value sequence of that number converted to `float`, and a member whose value is
an array has the sequence of its elements, each converted to `float`, in the same order
(the empty array giving the empty sequence); if `uniforms` is absent the list is empty. -/
theorem C15_uniforms_mirror (doc : JValue) (h : (validate doc).is_ok = true) :
    List.Forall₂ (UniformMirrors cstr JNumber.GetFloat) (uniformsMembers doc)
        (validate doc).conf.mUniforms ∧
      (uniformsMembers doc = [] → (validate doc).conf.mUniforms = []) := by
  obtain ⟨root, ao, hdoc, _, _, hup⟩ := validate_ok_inv doc h
  have key : List.Forall₂ (UniformMirrors cstr JNumber.GetFloat) (uniformsMembers doc)
      (validate doc).conf.mUniforms := by
    rw [hdoc] at hup ⊢
    unfold uniformsPhase at hup
    split at hup
    · rename_i hnone
      simp only [Prod.mk.injEq, true_and] at hup
      rw [← hup]
      simp only [uniformsMembers, hnone]
      exact List.Forall₂.nil
    · rename_i us hus
      obtain ⟨new, hout, hall⟩ := uniformLoop_ok us [] _ hup
      rw [hout]
      simp only [uniformsMembers, hus, List.nil_append]
      exact hall
    · simp at hup
  refine ⟨key, ?_⟩
  intro hnil
  rw [hnil] at key
  exact List.forall₂_nil_left_iff.mp key

/-- C15 (as stated) fails: `rootOddUniforms` is accepted, but the uniform of key
`a\u0000b` is named `a`, and the uniform `g` of value `1 + 2 ^ (-30)` holds the
`float` 1. -/
theorem C15_counterexample :
    (validate (.object rootOddUniforms)).is_ok = true ∧
      uniformsMembers (.object rootOddUniforms) = uniformsOdd ∧
      (validate (.object rootOddUniforms)).conf.mUniforms = storedOddUniforms ∧
      keyANulB ≠ "a" ∧ justAboveOne.value ≠ 1 ∧
      ¬ List.Forall₂ (UniformMirrors id JNumber.value)
          (uniformsMembers (.object rootOddUniforms))
          (validate (.object rootOddUniforms)).conf.mUniforms := by
  have hm : uniformsMembers (.object rootOddUniforms) = uniformsOdd := by
    simp only [uniformsMembers, rootOddUniforms, FindMember, String.reduceEq, if_true, if_false]
  rw [validate_rootOddUniforms, hm]
  refine ⟨rfl, rfl, rfl, by decide, ?_, ?_⟩
  · norm_num [justAboveOne, JNumber.value]
  · intro hall
    simp only [uniformsOdd, storedOddUniforms] at hall
    cases hall with
    | cons h1 _ =>
      have := h1.1
      simp only [id] at this
      exact absurd this (by decide)

/-- C15 at `docFull`: `tint` holds its four entries and `gain` holds one. -/
theorem C15_witness :
    (validate docFull).is_ok = true ∧
      List.Forall₂ (UniformMirrors cstr JNumber.GetFloat) (uniformsMembers docFull)
        (validate docFull).conf.mUniforms ∧
      (uniformsMembers docFull = [] → (validate docFull).conf.mUniforms = []) := by
  have h : (validate docFull).is_ok = true := by rw [validate_docFull]; rfl
  exact ⟨h, C15_uniforms_mirror docFull h⟩

theorem cstr_sizeNul : cstr sizeNul = "window_size" := by decide

theorem bufferBody_bodyOdd : bufferBody "a" bodyOdd = .ok storedOddBuffer := by
  simp only [bufferBody, bodyOdd, FindMember, String.reduceEq, if_true, if_false, bufferSize,
    cstr_sizeNul, bufferGeomIters, bufferClearColor, JNumber.IsInt, JNumber.GetInt,
    GetFloat_int_zero, GetFloat_justAboveOne, storedOddBuffer]
  simp

theorem buffersPhase_rootOddBuffer :
    buffersPhase rootOddBuffer = (none, [storedOddBuffer], [0]) := by
  have h1 : bufferName [] "a" = none := by decide
  have h2 : cstr "a" = "a" := by decide
  have h3 : storedOddBuffer.name = "a" := rfl
  simp only [buffersPhase, rootOddBuffer, FindMember, String.reduceEq, if_true, if_false,
    bufferLoop, cstr_keyANulB, h1, bufferBody_bodyOdd, List.nil_append, renderOrder,
    renderLoop, h2, findBuffer, h3]

theorem validate_rootOddBuffer :
    validate (.object rootOddBuffer) =
      { failure := none,
        conf := { mAudio_ops := some exAudioOptions, mBuffers := [storedOddBuffer],
                  mRender_order := [0], mUniforms := [] } } :=
  validate_of_phases rootOddBuffer exAudio exAudioOptions [storedOddBuffer] [0] none []
    (by simp only [rootOddBuffer, FindMember, if_true])
    audioOptions_exAudio
    buffersPhase_rootOddBuffer
    (by simp only [uniformsPhase, rootOddBuffer, FindMember, String.reduceEq, if_false])

/-! ## C16: the buffer list mirrors the `buffers` object -/

/-- C16 (as amended): for every document on which validation succeeds, the buffer list has
exactly one buffer per member of the `buffers` object, in document order, with name equal
to the member key as read up to its first NUL character, `geom_iters` equal to the
document's (hence positive), `clear_color` equal to the three components in order, each
converted to `float`, and size either the two integers of a size array with
`is_window_size = false`, or `(0, 0)` with `is_window_size = true` when `size` is a string
that reads `"window_size"` up to its first NUL character. -/
theorem C16_buffers_mirror (doc : JValue) (h : (validate doc).is_ok = true) :
    List.Forall₂ (BufferMirrors cstr JNumber.GetFloat) (buffersMembers doc)
      (validate doc).conf.mBuffers := by
  obtain ⟨root, ao, hdoc, _, hbp, _⟩ := validate_ok_inv doc h
  rw [hdoc] at hbp ⊢
  rcases buffersPhase_ok_inv root _ _ hbp with ⟨hnone | hempty, hB, _⟩ |
      ⟨m, ms, x, rest, hb, hloop, _, _⟩
  · rw [hB]
    simp only [buffersMembers, hnone]
    exact List.Forall₂.nil
  · rw [hB]
    simp only [buffersMembers, hempty]
    exact List.Forall₂.nil
  · obtain ⟨new, hout, hall⟩ := bufferLoop_ok _ _ _ _ hloop
    rw [hout]
    simp only [buffersMembers, hb, List.nil_append]
    exact hall

/-- C16 (as stated) fails: `rootOddBuffer` is accepted, but its buffer of key `a\u0000b`
is named `a`, its size tracks the window although `size` is the string
`window_size\u0000x`, and its first clear colour component is the `float` 1 although the
document has `1 + 2 ^ (-30)`. -/
theorem C16_counterexample :
    (validate (.object rootOddBuffer)).is_ok = true ∧
      buffersMembers (.object rootOddBuffer) = [(keyANulB, bodyOdd)] ∧
      (validate (.object rootOddBuffer)).conf.mBuffers = [storedOddBuffer] ∧
      storedOddBuffer.name ≠ keyANulB ∧
      (storedOddBuffer.is_window_size = true ∧ sizeNul ≠ "window_size") ∧
      storedOddBuffer.clear_color.1 ≠ justAboveOne.value ∧
      ¬ List.Forall₂ (BufferMirrors id JNumber.value) (buffersMembers (.object rootOddBuffer))
          (validate (.object rootOddBuffer)).conf.mBuffers := by
  have hm : buffersMembers (.object rootOddBuffer) = [(keyANulB, bodyOdd)] := by
    simp only [buffersMembers, rootOddBuffer, FindMember, String.reduceEq, if_true, if_false]
  rw [validate_rootOddBuffer, hm]
  refine ⟨rfl, rfl, rfl, by decide, ⟨rfl, by decide⟩, ?_, ?_⟩
  · norm_num [storedOddBuffer, justAboveOne, JNumber.value]
  · intro hall
    cases hall with
    | cons h1 _ =>
      have := h1.1
      simp only [id] at this
      exact absurd this (by decide)

/-- C16 at `docFull`: the buffers `a` and `b`. -/
theorem C16_witness :
    (validate docFull).is_ok = true ∧
      List.Forall₂ (BufferMirrors cstr JNumber.GetFloat) (buffersMembers docFull)
        (validate docFull).conf.mBuffers := by
  have h : (validate docFull).is_ok = true := by rw [validate_docFull]; rfl
  exact ⟨h, C16_buffers_mirror docFull h⟩

/-! ## C17: a document with `audio_options` only -/

theorem log2_two_pow_29_succ : Nat.log2 (2 ^ 29 + 1) = 29 := by
  apply Nat.le_antisymm
  · have := (Nat.log2_lt (n := 2 ^ 29 + 1) (k := 30) (by norm_num)).mpr (by norm_num)
    omega
  · exact (Nat.le_log2 (by norm_num)).mpr (by norm_num)

theorem ilog2_halfPlus : ilog2 (1 / 2 + 1 / 2 ^ 30) = -1 := by
  have h1 : ((1 : ℚ) / 2 + 1 / 2 ^ 30).num = 2 ^ 29 + 1 := by norm_num
  have h2 : ((1 : ℚ) / 2 + 1 / 2 ^ 30).den = 2 ^ 30 := by norm_num
  unfold ilog2
  simp only [h1, h2]
  have h5 : ((2 : Int) ^ 29 + 1).natAbs = 2 ^ 29 + 1 := by norm_num
  rw [h5, log2_two_pow_thirty, log2_two_pow_29_succ]
  norm_num [abs_of_pos]

/-- The `double` `1/2 + 2 ^ (-30)` becomes the `float` `1/2`. -/
theorem GetFloat_halfPlus : halfPlus.GetFloat = 1 / 2 := by
  show toFloat (1 / 2 + 1 / 2 ^ 30) = 1 / 2
  unfold toFloat roundBinary
  rw [if_neg (by norm_num), ilog2_halfPlus]
  simp only
  rw [roundTiesEven_of_lt _ (2 ^ 23) (by norm_num) (by norm_num)]
  norm_num

/-- C17 (as amended): for every document whose root is an object with a valid
`audio_options` member and neither a `buffers` nor a `uniforms` member, validation succeeds
with an empty buffer list, an empty render order and an empty uniform list; the audio
options hold the document's `FFT_SMOOTH` and `WAVE_SMOOTH` converted to `float`, both in
`[0, 1]`, and exactly its `FFT_SYNC` and `DIFF_SYNC`. -/
theorem C17_audio_only (root ao : List (String × JValue)) (fs ws : JNumber) (fy dy : Bool)
    (ha : FindMember root "audio_options" = some (.object ao))
    (h1 : FindMember ao "FFT_SMOOTH" = some (.number fs))
    (h1r : 0 ≤ fs.value ∧ fs.value ≤ 1)
    (h2 : FindMember ao "WAVE_SMOOTH" = some (.number ws))
    (h2r : 0 ≤ ws.value ∧ ws.value ≤ 1)
    (h3 : FindMember ao "FFT_SYNC" = some (.bool fy))
    (h4 : FindMember ao "DIFF_SYNC" = some (.bool dy))
    (hb : FindMember root "buffers" = none) (hu : FindMember root "uniforms" = none) :
    validate (.object root) =
        { failure := none,
          conf := { mAudio_ops := some { fft_smooth := fs.GetFloat, wave_smooth := ws.GetFloat,
                                         fft_sync := fy, diff_sync := dy },
                    mBuffers := [], mRender_order := [], mUniforms := [] } } ∧
      (validate (.object root)).is_ok = true ∧
      (0 ≤ fs.GetFloat ∧ fs.GetFloat ≤ 1) ∧ (0 ≤ ws.GetFloat ∧ ws.GetFloat ≤ 1) := by
  have hf := GetFloat_unit fs h1r.1 h1r.2
  have hw := GetFloat_unit ws h2r.1 h2r.2
  have hf' : ¬ (fs.GetFloat < 0 ∨ fs.GetFloat > 1) := by
    rintro (h | h) <;> linarith [hf.1, hf.2]
  have hw' : ¬ (ws.GetFloat < 0 ∨ ws.GetFloat > 1) := by
    rintro (h | h) <;> linarith [hw.1, hw.2]
  have hao : audioOptions (.object ao) =
      .ok { fft_smooth := fs.GetFloat, wave_smooth := ws.GetFloat,
            fft_sync := fy, diff_sync := dy } := by
    simp only [audioOptions, h1, h2, h3, h4, if_neg hf', if_neg hw']
  have hv := validate_of_phases root (.object ao) _ [] [] none [] ha hao
    (by simp only [buffersPhase, hb]) (by simp only [uniformsPhase, hu])
  refine ⟨hv, ?_, hf, hw⟩
  rw [hv]
  rfl

/-- C17 (as stated) fails: in `rootHalfPlus` the option `FFT_SMOOTH` is `1/2 + 2 ^ (-30)`,
a value in `[0, 1]`; the document is accepted and the audio options hold `1/2`. -/
theorem C17_counterexample :
    (0 ≤ halfPlus.value ∧ halfPlus.value ≤ 1) ∧
      (validate (.object rootHalfPlus)).is_ok = true ∧
      (validate (.object rootHalfPlus)).conf.mAudio_ops =
        some { fft_smooth := 1 / 2, wave_smooth := 1 / 4, fft_sync := true,
               diff_sync := false } ∧
      halfPlus.value ≠ 1 / 2 := by
  have hq : (JNumber.real (1 / 4)).GetFloat = 1 / 4 := toFloat_quarter
  have h1 : ¬ ((1 / 2 : ℚ) < 0 ∨ (1 / 2 : ℚ) > 1) := by norm_num
  have h2 : ¬ ((1 / 4 : ℚ) < 0 ∨ (1 / 4 : ℚ) > 1) := by norm_num
  have hao : audioOptions (.object audioHalfPlus) =
      .ok { fft_smooth := 1 / 2, wave_smooth := 1 / 4, fft_sync := true,
            diff_sync := false } := by
    simp only [audioOptions, audioHalfPlus, FindMember, String.reduceEq, if_true, if_false,
      GetFloat_halfPlus, hq, if_neg h1, if_neg h2]
  have hv := validate_of_phases rootHalfPlus (.object audioHalfPlus) _ [] [] none []
    (by simp only [rootHalfPlus, FindMember, if_true]) hao
    (by simp only [buffersPhase, rootHalfPlus, FindMember, String.reduceEq, if_false])
    (by simp only [uniformsPhase, rootHalfPlus, FindMember, String.reduceEq, if_false])
  rw [hv]
  refine ⟨⟨?_, ?_⟩, rfl, rfl, ?_⟩ <;> norm_num [halfPlus, JNumber.value]

/-- C17 at `rootAudioOnly`, the first example of the spec. -/
theorem C17_witness :
    validate (.object rootAudioOnly) =
        { failure := none,
          conf := { mAudio_ops := some { fft_smooth := (JNumber.real (1 / 2)).GetFloat,
                                         wave_smooth := (JNumber.real (1 / 4)).GetFloat,
                                         fft_sync := true, diff_sync := false },
                    mBuffers := [], mRender_order := [], mUniforms := [] } } ∧
      (validate (.object rootAudioOnly)).is_ok = true ∧
      (0 ≤ (JNumber.real (1 / 2)).GetFloat ∧ (JNumber.real (1 / 2)).GetFloat ≤ 1) ∧
      (0 ≤ (JNumber.real (1 / 4)).GetFloat ∧ (JNumber.real (1 / 4)).GetFloat ≤ 1) :=
  C17_audio_only rootAudioOnly exAudioMembers (.real (1 / 2)) (.real (1 / 4)) true false
    (by simp [FindMember, rootAudioOnly]) (by simp [FindMember, exAudioMembers])
    (by norm_num [JNumber.value])
    (by simp [FindMember, exAudioMembers]) (by norm_num [JNumber.value])
    (by simp [FindMember, exAudioMembers]) (by simp [FindMember, exAudioMembers])
    (by simp [FindMember, rootAudioOnly]) (by simp [FindMember, rootAudioOnly])

/-! ## C18: a section does not depend on the sections after it -/

/-- The failure of a run, section by section: that of the audio options if there is one,
else that of the buffers section if there is one, else that of the uniforms section. -/
theorem validate_failure (root : List (String × JValue)) :
    (validate (.object root)).failure =
      match FindMember root "audio_options" with
      | none => some .needsAudioOptions
      | some a =>
        match audioOptions a with
        | .error f => some f
        | .ok _ =>
          match (buffersPhase root).1 with
          | some f => some f
          | none => (uniformsPhase root).1 := by
  cases ha : FindMember root "audio_options" with
  | none => simp only [validate, ha]
  | some a =>
    cases hao : audioOptions a with
    | error f => simp only [validate, ha, hao]
    | ok ao =>
      rcases hbp : buffersPhase root with ⟨f, mB, mR⟩
      cases f with
      | some f => simp only [validate, ha, hao, hbp]
      | none => simp only [validate, ha, hao, hbp]

theorem audioOptions_phase {a : JValue} {f : Failure} (h : audioOptions a = .error f) :
    f.phase = .audio := by
  unfold audioOptions at h
  split at h
  · split at h
    · simp only [Except.error.injEq] at h; rw [← h]; rfl
    · simp only [Except.error.injEq] at h; rw [← h]; rfl
    · simp only [Except.error.injEq] at h; rw [← h]; rfl
    · simp only [Except.error.injEq] at h; rw [← h]; rfl
    · split at h
      · split at h
        · simp only [Except.error.injEq] at h; rw [← h]; rfl
        · split at h
          · simp only [Except.error.injEq] at h; rw [← h]; rfl
          · simp at h
      · simp only [Except.error.injEq] at h; rw [← h]; rfl
      · simp only [Except.error.injEq] at h; rw [← h]; rfl
      · simp only [Except.error.injEq] at h; rw [← h]; rfl
      · simp only [Except.error.injEq] at h; rw [← h]; rfl
  · simp only [Except.error.injEq] at h; rw [← h]; rfl

theorem bufferName_phase {names : List String} {name : String} {f : Failure}
    (h : bufferName names name = some f) : f.phase = .buffers := by
  unfold bufferName at h
  split at h
  · simp only [Option.some.injEq] at h; rw [← h]; rfl
  · split at h
    · simp only [Option.some.injEq] at h; rw [← h]; rfl
    · split at h
      · simp only [Option.some.injEq] at h; rw [← h]; rfl
      · split at h
        · simp only [Option.some.injEq] at h; rw [← h]; rfl
        · simp at h

theorem bufferSize_phase {name : String} {s : JValue} {f : Failure}
    (h : bufferSize name s = .error f) : f.phase = .buffers := by
  unfold bufferSize at h
  split at h
  · split at h
    · simp at h
    · simp only [Except.error.injEq] at h; rw [← h]; rfl
  · simp only [Except.error.injEq] at h; rw [← h]; rfl
  · split at h
    · simp at h
    · simp only [Except.error.injEq] at h; rw [← h]; rfl
  · simp only [Except.error.injEq] at h; rw [← h]; rfl

theorem bufferGeomIters_phase {name : String} {g : JValue} {f : Failure}
    (h : bufferGeomIters name g = .error f) : f.phase = .buffers := by
  unfold bufferGeomIters at h
  split at h
  · split at h
    · simp at h
    · simp only [Except.error.injEq] at h; rw [← h]; rfl
  · simp only [Except.error.injEq] at h; rw [← h]; rfl

theorem bufferClearColor_phase {name : String} {c : JValue} {f : Failure}
    (h : bufferClearColor name c = .error f) : f.phase = .buffers := by
  unfold bufferClearColor at h
  split at h
  · simp at h
  · simp only [Except.error.injEq] at h; rw [← h]; rfl

theorem bufferBody_phase {name : String} {v : JValue} {f : Failure}
    (h : bufferBody name v = .error f) : f.phase = .buffers := by
  unfold bufferBody at h
  split at h
  · split at h
    · simp only [Except.error.injEq] at h; rw [← h]; rfl
    · simp only [Except.error.injEq] at h; rw [← h]; rfl
    · simp only [Except.error.injEq] at h; rw [← h]; rfl
    · split at h
      · rename_i g hs
        simp only [Except.error.injEq] at h
        rw [← h]; exact bufferSize_phase hs
      · split at h
        · rename_i g hg
          simp only [Except.error.injEq] at h
          rw [← h]; exact bufferGeomIters_phase hg
        · split at h
          · rename_i g hc
            simp only [Except.error.injEq] at h
            rw [← h]; exact bufferClearColor_phase hc
          · simp at h
  · simp only [Except.error.injEq] at h; rw [← h]; rfl

theorem bufferLoop_phase (ms : List (String × JValue)) :
    ∀ (names : List String) (acc out : List Buffer) (f : Failure),
      bufferLoop ms names acc = (some f, out) → f.phase = .buffers := by
  induction ms with
  | nil => intro names acc out f h; simp [bufferLoop] at h
  | cons m ms ih =>
    intro names acc out f h
    obtain ⟨key, v⟩ := m
    simp only [bufferLoop] at h
    split at h
    · rename_i g hn
      simp only [Prod.mk.injEq, Option.some.injEq] at h
      rw [← h.1]; exact bufferName_phase hn
    · split at h
      · rename_i g hb
        simp only [Prod.mk.injEq, Option.some.injEq] at h
        rw [← h.1]; exact bufferBody_phase hb
      · exact ih _ _ _ _ h

theorem renderLoop_phase (mB : List Buffer) (ro : List JValue) :
    ∀ (acc out : List Nat) (f : Failure),
      renderLoop mB ro acc = (some f, out) → f.phase = .buffers := by
  induction ro with
  | nil => intro acc out f h; simp [renderLoop] at h
  | cons x ro ih =>
    intro acc out f h
    cases x with
    | string s =>
      simp only [renderLoop] at h
      split at h
      · simp only [Prod.mk.injEq, Option.some.injEq] at h
        rw [← h.1]; rfl
      · exact ih _ _ _ h
    | null => simp only [renderLoop, Prod.mk.injEq, Option.some.injEq] at h; rw [← h.1]; rfl
    | bool _ => simp only [renderLoop, Prod.mk.injEq, Option.some.injEq] at h; rw [← h.1]; rfl
    | number _ => simp only [renderLoop, Prod.mk.injEq, Option.some.injEq] at h; rw [← h.1]; rfl
    | array _ => simp only [renderLoop, Prod.mk.injEq, Option.some.injEq] at h; rw [← h.1]; rfl
    | object _ => simp only [renderLoop, Prod.mk.injEq, Option.some.injEq] at h; rw [← h.1]; rfl

theorem renderOrder_phase {root : List (String × JValue)} {mB : List Buffer} {f : Failure}
    {out : List Nat} (h : renderOrder root mB = (some f, out)) : f.phase = .buffers := by
  unfold renderOrder at h
  split at h
  · simp only [Prod.mk.injEq, Option.some.injEq] at h; rw [← h.1]; rfl
  · exact renderLoop_phase _ _ _ _ _ h
  · simp only [Prod.mk.injEq, Option.some.injEq] at h; rw [← h.1]; rfl

/-- A failure of the buffers section is one of the failures raised in lines 118-266. -/
theorem buffersPhase_phase {root : List (String × JValue)} {f : Failure}
    (h : (buffersPhase root).1 = some f) : f.phase = .buffers := by
  unfold buffersPhase at h
  split at h
  · simp at h
  · simp at h
  · split at h
    · rename_i g mB hloop
      simp only [Option.some.injEq] at h
      rw [← h]; exact bufferLoop_phase _ _ _ _ _ hloop
    · split at h
      rename_i g mR hro
      simp only at h
      rw [h] at hro
      exact renderOrder_phase hro
  · simp only [Option.some.injEq] at h; rw [← h]; rfl

theorem uniformValues_phase (name : String) (elems : List JValue) :
    ∀ (acc : List ℚ) (f : Failure),
      uniformValues name elems acc = .error f → f.phase = .uniforms := by
  induction elems with
  | nil => intro acc f h; simp [uniformValues] at h
  | cons e elems ih =>
    intro acc f h
    cases e with
    | number n => simp only [uniformValues] at h; exact ih _ _ h
    | null => simp only [uniformValues, Except.error.injEq] at h; rw [← h]; rfl
    | bool _ => simp only [uniformValues, Except.error.injEq] at h; rw [← h]; rfl
    | string _ => simp only [uniformValues, Except.error.injEq] at h; rw [← h]; rfl
    | array _ => simp only [uniformValues, Except.error.injEq] at h; rw [← h]; rfl
    | object _ => simp only [uniformValues, Except.error.injEq] at h; rw [← h]; rfl

theorem uniformOf_phase {name : String} {v : JValue} {f : Failure}
    (h : uniformOf name v = .error f) : f.phase = .uniforms := by
  cases v with
  | array elems =>
    simp only [uniformOf] at h
    split at h
    · simp only [Except.error.injEq] at h; rw [← h]; rfl
    · split at h
      · rename_i g hv
        simp only [Except.error.injEq] at h
        rw [← h]; exact uniformValues_phase _ _ _ _ hv
      · simp at h
  | number n => simp [uniformOf] at h
  | null => simp only [uniformOf, Except.error.injEq] at h; rw [← h]; rfl
  | bool _ => simp only [uniformOf, Except.error.injEq] at h; rw [← h]; rfl
  | string _ => simp only [uniformOf, Except.error.injEq] at h; rw [← h]; rfl
  | object _ => simp only [uniformOf, Except.error.injEq] at h; rw [← h]; rfl

theorem uniformLoop_phase (us : List (String × JValue)) :
    ∀ (acc out : List Uniform) (f : Failure),
      uniformLoop us acc = (some f, out) → f.phase = .uniforms := by
  induction us with
  | nil => intro acc out f h; simp [uniformLoop] at h
  | cons m us ih =>
    intro acc out f h
    obtain ⟨key, v⟩ := m
    simp only [uniformLoop] at h
    split at h
    · rename_i g hu
      simp only [Prod.mk.injEq, Option.some.injEq] at h
      rw [← h.1]; exact uniformOf_phase hu
    · exact ih _ _ _ h

/-- A failure of the uniforms section is one of the failures raised in lines 268-310. -/
theorem uniformsPhase_phase {root : List (String × JValue)} {f : Failure}
    (h : (uniformsPhase root).1 = some f) : f.phase = .uniforms := by
  unfold uniformsPhase at h
  split at h
  · simp at h
  · rename_i us _
    exact uniformLoop_phase us [] (uniformLoop us []).2 f (by rw [← h])
  · simp only [Option.some.injEq] at h; rw [← h]; rfl

/-- The buffers section reads the members `buffers` and `render_order` only. -/
theorem buffersPhase_congr (r₁ r₂ : List (String × JValue))
    (hb : FindMember r₁ "buffers" = FindMember r₂ "buffers")
    (hr : FindMember r₁ "render_order" = FindMember r₂ "render_order") :
    buffersPhase r₁ = buffersPhase r₂ := by
  have hro : ∀ mB, renderOrder r₁ mB = renderOrder r₂ mB := by
    intro mB
    simp only [renderOrder, hr]
  simp only [buffersPhase, hb, hro]

/-- C18: take two documents with object roots that agree on `audio_options`, the first of
which fails with `f`.  If `f` is raised in the audio section, the second fails with `f`
too.  If `f` is raised in the buffers section and the documents also agree on `buffers`
and `render_order`, the second fails with `f` too, whatever the `uniforms` members are.
In both cases the two runs leave the same object behind. -/
theorem C18_phase_precedence (r₁ r₂ : List (String × JValue)) (f : Failure)
    (hf : (validate (.object r₁)).failure = some f)
    (ha : FindMember r₁ "audio_options" = FindMember r₂ "audio_options") :
    (f.phase = .audio →
        (validate (.object r₂)).failure = some f ∧
          validate (.object r₂) = validate (.object r₁)) ∧
      (f.phase = .buffers →
        FindMember r₁ "buffers" = FindMember r₂ "buffers" →
        FindMember r₁ "render_order" = FindMember r₂ "render_order" →
        (validate (.object r₂)).failure = some f ∧
          validate (.object r₂) = validate (.object r₁)) := by
  have same : validate (.object r₂) = validate (.object r₁) →
      (validate (.object r₂)).failure = some f ∧
        validate (.object r₂) = validate (.object r₁) := by
    intro h
    exact ⟨by rw [h]; exact hf, h⟩
  cases ha₁ : FindMember r₁ "audio_options" with
  | none =>
    have ha₂ : FindMember r₂ "audio_options" = none := by rw [← ha, ha₁]
    have h : validate (.object r₂) = validate (.object r₁) := by
      simp only [validate, ha₁, ha₂]
    exact ⟨fun _ => same h, fun _ _ _ => same h⟩
  | some a =>
    have ha₂ : FindMember r₂ "audio_options" = some a := by rw [← ha, ha₁]
    cases hao : audioOptions a with
    | error g =>
      have h : validate (.object r₂) = validate (.object r₁) := by
        simp only [validate, ha₁, ha₂, hao]
      exact ⟨fun _ => same h, fun _ _ _ => same h⟩
    | ok ao =>
      have hfail := validate_failure r₁
      rw [hf] at hfail
      simp only [ha₁, hao] at hfail
      rcases hbp : buffersPhase r₁ with ⟨g, mB, mR⟩
      rw [hbp] at hfail
      cases g with
      | some g =>
        simp only [Option.some.injEq] at hfail
        subst hfail
        have hph : f.phase = .buffers := buffersPhase_phase (by rw [hbp])
        refine ⟨fun hp => ?_, fun _ hb hr => ?_⟩
        · rw [hph] at hp
          exact absurd hp (by decide)
        · have hbp₂ : buffersPhase r₂ = (some f, mB, mR) := by
            rw [← buffersPhase_congr r₁ r₂ hb hr, hbp]
          exact same (by simp only [validate, ha₁, ha₂, hao, hbp, hbp₂])
      | none =>
        simp only at hfail
        have hph : f.phase = .uniforms := uniformsPhase_phase hfail.symm
        refine ⟨fun hp => ?_, fun hp _ _ => ?_⟩
        · rw [hph] at hp
          exact absurd hp (by decide)
        · rw [hph] at hp
          exact absurd hp (by decide)

theorem validate_rootNoFftSync :
    validate (.object rootNoFftSync) =
      { failure := some .audioMissingFftSync, conf := ShaderConfig.empty } := by
  simp only [validate, rootNoFftSync, FindMember, String.reduceEq, if_true, if_false,
    audioOptions]

/-- C18 at two pairs of documents.  `rootNoFftSync` fails in the audio section, and so
does `rootNoFftSyncFull`, which has the same `audio_options` and valid further sections.
`rootDuplicate` fails in the buffers section, and so does `rootDuplicateUniforms`, which
adds an invalid uniform. -/
theorem C18_witness :
    ((validate (.object rootNoFftSyncFull)).failure = some .audioMissingFftSync ∧
        validate (.object rootNoFftSyncFull) = validate (.object rootNoFftSync)) ∧
      ((validate (.object rootDuplicateUniforms)).failure = some .bufferDuplicate ∧
        validate (.object rootDuplicateUniforms) = validate (.object rootDuplicate)) :=
  ⟨(C18_phase_precedence rootNoFftSync rootNoFftSyncFull .audioMissingFftSync
      (by rw [validate_rootNoFftSync])
      (by simp only [rootNoFftSync, rootNoFftSyncFull, FindMember, if_true])).1 rfl,
    (C18_phase_precedence rootDuplicate rootDuplicateUniforms .bufferDuplicate
      (by
        have h : validate (.object rootDuplicate) = validate docDuplicate := rfl
        rw [h, validate_docDuplicate])
      (by simp only [rootDuplicate, rootDuplicateUniforms, FindMember, String.reduceEq,
        if_true, if_false])).2 rfl
      (by simp only [rootDuplicate, rootDuplicateUniforms, FindMember, String.reduceEq,
        if_true, if_false])
      (by simp only [rootDuplicate, rootDuplicateUniforms, FindMember, String.reduceEq,
        if_true, if_false])⟩

/-! ## C19: presence, then type, then range -/

/-- When an audio option is absent the audio section fails with a `MissingField`, whatever
the other options are. -/
theorem audioOptions_of_absent (ao : List (String × JValue))
    (h : FindMember ao "FFT_SMOOTH" = none ∨ FindMember ao "WAVE_SMOOTH" = none ∨
      FindMember ao "FFT_SYNC" = none ∨ FindMember ao "DIFF_SYNC" = none) :
    ∃ f, audioOptions (.object ao) = .error f ∧ f.kind = .MissingField := by
  cases h1 : FindMember ao "FFT_SMOOTH" with
  | none => exact ⟨.audioMissingFftSmooth, by simp only [audioOptions, h1], rfl⟩
  | some a =>
    cases h2 : FindMember ao "WAVE_SMOOTH" with
    | none => exact ⟨.audioMissingWaveSmooth, by simp only [audioOptions, h1, h2], rfl⟩
    | some b =>
      cases h3 : FindMember ao "FFT_SYNC" with
      | none => exact ⟨.audioMissingFftSync, by simp only [audioOptions, h1, h2, h3], rfl⟩
      | some c =>
        cases h4 : FindMember ao "DIFF_SYNC" with
        | none =>
          exact ⟨.audioMissingDiffSync, by simp only [audioOptions, h1, h2, h3, h4], rfl⟩
        | some d =>
          rw [h1, h2, h3, h4] at h
          simp at h

/-- When all four audio options are present, either they have the right types or the
audio section fails with a `TypeMismatch`. -/
theorem audioOptions_of_present (ao : List (String × JValue)) (a b c d : JValue)
    (h1 : FindMember ao "FFT_SMOOTH" = some a) (h2 : FindMember ao "WAVE_SMOOTH" = some b)
    (h3 : FindMember ao "FFT_SYNC" = some c) (h4 : FindMember ao "DIFF_SYNC" = some d) :
    (∃ fs ws fy dy, a = .number fs ∧ b = .number ws ∧ c = .bool fy ∧ d = .bool dy) ∨
      ∃ f, audioOptions (.object ao) = .error f ∧ f.kind = .TypeMismatch := by
  simp only [audioOptions, h1, h2, h3, h4]
  split
  · rename_i fs ws fy dy
    exact Or.inl ⟨fs, ws, fy, dy, rfl, rfl, rfl, rfl⟩
  · exact Or.inr ⟨_, rfl, rfl⟩
  · exact Or.inr ⟨_, rfl, rfl⟩
  · exact Or.inr ⟨_, rfl, rfl⟩
  · exact Or.inr ⟨_, rfl, rfl⟩

theorem validate_audio_error (root : List (String × JValue)) (a : JValue) (f : Failure)
    (ha : FindMember root "audio_options" = some a) (hao : audioOptions a = .error f) :
    (validate (.object root)).failure = some f := by
  simp only [validate, ha, hao]

/-- The presence pass: the first absent key, in the order `FFT_SMOOTH`, `WAVE_SMOOTH`,
`FFT_SYNC`, `DIFF_SYNC`, decides the failure. -/
theorem audioOptions_presence_order (ao : List (String × JValue)) :
    (FindMember ao "FFT_SMOOTH" = none →
        audioOptions (.object ao) = .error .audioMissingFftSmooth) ∧
      (FindMember ao "FFT_SMOOTH" ≠ none → FindMember ao "WAVE_SMOOTH" = none →
        audioOptions (.object ao) = .error .audioMissingWaveSmooth) ∧
      (FindMember ao "FFT_SMOOTH" ≠ none → FindMember ao "WAVE_SMOOTH" ≠ none →
        FindMember ao "FFT_SYNC" = none →
        audioOptions (.object ao) = .error .audioMissingFftSync) ∧
      (FindMember ao "FFT_SMOOTH" ≠ none → FindMember ao "WAVE_SMOOTH" ≠ none →
        FindMember ao "FFT_SYNC" ≠ none → FindMember ao "DIFF_SYNC" = none →
        audioOptions (.object ao) = .error .audioMissingDiffSync) := by
  refine ⟨?_, ?_, ?_, ?_⟩
  · intro h1
    simp only [audioOptions, h1]
  · intro h1 h2
    obtain ⟨a, h1⟩ := Option.ne_none_iff_exists'.mp h1
    simp only [audioOptions, h1, h2]
  · intro h1 h2 h3
    obtain ⟨a, h1⟩ := Option.ne_none_iff_exists'.mp h1
    obtain ⟨b, h2⟩ := Option.ne_none_iff_exists'.mp h2
    simp only [audioOptions, h1, h2, h3]
  · intro h1 h2 h3 h4
    obtain ⟨a, h1⟩ := Option.ne_none_iff_exists'.mp h1
    obtain ⟨b, h2⟩ := Option.ne_none_iff_exists'.mp h2
    obtain ⟨c, h3⟩ := Option.ne_none_iff_exists'.mp h3
    simp only [audioOptions, h1, h2, h3, h4]

theorem isNumber_iff {v : JValue} : v.IsNumber = true ↔ ∃ n, v = .number n := by
  cases v <;> simp [JValue.IsNumber]

theorem isBool_iff {v : JValue} : v.IsBool = true ↔ ∃ b, v = .bool b := by
  cases v <;> simp [JValue.IsBool]

/-- The type pass, run when all four keys are present: the first key of the wrong type, in
the order `FFT_SMOOTH`, `WAVE_SMOOTH`, `FFT_SYNC`, `DIFF_SYNC`, decides the failure. -/
theorem audioOptions_type_order (ao : List (String × JValue)) (a b c d : JValue)
    (h1 : FindMember ao "FFT_SMOOTH" = some a) (h2 : FindMember ao "WAVE_SMOOTH" = some b)
    (h3 : FindMember ao "FFT_SYNC" = some c) (h4 : FindMember ao "DIFF_SYNC" = some d) :
    (a.IsNumber = false → audioOptions (.object ao) = .error .fftSmoothNotNumber) ∧
      (a.IsNumber = true → b.IsNumber = false →
        audioOptions (.object ao) = .error .waveSmoothNotNumber) ∧
      (a.IsNumber = true → b.IsNumber = true → c.IsBool = false →
        audioOptions (.object ao) = .error .fftSyncNotBool) ∧
      (a.IsNumber = true → b.IsNumber = true → c.IsBool = true → d.IsBool = false →
        audioOptions (.object ao) = .error .diffSyncNotBool) := by
  refine ⟨?_, ?_, ?_, ?_⟩
  · intro ha
    cases a <;>
      first
        | (simp [JValue.IsNumber] at ha; done)
        | simp only [audioOptions, h1, h2, h3, h4]
  · intro ha hb
    obtain ⟨fs, rfl⟩ := isNumber_iff.mp ha
    cases b <;>
      first
        | (simp [JValue.IsNumber] at hb; done)
        | simp only [audioOptions, h1, h2, h3, h4]
  · intro ha hb hc
    obtain ⟨fs, rfl⟩ := isNumber_iff.mp ha
    obtain ⟨ws, rfl⟩ := isNumber_iff.mp hb
    cases c <;>
      first
        | (simp [JValue.IsBool] at hc; done)
        | simp only [audioOptions, h1, h2, h3, h4]
  · intro ha hb hc hd
    obtain ⟨fs, rfl⟩ := isNumber_iff.mp ha
    obtain ⟨ws, rfl⟩ := isNumber_iff.mp hb
    obtain ⟨fy, rfl⟩ := isBool_iff.mp hc
    cases d <;>
      first
        | (simp [JValue.IsBool] at hd; done)
        | simp only [audioOptions, h1, h2, h3, h4]

/-- The range pass, run when all four keys are present and well typed: `FFT_SMOOTH` is
tested before `WAVE_SMOOTH`, and when both are in range the audio options are stored. -/
theorem audioOptions_range_order (ao : List (String × JValue)) (fs ws : JNumber) (fy dy : Bool)
    (h1 : FindMember ao "FFT_SMOOTH" = some (.number fs))
    (h2 : FindMember ao "WAVE_SMOOTH" = some (.number ws))
    (h3 : FindMember ao "FFT_SYNC" = some (.bool fy))
    (h4 : FindMember ao "DIFF_SYNC" = some (.bool dy)) :
    ((fs.GetFloat < 0 ∨ 1 < fs.GetFloat) →
        audioOptions (.object ao) = .error .fftSmoothRange) ∧
      (¬ (fs.GetFloat < 0 ∨ 1 < fs.GetFloat) → (ws.GetFloat < 0 ∨ 1 < ws.GetFloat) →
        audioOptions (.object ao) = .error .waveSmoothRange) ∧
      (¬ (fs.GetFloat < 0 ∨ 1 < fs.GetFloat) → ¬ (ws.GetFloat < 0 ∨ 1 < ws.GetFloat) →
        audioOptions (.object ao) =
          .ok { fft_smooth := fs.GetFloat, wave_smooth := ws.GetFloat,
                fft_sync := fy, diff_sync := dy }) := by
  refine ⟨?_, ?_, ?_⟩
  · intro hf
    have hf' : fs.GetFloat < 0 ∨ fs.GetFloat > 1 := hf
    simp only [audioOptions, h1, h2, h3, h4, if_pos hf']
  · intro hf hw
    have hf' : ¬ (fs.GetFloat < 0 ∨ fs.GetFloat > 1) := hf
    have hw' : ws.GetFloat < 0 ∨ ws.GetFloat > 1 := hw
    simp only [audioOptions, h1, h2, h3, h4, if_neg hf', if_pos hw']
  · intro hf hw
    have hf' : ¬ (fs.GetFloat < 0 ∨ fs.GetFloat > 1) := hf
    have hw' : ¬ (ws.GetFloat < 0 ∨ ws.GetFloat > 1) := hw
    simp only [audioOptions, h1, h2, h3, h4, if_neg hf', if_neg hw']

theorem validate_audio_ok (root : List (String × JValue)) (a : JValue) (x : AudioOptions)
    (ha : FindMember root "audio_options" = some a) (hao : audioOptions a = .ok x) :
    (validate (.object root)).conf.mAudio_ops = some x ∧
      ∀ f, (validate (.object root)).failure = some f → f.phase ≠ .audio := by
  have hfail := validate_failure root
  simp only [ha, hao] at hfail
  rcases hbp : buffersPhase root with ⟨g, mB, mR⟩
  rw [hbp] at hfail
  cases g with
  | some g =>
    refine ⟨by simp only [validate, ha, hao, hbp], ?_⟩
    intro f hf
    rw [hf] at hfail
    simp only [Option.some.injEq] at hfail
    have hph : g.phase = .buffers := buffersPhase_phase (by rw [hbp])
    rw [hfail, hph]
    decide
  | none =>
    refine ⟨by simp only [validate, ha, hao, hbp], ?_⟩
    intro f hf
    rw [hf] at hfail
    simp only at hfail
    have hph : f.phase = .uniforms := uniformsPhase_phase hfail.symm
    rw [hph]
    decide

/-- C19: for every document whose `audio_options` is an object, the checks run in three
passes over the keys in the order `FFT_SMOOTH`, `WAVE_SMOOTH`, `FFT_SYNC`, `DIFF_SYNC`.
Presence pass: the first absent key in that order is the one reported.  Type pass, when
all four are present: the first key in that order with the wrong type is the one reported.
Range pass, when all four are present and well typed: `FFT_SMOOTH` is tested, then
`WAVE_SMOOTH`, and when both are in range the audio options are stored and no failure of
the audio section is reported.  Hence (1) if any of the four keys is absent the failure is
a `MissingField`, whatever the types and values of the keys that are present; (2) if all
four are present and any has the wrong type the failure is a `TypeMismatch`, whatever the
value of `FFT_SMOOTH`; (3) a `RangeViolation` is reported only when all four are present
and correctly typed. -/
theorem C19_audio_passes (root ao : List (String × JValue))
    (ha : FindMember root "audio_options" = some (.object ao)) :
    ((FindMember ao "FFT_SMOOTH" = none →
          (validate (.object root)).failure = some .audioMissingFftSmooth) ∧
        (FindMember ao "FFT_SMOOTH" ≠ none → FindMember ao "WAVE_SMOOTH" = none →
          (validate (.object root)).failure = some .audioMissingWaveSmooth) ∧
        (FindMember ao "FFT_SMOOTH" ≠ none → FindMember ao "WAVE_SMOOTH" ≠ none →
          FindMember ao "FFT_SYNC" = none →
          (validate (.object root)).failure = some .audioMissingFftSync) ∧
        (FindMember ao "FFT_SMOOTH" ≠ none → FindMember ao "WAVE_SMOOTH" ≠ none →
          FindMember ao "FFT_SYNC" ≠ none → FindMember ao "DIFF_SYNC" = none →
          (validate (.object root)).failure = some .audioMissingDiffSync)) ∧
    (∀ a b c d, FindMember ao "FFT_SMOOTH" = some a → FindMember ao "WAVE_SMOOTH" = some b →
      FindMember ao "FFT_SYNC" = some c → FindMember ao "DIFF_SYNC" = some d →
      (a.IsNumber = false →
          (validate (.object root)).failure = some .fftSmoothNotNumber) ∧
        (a.IsNumber = true → b.IsNumber = false →
          (validate (.object root)).failure = some .waveSmoothNotNumber) ∧
        (a.IsNumber = true → b.IsNumber = true → c.IsBool = false →
          (validate (.object root)).failure = some .fftSyncNotBool) ∧
        (a.IsNumber = true → b.IsNumber = true → c.IsBool = true → d.IsBool = false →
          (validate (.object root)).failure = some .diffSyncNotBool)) ∧
    (∀ fs ws fy dy, FindMember ao "FFT_SMOOTH" = some (.number fs) →
      FindMember ao "WAVE_SMOOTH" = some (.number ws) →
      FindMember ao "FFT_SYNC" = some (.bool fy) →
      FindMember ao "DIFF_SYNC" = some (.bool dy) →
      ((fs.GetFloat < 0 ∨ 1 < fs.GetFloat) →
          (validate (.object root)).failure = some .fftSmoothRange) ∧
        (¬ (fs.GetFloat < 0 ∨ 1 < fs.GetFloat) → (ws.GetFloat < 0 ∨ 1 < ws.GetFloat) →
          (validate (.object root)).failure = some .waveSmoothRange) ∧
        (¬ (fs.GetFloat < 0 ∨ 1 < fs.GetFloat) → ¬ (ws.GetFloat < 0 ∨ 1 < ws.GetFloat) →
          (validate (.object root)).conf.mAudio_ops =
              some { fft_smooth := fs.GetFloat, wave_smooth := ws.GetFloat,
                     fft_sync := fy, diff_sync := dy } ∧
            ∀ f, (validate (.object root)).failure = some f → f.phase ≠ .audio)) ∧
    ((FindMember ao "FFT_SMOOTH" = none ∨ FindMember ao "WAVE_SMOOTH" = none ∨
        FindMember ao "FFT_SYNC" = none ∨ FindMember ao "DIFF_SYNC" = none) →
      ∃ f, (validate (.object root)).failure = some f ∧ f.kind = .MissingField) ∧
    (∀ a b c d, FindMember ao "FFT_SMOOTH" = some a → FindMember ao "WAVE_SMOOTH" = some b →
      FindMember ao "FFT_SYNC" = some c → FindMember ao "DIFF_SYNC" = some d →
      (a.IsNumber = false ∨ b.IsNumber = false ∨ c.IsBool = false ∨ d.IsBool = false) →
      ∃ f, (validate (.object root)).failure = some f ∧ f.kind = .TypeMismatch) ∧
    (∀ f, (validate (.object root)).failure = some f → f.kind = .RangeViolation →
      ∃ fs ws fy dy, FindMember ao "FFT_SMOOTH" = some (.number fs) ∧
        FindMember ao "WAVE_SMOOTH" = some (.number ws) ∧
        FindMember ao "FFT_SYNC" = some (.bool fy) ∧
        FindMember ao "DIFF_SYNC" = some (.bool dy)) := by
  have err := fun f hf => validate_audio_error root (.object ao) f ha hf
  obtain ⟨p1, p2, p3, p4⟩ := audioOptions_presence_order ao
  refine ⟨⟨fun h => err _ (p1 h), fun h1 h2 => err _ (p2 h1 h2),
    fun h1 h2 h3 => err _ (p3 h1 h2 h3), fun h1 h2 h3 h4 => err _ (p4 h1 h2 h3 h4)⟩,
    ?_, ?_, ?_, ?_, ?_⟩
  · intro a b c d h1 h2 h3 h4
    obtain ⟨t1, t2, t3, t4⟩ := audioOptions_type_order ao a b c d h1 h2 h3 h4
    exact ⟨fun h => err _ (t1 h), fun ha' hb => err _ (t2 ha' hb),
      fun ha' hb hc => err _ (t3 ha' hb hc), fun ha' hb hc hd => err _ (t4 ha' hb hc hd)⟩
  · intro fs ws fy dy h1 h2 h3 h4
    obtain ⟨r1, r2, r3⟩ := audioOptions_range_order ao fs ws fy dy h1 h2 h3 h4
    exact ⟨fun h => err _ (r1 h), fun hf hw => err _ (r2 hf hw),
      fun hf hw => validate_audio_ok root (.object ao) _ ha (r3 hf hw)⟩
  · intro h
    obtain ⟨f, hf, hk⟩ := audioOptions_of_absent ao h
    exact ⟨f, err f hf, hk⟩
  · intro a b c d h1 h2 h3 h4 hbad
    rcases audioOptions_of_present ao a b c d h1 h2 h3 h4 with
        ⟨fs, ws, fy, dy, rfl, rfl, rfl, rfl⟩ | ⟨f, hf, hk⟩
    · simp [JValue.IsNumber, JValue.IsBool] at hbad
    · exact ⟨f, err f hf, hk⟩
  · intro f hf hk
    by_cases habs : FindMember ao "FFT_SMOOTH" = none ∨ FindMember ao "WAVE_SMOOTH" = none ∨
        FindMember ao "FFT_SYNC" = none ∨ FindMember ao "DIFF_SYNC" = none
    · obtain ⟨g, hg, hgk⟩ := audioOptions_of_absent ao habs
      have := err g hg
      rw [hf] at this
      simp only [Option.some.injEq] at this
      subst this
      rw [hk] at hgk
      exact absurd hgk (by decide)
    · simp only [not_or] at habs
      obtain ⟨a, h1⟩ := Option.ne_none_iff_exists'.mp habs.1
      obtain ⟨b, h2⟩ := Option.ne_none_iff_exists'.mp habs.2.1
      obtain ⟨c, h3⟩ := Option.ne_none_iff_exists'.mp habs.2.2.1
      obtain ⟨d, h4⟩ := Option.ne_none_iff_exists'.mp habs.2.2.2
      rcases audioOptions_of_present ao a b c d h1 h2 h3 h4 with
          ⟨fs, ws, fy, dy, rfl, rfl, rfl, rfl⟩ | ⟨g, hg, hgk⟩
      · exact ⟨fs, ws, fy, dy, h1, h2, h3, h4⟩
      · have := err g hg
        rw [hf] at this
        simp only [Option.some.injEq] at this
        subst this
        rw [hk] at hgk
        exact absurd hgk (by decide)

/-- C19 at `rootAbsentAfterBad`, where `DIFF_SYNC` is the first absent key: it is the one
reported, as a `MissingField`, although `FFT_SMOOTH` has the wrong type and `WAVE_SMOOTH`
is out of range; and at `rootFftTwo`, where the four keys are present and well typed and
the range failure of `FFT_SMOOTH` is reported. -/
theorem C19_witness :
    ((validate (.object rootAbsentAfterBad)).failure = some .audioMissingDiffSync ∧
        ∃ f, (validate (.object rootAbsentAfterBad)).failure = some f ∧
          f.kind = .MissingField) ∧
      (validate (.object rootFftTwo)).failure = some .fftSmoothRange :=
  ⟨⟨(C19_audio_passes rootAbsentAfterBad audioAbsentAfterBad
        (by simp only [rootAbsentAfterBad, FindMember, if_true])).1.2.2.2
        (by simp [audioAbsentAfterBad, FindMember])
        (by simp [audioAbsentAfterBad, FindMember])
        (by simp [audioAbsentAfterBad, FindMember])
        (by simp only [audioAbsentAfterBad, FindMember, String.reduceEq, if_false]),
      (C19_audio_passes rootAbsentAfterBad audioAbsentAfterBad
        (by simp only [rootAbsentAfterBad, FindMember, if_true])).2.2.2.1
        (Or.inr (Or.inr (Or.inr (by
          simp only [audioAbsentAfterBad, FindMember, String.reduceEq, if_false]))))⟩,
    ((C19_audio_passes rootFftTwo audioFftTwo
        (by simp only [rootFftTwo, FindMember, if_true])).2.2.1
        (.int 2) (.real (1 / 4)) true false
        (by simp [FindMember, audioFftTwo]) (by simp [FindMember, audioFftTwo])
        (by simp [FindMember, audioFftTwo]) (by simp [FindMember, audioFftTwo])).1
      (Or.inr (by rw [GetFloat_int_two]; norm_num))⟩

/-! ## C20: the constructor that takes a path -/

/-- C20: for every file content, the success flag reported by the constructor that takes a
path equals the one reported by the constructor that takes the text, but the buffer list,
the render order and the uniform list of the object it constructs are empty (and its audio
options are never assigned), whereas the constructor that takes the text leaves in its
object what the validation stored. -/
theorem C20_path_constructor_unpopulated {Path : Type} (Parse : String → Option JValue)
    (read : Path → String) (conf_file_path : Path) :
    (ShaderConfig.fromPath Parse read conf_file_path).is_ok =
        (ShaderConfig.fromString Parse (read conf_file_path)).is_ok ∧
      (ShaderConfig.fromPath Parse read conf_file_path).object.mBuffers = [] ∧
      (ShaderConfig.fromPath Parse read conf_file_path).object.mRender_order = [] ∧
      (ShaderConfig.fromPath Parse read conf_file_path).object.mUniforms = [] ∧
      (ShaderConfig.fromPath Parse read conf_file_path).object.mAudio_ops = none ∧
      (∀ user_conf, Parse (cstr (read conf_file_path)) = some user_conf →
        (ShaderConfig.fromString Parse (read conf_file_path)).object =
          (validate user_conf).conf) := by
  refine ⟨rfl, rfl, rfl, rfl, rfl, ?_⟩
  intro user_conf h
  simp only [ShaderConfig.fromString, h]

/-- On a file whose text parses to `docFull` both constructors report success; the one
that takes the text holds `confFull`, the one that takes the path holds nothing. -/
theorem fromPath_docFull {Path : Type} (Parse : String → Option JValue)
    (read : Path → String) (conf_file_path : Path)
    (h : Parse (cstr (read conf_file_path)) = some docFull) :
    (ShaderConfig.fromString Parse (read conf_file_path)) =
        { is_ok := true, object := confFull } ∧
      (ShaderConfig.fromPath Parse read conf_file_path) =
        { is_ok := true, object := ShaderConfig.empty } ∧
      confFull.mBuffers ≠ [] := by
  have hs : ShaderConfig.fromString Parse (read conf_file_path) =
      { is_ok := true, object := confFull } := by
    simp only [ShaderConfig.fromString, h, validate_docFull, Outcome.is_ok, Option.isNone_none]
  refine ⟨hs, ?_, by simp [confFull]⟩
  simp only [ShaderConfig.fromPath, hs]

end Muviz
